import Mathlib

/-!
SP-SL firmware: CRC16 codec, report store and command dispatch

A shallow embedding of `core/comm/crc.c`, `main.c` and `Light/light.c`.

Conventions of the embedding

* `unsigned char` / `uint8` values are natural numbers below 256 and `uint16`
  values are natural numbers below 65536; every C assignment that can leave
  the range is followed by an explicit `% 256` or `% 65536`.
* A byte buffer reached through a pointer is a `List Nat`; `*p++` reads are
  `List.getD _ p 0` with an explicit index, stores are `List.set`.
* A C loop that may fail to terminate is run with a loop budget and yields
  `none` when the budget is exhausted.
-/

namespace SPSL

/-! ## Constants that live in headers outside `src/` -/

/-- Build constants of `crc.h` / `comm.h`, which are not part of the sources
at hand: the maximum message length and the two mode flags. -/
structure CommConst where
  MAXMSGLEN : Nat
  CRC_FOR_MSG_TO_SEND : Nat
  CRC_FOR_MSG_TO_REC : Nat
deriving DecidableEq, Repr

/-! ## `core/comm/crc.c` -/

/-- Index `CRC16_HI` of the high byte of the CRC register. -/
def CRC16_HI : Nat := 0

/-- Index `CRC16_LO` of the low byte of the CRC register. -/
def CRC16_LO : Nat := 1

/-- Table `ucCRC16_lookupHI[16]`. -/
def ucCRC16_lookupHI : List Nat :=
  [0x00, 0x10, 0x20, 0x30, 0x40, 0x50, 0x60, 0x70,
   0x81, 0x91, 0xA1, 0xB1, 0xC1, 0xD1, 0xE1, 0xF1]

/-- Table `ucCRC16_lookupLO[16]`. -/
def ucCRC16_lookupLO : List Nat :=
  [0x00, 0x21, 0x42, 0x63, 0x84, 0xA5, 0xC6, 0xE7,
   0x08, 0x29, 0x4A, 0x6B, 0x8C, 0xAD, 0xCE, 0xEF]

/-- Routine `vCRC16_updateNibble`.  The register `ucCRCarray[2]` is the pair
`(ucCRCarray[CRC16_HI], ucCRCarray[CRC16_LO])`.  The table index `ucTmp` is
below 16 whenever the register bytes are bytes and the nibble is below 16. -/
def vCRC16_updateNibble (ucNibble : Nat) (ucCRCarray : Nat × Nat) : Nat × Nat :=
  -- ucTmp = ucCRCarray[CRC16_HI] >> 4;
  let ucTmp := (ucCRCarray.1 >>> 4) % 256
  -- ucTmp = ucTmp ^ ucNibble;
  let ucTmp := (ucTmp ^^^ ucNibble) % 256
  -- ucCRCarray[CRC16_HI] = (ucCRCarray[CRC16_HI] << 4) | (ucCRCarray[CRC16_LO] >> 4);
  let hi := ((ucCRCarray.1 <<< 4) ||| (ucCRCarray.2 >>> 4)) % 256
  -- ucCRCarray[CRC16_LO] = ucCRCarray[CRC16_LO] << 4;
  let lo := (ucCRCarray.2 <<< 4) % 256
  -- ucCRCarray[CRC16_HI] = ucCRCarray[CRC16_HI] ^ ucCRC16_lookupHI[ucTmp];
  let hi := (hi ^^^ ucCRC16_lookupHI.getD ucTmp 0) % 256
  -- ucCRCarray[CRC16_LO] = ucCRCarray[CRC16_LO] ^ ucCRC16_lookupLO[ucTmp];
  let lo := (lo ^^^ ucCRC16_lookupLO.getD ucTmp 0) % 256
  (hi, lo)

/-- Routine `vCRC16_updateByte`: high nibble first, then the low nibble. -/
def vCRC16_updateByte (ucByteVal : Nat) (ucCRCarray : Nat × Nat) : Nat × Nat :=
  vCRC16_updateNibble (ucByteVal &&& 0x0F)
    (vCRC16_updateNibble ((ucByteVal >>> 4) % 256) ucCRCarray)

/-- The loop `for(uc=0; uc<=ucLimit; uc++) vCRC16_updateByte(*ucMSGBuff++, ucCRCarray);`
of `ucCRC16_compute_msg_CRC`, entered with the current `uc`, pointer offset `p`
and register.  `uc` is an `unsigned char`, so `uc++` wraps at 256.  The first
argument is the loop budget; `none` means the budget ran out. -/
def crcLoop (ucLimit : Nat) (ucMSGBuff : List Nat) :
    Nat → Nat → Nat → Nat × Nat → Option (Nat × (Nat × Nat))
  | 0, _, _, _ => none
  | budget + 1, uc, p, ucCRCarray =>
    if uc ≤ ucLimit then
      crcLoop ucLimit ucMSGBuff budget ((uc + 1) % 256) (p + 1)
        (vCRC16_updateByte (ucMSGBuff.getD p 0) ucCRCarray)
    else
      some (p, ucCRCarray)

/-- Routine `ucCRC16_compute_msg_CRC`.  Returns the return value together with the
buffer after the call.  The loop counter takes at most 256 values, so a run
of the loop that terminates at all makes at most 256 tests; with a budget of
257 the result is `none` exactly when the C loop never exits (which needs
`ucLimit = 255`). -/
def ucCRC16_compute_msg_CRC (k : CommConst) (ucMsgFlag : Nat)
    (ucMSGBuff : List Nat) (ucLength : Nat) : Option (Nat × List Nat) :=
  -- ucLimit = ucLength - 1;   (unsigned char)
  let ucLimit := (ucLength + 255) % 256
  if ucLimit < 2 then some (0, ucMSGBuff)
  else if ucLimit > k.MAXMSGLEN then some (0, ucMSGBuff)
  else
    let ucCRCarray : Nat × Nat := (0xFF, 0xFF)
    -- if(ucMsgFlag == CRC_FOR_MSG_TO_SEND) ucLimit -=2;
    let ucLimit := if ucMsgFlag = k.CRC_FOR_MSG_TO_SEND then (ucLimit + 254) % 256 else ucLimit
    match crcLoop ucLimit ucMSGBuff 257 0 0 ucCRCarray with
    | none => none
    | some (p, ucCRCarray) =>
      if ucMsgFlag = k.CRC_FOR_MSG_TO_SEND then
        -- *ucMSGBuff++ = ucCRCarray[CRC16_HI]; *ucMSGBuff++ = ucCRCarray[CRC16_LO];
        some (1, (ucMSGBuff.set p ucCRCarray.1).set (p + 1) ucCRCarray.2)
      else if ucCRCarray.1 = 0 ∧ ucCRCarray.2 = 0 then some (1, ucMSGBuff)
      else some (0, ucMSGBuff)


/-- The CRC register reached from `init` after feeding `bytes`, in order,
through `vCRC16_updateByte`. -/
def crcFeed (init : Nat × Nat) (bytes : List Nat) : Nat × Nat :=
  bytes.foldl (fun crc b => vCRC16_updateByte b crc) init

/-- A CRC register whose two cells hold bytes. -/
def RegOK (r : Nat × Nat) : Prop := r.1 < 256 ∧ r.2 < 256

/-- Every element of the buffer is a byte. -/
def Bytes (l : List Nat) : Prop := ∀ b ∈ l, b < 256

/-- The buffer with bit `bit` of the byte at offset `j` inverted. -/
def flipBit (B : List Nat) (j bit : Nat) : List Nat :=
  B.set j (B.getD j 0 ^^^ 2 ^ bit)

/-! ## Outcomes of routines that may block or trap -/

/-- Result of running a routine: a value, a main line that never resumes
(a loop that cannot exit, or a sleep that no interrupt ends), or an integer
division by zero. -/
inductive Outcome (α : Type) where
  | ok : α → Outcome α
  | hang : Outcome α
  | divZero : Outcome α
deriving DecidableEq, Repr

/-! ## Device header and HAL, which live outside `src/` -/

/-- Bit masks of the device header `msp430x23x.h` used by `Light/light.c`. -/
structure DeviceHeader where
  BIT0 : Nat
  BIT1 : Nat
  BIT2 : Nat
  BIT3 : Nat
  BITC : Nat
  BITD : Nat
  BITE : Nat
  BITF : Nat
  CNTL_0 : Nat
  TBSSEL0 : Nat
  TBSSEL1 : Nat
  ID_1 : Nat
  MC_1 : Nat
  MC0 : Nat
  MC1 : Nat
  TBIFG : Nat
  CSTARTADD_1 : Nat
  CSTARTADD_2 : Nat
  CSTARTADD_3 : Nat
  ENC : Nat
  ADC12SC : Nat
  ADC12ON : Nat
deriving DecidableEq, Repr

/-- The values the device header gives these masks on the MSP430x23x. -/
def msp430x23x : DeviceHeader where
  BIT0 := 0x0001
  BIT1 := 0x0002
  BIT2 := 0x0004
  BIT3 := 0x0008
  BITC := 0x1000
  BITD := 0x2000
  BITE := 0x4000
  BITF := 0x8000
  CNTL_0 := 0x0000
  TBSSEL0 := 0x0100
  TBSSEL1 := 0x0200
  ID_1 := 0x0040
  MC_1 := 0x0010
  MC0 := 0x0010
  MC1 := 0x0020
  TBIFG := 0x0001
  CSTARTADD_1 := 0x1000
  CSTARTADD_2 := 0x2000
  CSTARTADD_3 := 0x3000
  ENC := 0x0002
  ADC12SC := 0x0001
  ADC12ON := 0x0010

/-- The peripheral registers touched by `Light/light.c`.  `P5OUT` is the
8-bit port behind `P_AMP_EN_OUT`; the others are 16-bit. -/
structure Regs where
  TBCTL : Nat
  TBCCR0 : Nat
  P5OUT : Nat
  ADC12CTL0 : Nat
  ADC12CTL1 : Nat
  ADC12IE : Nat
  ADC12IFG : Nat
  ADC12MEM0 : Nat
  ADC12MEM1 : Nat
  ADC12MEM2 : Nat
  ADC12MEM3 : Nat
deriving DecidableEq, Repr

/-- The two routines of `hal/adc12.c` called by `Light/light.c`.  Their source
is not at hand; they are peripheral set-up code and act on the registers. -/
structure Hal where
  vADC12_Init : Regs → Regs
  vADC12_Shutdown : Regs → Regs

/-- A HAL whose two routines leave the registers as they are. -/
def Hal.idle : Hal := ⟨id, id⟩

/-- Read-modify-write `x |= m` on a 16-bit register. -/
def bis16 (x m : Nat) : Nat := (x ||| m) % 65536

/-- Read-modify-write `x &= ~m` on a 16-bit register. -/
def bic16 (x m : Nat) : Nat := (x &&& (0xFFFF ^^^ m)) % 65536

/-- Read-modify-write `x |= m` on an 8-bit register. -/
def bis8 (x m : Nat) : Nat := (x ||| m) % 256

/-- Read-modify-write `x &= ~m` on an 8-bit register. -/
def bic8 (x m : Nat) : Nat := (x &&& (0xFFFF ^^^ m)) % 256

/-! ## `main.c`: the report store -/

/-- Number of data generators, `NUMDATGEN`. -/
def NUMDATGEN : Nat := 0x06

/-- Capacity of a slot in bytes, `MAXDATALEN`. -/
def MAXDATALEN : Nat := 0x02

/-- Flag bit `F_NEWDATA`. -/
def F_NEWDATA : Nat := 0x01

/-- One element of the array `S_Report[NUMDATGEN]`. -/
structure ReportSlot where
  m_ucaData : List Nat
  m_ucLength : Nat
  m_ucFlags : Nat
deriving DecidableEq, Repr

/-- Element `S_Report[i]`. -/
def slotAt (S : List ReportSlot) (i : Nat) : ReportSlot := S.getD i ⟨[], 0, 0⟩

/-- Assignment `S_Report[i].m_ucaData[j] = v`. -/
def setData (S : List ReportSlot) (i j v : Nat) : List ReportSlot :=
  S.set i { slotAt S i with m_ucaData := (slotAt S i).m_ucaData.set j v }

/-- Assignment `S_Report[i].m_ucLength = v`. -/
def setLength (S : List ReportSlot) (i v : Nat) : List ReportSlot :=
  S.set i { slotAt S i with m_ucLength := v }

/-- Assignment `S_Report[i].m_ucFlags = v`. -/
def setFlags (S : List ReportSlot) (i v : Nat) : List ReportSlot :=
  S.set i { slotAt S i with m_ucFlags := v }

/-- The store has the shape of the C array: `NUMDATGEN` slots, each with
`MAXDATALEN` data cells. -/
def StoreShape (S : List ReportSlot) : Prop :=
  S.length = NUMDATGEN ∧ ∀ s ∈ S, s.m_ucaData.length = MAXDATALEN

/-! ## Global state -/

/-- The registers and the global variables of `main.c` and `Light/light.c`. -/
structure Machine where
  regs : Regs
  g_unActiveChannelRequest : Nat
  g_unADChannelA1 : Nat
  g_unADChannelA2 : Nat
  g_unADChannelA3 : Nat
  g_unADChannelA4 : Nat
  g_uiCounter : Nat
  g_uiAveCounter : Nat
  g_uiDummDumm : Nat
  g_ucEventTrigger : Nat
  S_Report : List ReportSlot
deriving DecidableEq, Repr

/-! ## `Light/light.h` -/

/-- Pin `AMP2_EN`, defined as `BIT2`. -/
def AMP2_EN (d : DeviceHeader) : Nat := d.BIT2

/-- Pin `AMP1_EN`, defined as `BIT1`. -/
def AMP1_EN (d : DeviceHeader) : Nat := d.BIT1

/-- Pin `VREF_EN`, defined as `BIT0`. -/
def VREF_EN (d : DeviceHeader) : Nat := d.BIT0

/-! ## `Light/light.c` -/

/-- Routine `vLight_Init`. -/
def vLight_Init (d : DeviceHeader) (hal : Hal) (m : Machine) : Machine :=
  let r := hal.vADC12_Init m.regs
  -- P_AMP_EN_OUT &= ~VREF_EN;
  let r := { r with P5OUT := bic8 r.P5OUT (VREF_EN d) }
  -- ADC12CTL0 |= ADC12ON;
  let r := { r with ADC12CTL0 := bis16 r.ADC12CTL0 d.ADC12ON }
  { m with regs := r }

/-- Routine `vLight_Shutdown`. -/
def vLight_Shutdown (d : DeviceHeader) (hal : Hal) (m : Machine) : Machine :=
  let r := hal.vADC12_Shutdown m.regs
  -- P_AMP_EN_OUT |= VREF_EN;
  let r := { r with P5OUT := bis8 r.P5OUT (VREF_EN d) }
  { m with regs := r }

/-- The 17 ms warm-up shared by the four read routines: Timer B is set up,
the busy-wait `while(!(TBCTL & TBIFG));` ends when the timer hardware raises
`TBIFG`, and the timer is cleared. -/
def warmUp (d : DeviceHeader) (r : Regs) : Regs :=
  -- TBCTL |= CNTL_0; TBCTL |= TBSSEL1; TBCTL &= ~TBSSEL0; TBCTL |= ID_1;
  let r := { r with TBCTL := bis16 r.TBCTL d.CNTL_0 }
  let r := { r with TBCTL := bis16 r.TBCTL d.TBSSEL1 }
  let r := { r with TBCTL := bic16 r.TBCTL d.TBSSEL0 }
  let r := { r with TBCTL := bis16 r.TBCTL d.ID_1 }
  -- TBCCR0 = 0X84D0; TBCTL |= MC_1;
  let r := { r with TBCCR0 := 0x84D0 }
  let r := { r with TBCTL := bis16 r.TBCTL d.MC_1 }
  -- while(!(TBCTL & TBIFG));   the timer raises TBIFG
  let r := { r with TBCTL := bis16 r.TBCTL d.TBIFG }
  -- TBCTL &= ~(TBIFG | MC0 | MC1);
  { r with TBCTL := bic16 r.TBCTL (d.TBIFG ||| d.MC0 ||| d.MC1) }

/-- Interrupt handler `ADCConversion`. -/
def ADCConversion (m : Machine) : Machine :=
  let m :=
    match m.g_unActiveChannelRequest with
    | 1 => { m with g_unADChannelA1 := (m.g_unADChannelA1 + m.regs.ADC12MEM0) % 65536 }
    | 2 => { m with g_unADChannelA2 := (m.g_unADChannelA2 + m.regs.ADC12MEM1) % 65536 }
    | 3 => { m with g_unADChannelA3 := (m.g_unADChannelA3 + m.regs.ADC12MEM2) % 65536 }
    | 4 => { m with g_unADChannelA4 := (m.g_unADChannelA4 + m.regs.ADC12MEM3) % 65536 }
    | _ => m
  -- g_uiCounter++;   (uint8)
  { m with g_uiCounter := (m.g_uiCounter + 1) % 256 }

/-- The converter finishes a conversion for channel `k` with result `r`: the
result appears in the conversion memory register `ADC12MEM(k-1)`, the one the
handler reads for that channel. -/
def convert (k r : Nat) (m : Machine) : Machine :=
  match k with
  | 1 => { m with regs := { m.regs with ADC12MEM0 := r } }
  | 2 => { m with regs := { m.regs with ADC12MEM1 := r } }
  | 3 => { m with regs := { m.regs with ADC12MEM2 := r } }
  | 4 => { m with regs := { m.regs with ADC12MEM3 := r } }
  | _ => m

/-- Body of the sample loop up to the sleep: `ADC12CTL0 |= ENC;
ADC12CTL0 |= ADC12SC;`. -/
def trigger (d : DeviceHeader) (m : Machine) : Machine :=
  let r := m.regs
  let r := { r with ADC12CTL0 := bis16 r.ADC12CTL0 d.ENC }
  let r := { r with ADC12CTL0 := bis16 r.ADC12CTL0 d.ADC12SC }
  { m with regs := r }

/-- The sample loop `while(g_uiCounter < *punAvgCount) { trigger; sleep }` of
the read routine for channel `k`.  The list holds the results of the
conversions the converter completes, in order; each sleep ends with the next
result delivered and `ADCConversion` run.  When the loop wants another sample
and the converter completes no further conversion, the sleep never ends. -/
def sampleLoop (d : DeviceHeader) (k avgCount : Nat) :
    List Nat → Machine → Outcome (Machine × List Nat)
  | [], m => if m.g_uiCounter < avgCount then Outcome.hang else Outcome.ok (m, [])
  | r :: rest, m =>
    if m.g_uiCounter < avgCount then
      sampleLoop d k avgCount rest (ADCConversion (convert k r (trigger d m)))
    else Outcome.ok (m, r :: rest)

/-- Routine `unLIGHT_ReadChannel_1`, called with `*punAvgCount = avgCount`.
Returns the reading, the state and the conversion results not consumed. -/
def unLIGHT_ReadChannel_1 (d : DeviceHeader) (avgCount : Nat) (convs : List Nat)
    (m : Machine) : Outcome (Nat × Machine × List Nat) :=
  let m := { m with g_uiCounter := 0 }
  let m := { m with regs := warmUp d m.regs }
  -- P_AMP_EN_OUT &= ~AMP1_EN;
  let m := { m with regs := { m.regs with P5OUT := bic8 m.regs.P5OUT (AMP1_EN d) } }
  let m := { m with g_unADChannelA1 := 0 }
  let m := { m with g_unActiveChannelRequest := 1 }
  -- ADC12CTL1 &= ~(BITF | BITE | BITD | BITC); ADC12IE |= BIT0; ADC12IFG &= ~BIT0;
  let m := { m with regs := { m.regs with
    ADC12CTL1 := bic16 m.regs.ADC12CTL1 (d.BITF ||| d.BITE ||| d.BITD ||| d.BITC) } }
  let m := { m with regs := { m.regs with ADC12IE := bis16 m.regs.ADC12IE d.BIT0 } }
  let m := { m with regs := { m.regs with ADC12IFG := bic16 m.regs.ADC12IFG d.BIT0 } }
  match sampleLoop d 1 avgCount convs m with
  | Outcome.hang => Outcome.hang
  | Outcome.divZero => Outcome.divZero
  | Outcome.ok (m, convs) =>
    -- ADC12IE &= ~BIT0; ADC12CTL0 &= ~ENC; ADC12CTL0 &= ~ADC12ON;
    let m := { m with regs := { m.regs with ADC12IE := bic16 m.regs.ADC12IE d.BIT0 } }
    let m := { m with regs := { m.regs with ADC12CTL0 := bic16 m.regs.ADC12CTL0 d.ENC } }
    let m := { m with regs := { m.regs with ADC12CTL0 := bic16 m.regs.ADC12CTL0 d.ADC12ON } }
    -- P_AMP_EN_OUT |= AMP1_EN;
    let m := { m with regs := { m.regs with P5OUT := bis8 m.regs.P5OUT (AMP1_EN d) } }
    -- return g_unADChannelA1 /= * punAvgCount;
    if avgCount = 0 then Outcome.divZero
    else
      let m := { m with g_unADChannelA1 := m.g_unADChannelA1 / avgCount }
      Outcome.ok (m.g_unADChannelA1, m, convs)

/-- Routine `unLIGHT_ReadChannel_2`. -/
def unLIGHT_ReadChannel_2 (d : DeviceHeader) (avgCount : Nat) (convs : List Nat)
    (m : Machine) : Outcome (Nat × Machine × List Nat) :=
  let m := { m with g_uiCounter := 0 }
  let m := { m with regs := warmUp d m.regs }
  -- P_AMP_EN_OUT &= ~AMP1_EN;
  let m := { m with regs := { m.regs with P5OUT := bic8 m.regs.P5OUT (AMP1_EN d) } }
  let m := { m with g_unADChannelA2 := 0 }
  let m := { m with g_unActiveChannelRequest := 2 }
  -- ADC12CTL1 |= CSTARTADD_1; ADC12IE |= BIT1; ADC12IFG &= ~BIT1;
  let m := { m with regs := { m.regs with ADC12CTL1 := bis16 m.regs.ADC12CTL1 d.CSTARTADD_1 } }
  let m := { m with regs := { m.regs with ADC12IE := bis16 m.regs.ADC12IE d.BIT1 } }
  let m := { m with regs := { m.regs with ADC12IFG := bic16 m.regs.ADC12IFG d.BIT1 } }
  match sampleLoop d 2 avgCount convs m with
  | Outcome.hang => Outcome.hang
  | Outcome.divZero => Outcome.divZero
  | Outcome.ok (m, convs) =>
    -- ADC12IE &= ~BIT1; ADC12CTL0 &= ~ENC; ADC12CTL0 &= ~ADC12ON;
    let m := { m with regs := { m.regs with ADC12IE := bic16 m.regs.ADC12IE d.BIT1 } }
    let m := { m with regs := { m.regs with ADC12CTL0 := bic16 m.regs.ADC12CTL0 d.ENC } }
    let m := { m with regs := { m.regs with ADC12CTL0 := bic16 m.regs.ADC12CTL0 d.ADC12ON } }
    -- P_AMP_EN_OUT |= AMP1_EN;
    let m := { m with regs := { m.regs with P5OUT := bis8 m.regs.P5OUT (AMP1_EN d) } }
    -- return g_unADChannelA2 /= *punAvgCount;
    if avgCount = 0 then Outcome.divZero
    else
      let m := { m with g_unADChannelA2 := m.g_unADChannelA2 / avgCount }
      Outcome.ok (m.g_unADChannelA2, m, convs)

/-- Routine `unLIGHT_ReadChannel_3`. -/
def unLIGHT_ReadChannel_3 (d : DeviceHeader) (avgCount : Nat) (convs : List Nat)
    (m : Machine) : Outcome (Nat × Machine × List Nat) :=
  let m := { m with g_uiCounter := 0 }
  let m := { m with regs := warmUp d m.regs }
  -- P_AMP_EN_OUT &= ~AMP2_EN;
  let m := { m with regs := { m.regs with P5OUT := bic8 m.regs.P5OUT (AMP2_EN d) } }
  let m := { m with g_unADChannelA3 := 0 }
  let m := { m with g_unActiveChannelRequest := 3 }
  -- ADC12CTL1 |= CSTARTADD_2; ADC12IE |= BIT2; ADC12IFG &= ~BIT2;
  let m := { m with regs := { m.regs with ADC12CTL1 := bis16 m.regs.ADC12CTL1 d.CSTARTADD_2 } }
  let m := { m with regs := { m.regs with ADC12IE := bis16 m.regs.ADC12IE d.BIT2 } }
  let m := { m with regs := { m.regs with ADC12IFG := bic16 m.regs.ADC12IFG d.BIT2 } }
  match sampleLoop d 3 avgCount convs m with
  | Outcome.hang => Outcome.hang
  | Outcome.divZero => Outcome.divZero
  | Outcome.ok (m, convs) =>
    -- ADC12IE &= ~BIT2; ADC12CTL0 &= ~ENC; ADC12CTL0 &= ~ADC12ON;
    let m := { m with regs := { m.regs with ADC12IE := bic16 m.regs.ADC12IE d.BIT2 } }
    let m := { m with regs := { m.regs with ADC12CTL0 := bic16 m.regs.ADC12CTL0 d.ENC } }
    let m := { m with regs := { m.regs with ADC12CTL0 := bic16 m.regs.ADC12CTL0 d.ADC12ON } }
    -- P_AMP_EN_OUT |= AMP2_EN;
    let m := { m with regs := { m.regs with P5OUT := bis8 m.regs.P5OUT (AMP2_EN d) } }
    -- return g_unADChannelA3 /= *punAvgCount;
    if avgCount = 0 then Outcome.divZero
    else
      let m := { m with g_unADChannelA3 := m.g_unADChannelA3 / avgCount }
      Outcome.ok (m.g_unADChannelA3, m, convs)

/-- Routine `unLIGHT_ReadChannel_4`. -/
def unLIGHT_ReadChannel_4 (d : DeviceHeader) (avgCount : Nat) (convs : List Nat)
    (m : Machine) : Outcome (Nat × Machine × List Nat) :=
  let m := { m with g_uiCounter := 0 }
  let m := { m with regs := warmUp d m.regs }
  -- P_AMP_EN_OUT &= ~AMP2_EN;
  let m := { m with regs := { m.regs with P5OUT := bic8 m.regs.P5OUT (AMP2_EN d) } }
  let m := { m with g_unADChannelA4 := 0 }
  let m := { m with g_unActiveChannelRequest := 4 }
  -- ADC12CTL1 |= CSTARTADD_3; ADC12IE |= BIT3; ADC12IFG &= ~BIT3;
  let m := { m with regs := { m.regs with ADC12CTL1 := bis16 m.regs.ADC12CTL1 d.CSTARTADD_3 } }
  let m := { m with regs := { m.regs with ADC12IE := bis16 m.regs.ADC12IE d.BIT3 } }
  let m := { m with regs := { m.regs with ADC12IFG := bic16 m.regs.ADC12IFG d.BIT3 } }
  match sampleLoop d 4 avgCount convs m with
  | Outcome.hang => Outcome.hang
  | Outcome.divZero => Outcome.divZero
  | Outcome.ok (m, convs) =>
    -- ADC12IE &= ~BIT3; ADC12CTL0 &= ~ENC; ADC12CTL0 &= ~ADC12ON;
    let m := { m with regs := { m.regs with ADC12IE := bic16 m.regs.ADC12IE d.BIT3 } }
    let m := { m with regs := { m.regs with ADC12CTL0 := bic16 m.regs.ADC12CTL0 d.ENC } }
    let m := { m with regs := { m.regs with ADC12CTL0 := bic16 m.regs.ADC12CTL0 d.ADC12ON } }
    -- P_AMP_EN_OUT |= AMP2_EN;
    let m := { m with regs := { m.regs with P5OUT := bis8 m.regs.P5OUT (AMP2_EN d) } }
    -- return g_unADChannelA4 /= *punAvgCount;
    if avgCount = 0 then Outcome.divZero
    else
      let m := { m with g_unADChannelA4 := m.g_unADChannelA4 / avgCount }
      Outcome.ok (m.g_unADChannelA4, m, convs)

/-! ## `main.c`: handlers, store operations and dispatch -/

/-- Handler `uiMain_Test`. -/
def uiMain_Test (m : Machine) : Nat × Machine :=
  let S := m.S_Report
  let S := setData S 0 0 0xDE
  let S := setData S 0 1 0xAD
  let S := setLength S 0 2
  -- S_Report[0].m_ucFlags |= F_NEWDATA;
  let S := setFlags S 0 (bis8 (slotAt S 0).m_ucFlags F_NEWDATA)
  (0, { m with S_Report := S })

/-- The four stores every channel handler makes into its slot `i` once the
reading `uiLight` is known. -/
def storeReading (S : List ReportSlot) (i uiLight : Nat) : List ReportSlot :=
  -- S_Report[i].m_ucaData[0] = (uint8)(uiLight >> 8);
  let S := setData S i 0 ((uiLight >>> 8) % 256)
  -- S_Report[i].m_ucaData[1] = (uint8) uiLight;
  let S := setData S i 1 (uiLight % 256)
  let S := setLength S i 2
  -- S_Report[i].m_ucFlags |= F_NEWDATA;
  setFlags S i (bis8 (slotAt S i).m_ucFlags F_NEWDATA)

/-- Handler `uiMain_SL1`. -/
def uiMain_SL1 (d : DeviceHeader) (hal : Hal) (convs : List Nat) (m : Machine) :
    Outcome (Nat × Machine × List Nat) :=
  let m := vLight_Init d hal m
  match unLIGHT_ReadChannel_1 d m.g_uiAveCounter convs m with
  | Outcome.hang => Outcome.hang
  | Outcome.divZero => Outcome.divZero
  | Outcome.ok (uiLight, m, convs) =>
    let m := { m with S_Report := storeReading m.S_Report 1 uiLight }
    let m := vLight_Shutdown d hal m
    Outcome.ok (0, m, convs)

/-- Handler `uiMain_SL2`. -/
def uiMain_SL2 (d : DeviceHeader) (hal : Hal) (convs : List Nat) (m : Machine) :
    Outcome (Nat × Machine × List Nat) :=
  let m := vLight_Init d hal m
  match unLIGHT_ReadChannel_2 d m.g_uiAveCounter convs m with
  | Outcome.hang => Outcome.hang
  | Outcome.divZero => Outcome.divZero
  | Outcome.ok (uiLight, m, convs) =>
    let m := { m with S_Report := storeReading m.S_Report 2 uiLight }
    let m := vLight_Shutdown d hal m
    Outcome.ok (1, m, convs)

/-- Handler `uiMain_SL3`. -/
def uiMain_SL3 (d : DeviceHeader) (hal : Hal) (convs : List Nat) (m : Machine) :
    Outcome (Nat × Machine × List Nat) :=
  let m := vLight_Init d hal m
  match unLIGHT_ReadChannel_3 d m.g_uiAveCounter convs m with
  | Outcome.hang => Outcome.hang
  | Outcome.divZero => Outcome.divZero
  | Outcome.ok (uiLight, m, convs) =>
    let m := { m with S_Report := storeReading m.S_Report 3 uiLight }
    let m := vLight_Shutdown d hal m
    Outcome.ok (1, m, convs)

/-- Handler `uiMain_SL4`. -/
def uiMain_SL4 (d : DeviceHeader) (hal : Hal) (convs : List Nat) (m : Machine) :
    Outcome (Nat × Machine × List Nat) :=
  let m := vLight_Init d hal m
  match unLIGHT_ReadChannel_4 d m.g_uiAveCounter convs m with
  | Outcome.hang => Outcome.hang
  | Outcome.divZero => Outcome.divZero
  | Outcome.ok (uiLight, m, convs) =>
    let m := { m with S_Report := storeReading m.S_Report 4 uiLight }
    let m := vLight_Shutdown d hal m
    Outcome.ok (1, m, convs)

/-- Body of the outer loop of `vMain_CleanDataStruct` for one slot. -/
def cleanSlot (S : List ReportSlot) (ucDataGenCnt : Nat) : List ReportSlot :=
  let S := setFlags S ucDataGenCnt 0
  let S := setLength S ucDataGenCnt 0
  -- for (ucByteCnt = 0; ucByteCnt < MAXDATALEN; ucByteCnt++) m_ucaData[ucByteCnt] = 0;
  (List.range MAXDATALEN).foldl (fun S ucByteCnt => setData S ucDataGenCnt ucByteCnt 0) S

/-- Routine `vMain_CleanDataStruct`. -/
def vMain_CleanDataStruct (m : Machine) : Machine :=
  { m with S_Report := (List.range NUMDATGEN).foldl cleanSlot m.S_Report }

/-- The inner loop of `ucMain_FetchData` for slot `i`, entered with the
current `ucByteCnt`: each pass appends one data byte to the bytes stored
through `pucBuff` and deletes it from the slot.  `m_ucLength` is at most 255,
so a budget of 256 passes is never used up. -/
def fetchDataLoop (i : Nat) :
    Nat → Nat → List ReportSlot → List Nat → List ReportSlot × List Nat
  | 0, _, S, out => (S, out)
  | budget + 1, ucByteCnt, S, out =>
    if ucByteCnt < (slotAt S i).m_ucLength then
      -- *pucBuff++ = S_Report[i].m_ucaData[ucByteCnt]; S_Report[i].m_ucaData[ucByteCnt] = 0;
      fetchDataLoop i budget ((ucByteCnt + 1) % 256)
        (setData S i ucByteCnt 0) (out ++ [(slotAt S i).m_ucaData.getD ucByteCnt 0])
    else (S, out)

/-- Body of the outer loop of `ucMain_FetchData` for slot `ucDataGenCnt`.  The
state is `ucLength`, the bytes stored so far through `pucBuff` (the buffer
holds them at offsets 0, 1, 2, ...) and the store. -/
def fetchSlot (st : Nat × List Nat × List ReportSlot) (ucDataGenCnt : Nat) :
    Nat × List Nat × List ReportSlot :=
  let (ucLength, out, S) := st
  if (slotAt S ucDataGenCnt).m_ucFlags &&& F_NEWDATA ≠ 0 then
    -- *pucBuff++ = ucDataGenCnt; *pucBuff++ = S_Report[ucDataGenCnt].m_ucLength;
    let out := out ++ [ucDataGenCnt, (slotAt S ucDataGenCnt).m_ucLength]
    let (S, out) := fetchDataLoop ucDataGenCnt 256 0 S out
    -- ucLength += (S_Report[ucDataGenCnt].m_ucLength + 2);   (uint8)
    let ucLength := (ucLength + ((slotAt S ucDataGenCnt).m_ucLength + 2)) % 256
    let S := setLength S ucDataGenCnt 0
    -- S_Report[ucDataGenCnt].m_ucFlags &= ~F_NEWDATA;
    let S := setFlags S ucDataGenCnt (bic8 (slotAt S ucDataGenCnt).m_ucFlags F_NEWDATA)
    (ucLength, out, S)
  else (ucLength, out, S)

/-- Routine `ucMain_FetchData`: the return value, the bytes stored through
`pucBuff` in order, and the store after the call. -/
def ucMain_FetchData (S : List ReportSlot) : Nat × List Nat × List ReportSlot :=
  (List.range NUMDATGEN).foldl fetchSlot (0, [], S)

/-- The assignment `ucRetVal = handler(ucParam);` of a handler's `uint16`
result to the `uint8` local of `uiMainDispatch`. -/
def narrowRet (o : Outcome (Nat × Machine × List Nat)) : Outcome (Nat × Machine × List Nat) :=
  match o with
  | Outcome.ok (v, m, convs) => Outcome.ok (v % 256, m, convs)
  | Outcome.hang => Outcome.hang
  | Outcome.divZero => Outcome.divZero

/-- Routine `uiMainDispatch`.  The parameter length and array are unused by
every handler. -/
def uiMainDispatch (d : DeviceHeader) (hal : Hal) (ucCmdTransNum : Nat)
    (_ucCmdParamLen : Nat) (_ucParam : List Nat) (convs : List Nat) (m : Machine) :
    Outcome (Nat × Machine × List Nat) :=
  match ucCmdTransNum with
  | 0 => narrowRet (Outcome.ok ((uiMain_Test m).1, (uiMain_Test m).2, convs))
  | 1 => narrowRet (uiMain_SL1 d hal convs m)
  | 2 => narrowRet (uiMain_SL2 d hal convs m)
  | 3 => narrowRet (uiMain_SL3 d hal convs m)
  | 4 => narrowRet (uiMain_SL4 d hal convs m)
  | _ => Outcome.ok (1, m, convs)

/-- The record `[slot_id, length, data[0..length-1]]` of slot `i`. -/
def record (i : Nat) (s : ReportSlot) : List Nat :=
  [i, s.m_ucLength] ++ s.m_ucaData.take s.m_ucLength

/-- Whether the slot has its `F_NEWDATA` flag set. -/
def flagged (s : ReportSlot) : Prop := s.m_ucFlags &&& F_NEWDATA ≠ 0

instance (s : ReportSlot) : Decidable (flagged s) := by unfold flagged; infer_instance

/-- The bytes the wire format prescribes for slot `i`: its record when it
is flagged, nothing otherwise. -/
def recordIf (i : Nat) (s : ReportSlot) : List Nat :=
  if flagged s then record i s else []

/-- What a slot contributes to the byte count: `length + 2` when it is
flagged, nothing otherwise. -/
def recordCost (s : ReportSlot) : Nat :=
  if flagged s then s.m_ucLength + 2 else 0

/-- The report body the wire format prescribes for a store: the records of
the flagged slots, by increasing slot ID. -/
def reportBody (S : List ReportSlot) : List Nat :=
  ((List.range NUMDATGEN).map (fun i => recordIf i (slotAt S i))).flatten

/-- A slot as `ucMain_FetchData` leaves it after shipping it. -/
def drained (s : ReportSlot) : ReportSlot :=
  { m_ucaData := List.replicate s.m_ucLength 0 ++ s.m_ucaData.drop s.m_ucLength,
    m_ucLength := 0,
    m_ucFlags := bic8 s.m_ucFlags F_NEWDATA }

/-- One call from the outside: a dispatch with its command and the results
the converter will deliver, or a fetch. -/
inductive Call where
  | dispatch (ucCmdTransNum ucCmdParamLen : Nat) (ucParam convs : List Nat) : Call
  | fetch : Call
deriving DecidableEq, Repr

/-- States reachable from `vMain_CleanDataStruct` by `uiMainDispatch` calls
that return and `ucMain_FetchData` calls. -/
inductive Reachable (d : DeviceHeader) (hal : Hal) : Machine → Prop where
  | clean (m : Machine) (h : StoreShape m.S_Report) :
      Reachable d hal (vMain_CleanDataStruct m)
  | dispatch (m m' : Machine) (c len ret : Nat) (param convs convs' : List Nat)
      (h : Reachable d hal m)
      (hstep : uiMainDispatch d hal c len param convs m = Outcome.ok (ret, m', convs')) :
      Reachable d hal m'
  | fetch (m : Machine) (h : Reachable d hal m) :
      Reachable d hal { m with S_Report := (ucMain_FetchData m.S_Report).2.2 }

/-- The slot's length fits its data cells and is a byte. -/
def SlotFits (s : ReportSlot) : Prop :=
  s.m_ucLength ≤ s.m_ucaData.length ∧ s.m_ucLength < 256

/-- A slot either holds an unread two-byte reading or is entirely clear. -/
def SlotInv (s : ReportSlot) : Prop :=
  s.m_ucaData.length = MAXDATALEN ∧
    ((flagged s ∧ s.m_ucLength = 2) ∨
      (¬ flagged s ∧ s.m_ucLength = 0 ∧ s.m_ucaData = [0, 0]))

/-- Every slot of a six-slot store satisfies `SlotInv`. -/
def StoreInv (S : List ReportSlot) : Prop :=
  S.length = NUMDATGEN ∧ ∀ s ∈ S, SlotInv s

/-- A power-on state used to instantiate the theorems: registers and globals
zero except the amplifier port and the sample count, and a store of the right
shape with arbitrary contents. -/
def powerOn : Machine :=
  { regs := ⟨0, 0, 0x07, 0, 0, 0, 0, 0, 0, 0, 0⟩,
    g_unActiveChannelRequest := 0,
    g_unADChannelA1 := 0,
    g_unADChannelA2 := 0,
    g_unADChannelA3 := 0,
    g_unADChannelA4 := 0,
    g_uiCounter := 0,
    g_uiAveCounter := 0x10,
    g_uiDummDumm := 0,
    g_ucEventTrigger := 0,
    S_Report := List.replicate 6 ⟨[0x55, 0xAA], 1, 3⟩ }

/-- The store in which only slot 2 holds unread data, the bytes `0xDE, 0xAD`. -/
def slot2Store : List ReportSlot :=
  [⟨[0, 0], 0, 0⟩, ⟨[0, 0], 0, 0⟩, ⟨[0xDE, 0xAD], 2, 1⟩,
   ⟨[0, 0], 0, 0⟩, ⟨[0, 0], 0, 0⟩, ⟨[0, 0], 0, 0⟩]

/-- The state a routine returned with, or `dflt` when it did not return. -/
def stateOf (o : Outcome (Nat × Machine × List Nat)) (dflt : Machine) : Machine :=
  match o with
  | Outcome.ok (_, m, _) => m
  | Outcome.hang => dflt
  | Outcome.divZero => dflt

/-- The state reached from power-on by the clean-up, a dispatch of command 0
and a dispatch of command 2 during which the converter delivers sixteen
results `0x123`. -/
def afterTwoDispatches : Machine :=
  stateOf (uiMainDispatch msp430x23x Hal.idle 2 0 [] (List.replicate 16 0x123)
    (uiMain_Test (vMain_CleanDataStruct powerOn)).2) powerOn

/-! ## The four read routines as one routine driven by the channel number

The four routines of `Light/light.c` differ only in the amplifier pin, the
accumulator, the start-address statement and the interrupt bit.  The
definitions below list the statements of the routine for channel `k` one by
one, so that the states between statements can be inspected. -/

/-- The read routine of channel `k`, for `k` in 1..4. -/
def unLIGHT_ReadChannel (d : DeviceHeader) (k avgCount : Nat) (convs : List Nat)
    (m : Machine) : Outcome (Nat × Machine × List Nat) :=
  match k with
  | 1 => unLIGHT_ReadChannel_1 d avgCount convs m
  | 2 => unLIGHT_ReadChannel_2 d avgCount convs m
  | 3 => unLIGHT_ReadChannel_3 d avgCount convs m
  | _ => unLIGHT_ReadChannel_4 d avgCount convs m

/-- The accumulator `g_unADChannelA1 .. g_unADChannelA4` of channel `k`. -/
def accumulator (k : Nat) (m : Machine) : Nat :=
  match k with
  | 1 => m.g_unADChannelA1
  | 2 => m.g_unADChannelA2
  | 3 => m.g_unADChannelA3
  | _ => m.g_unADChannelA4

/-- Assignment to the accumulator of channel `k`. -/
def setAccumulator (k v : Nat) (m : Machine) : Machine :=
  match k with
  | 1 => { m with g_unADChannelA1 := v }
  | 2 => { m with g_unADChannelA2 := v }
  | 3 => { m with g_unADChannelA3 := v }
  | _ => { m with g_unADChannelA4 := v }

/-- The amplifier pin of channel `k`: `AMP1_EN` for channels 1 and 2,
`AMP2_EN` for channels 3 and 4. -/
def ampPin (d : DeviceHeader) (k : Nat) : Nat :=
  match k with
  | 1 => AMP1_EN d
  | 2 => AMP1_EN d
  | _ => AMP2_EN d

/-- The interrupt bit of channel `k`: `BIT0 .. BIT3`. -/
def ieBit (d : DeviceHeader) (k : Nat) : Nat :=
  match k with
  | 1 => d.BIT0
  | 2 => d.BIT1
  | 3 => d.BIT2
  | _ => d.BIT3

/-- The start-address statement of channel `k`: channel 1 clears bits 12..15
of `ADC12CTL1`, channels 2..4 or `CSTARTADD_1 .. CSTARTADD_3` into it. -/
def selectInput (d : DeviceHeader) (k : Nat) (r : Regs) : Regs :=
  match k with
  | 1 => { r with ADC12CTL1 := bic16 r.ADC12CTL1 (d.BITF ||| d.BITE ||| d.BITD ||| d.BITC) }
  | 2 => { r with ADC12CTL1 := bis16 r.ADC12CTL1 d.CSTARTADD_1 }
  | 3 => { r with ADC12CTL1 := bis16 r.ADC12CTL1 d.CSTARTADD_2 }
  | _ => { r with ADC12CTL1 := bis16 r.ADC12CTL1 d.CSTARTADD_3 }

/-- The statements of the read routine of channel `k` before the sample
loop, in order; the seventh is the timer hardware raising `TBIFG`, which
ends the busy-wait. -/
def armSteps (d : DeviceHeader) (k : Nat) : List (Machine → Machine) :=
  [ fun m => { m with g_uiCounter := 0 },
    fun m => { m with regs := { m.regs with TBCTL := bis16 m.regs.TBCTL d.CNTL_0 } },
    fun m => { m with regs := { m.regs with TBCTL := bis16 m.regs.TBCTL d.TBSSEL1 } },
    fun m => { m with regs := { m.regs with TBCTL := bic16 m.regs.TBCTL d.TBSSEL0 } },
    fun m => { m with regs := { m.regs with TBCTL := bis16 m.regs.TBCTL d.ID_1 } },
    fun m => { m with regs := { m.regs with TBCCR0 := 0x84D0 } },
    fun m => { m with regs := { m.regs with TBCTL := bis16 m.regs.TBCTL d.MC_1 } },
    fun m => { m with regs := { m.regs with TBCTL := bis16 m.regs.TBCTL d.TBIFG } },
    fun m => { m with regs := { m.regs with
      TBCTL := bic16 m.regs.TBCTL (d.TBIFG ||| d.MC0 ||| d.MC1) } },
    fun m => { m with regs := { m.regs with P5OUT := bic8 m.regs.P5OUT (ampPin d k) } },
    setAccumulator k 0,
    fun m => { m with g_unActiveChannelRequest := k },
    fun m => { m with regs := selectInput d k m.regs },
    fun m => { m with regs := { m.regs with ADC12IE := bis16 m.regs.ADC12IE (ieBit d k) } },
    fun m => { m with regs := { m.regs with ADC12IFG := bic16 m.regs.ADC12IFG (ieBit d k) } } ]

/-- The statements of one pass of the sample loop that ends with result `r`:
the two trigger statements, the converter delivering `r`, and the handler. -/
def sampleSteps (d : DeviceHeader) (k r : Nat) : List (Machine → Machine) :=
  [ fun m => { m with regs := { m.regs with ADC12CTL0 := bis16 m.regs.ADC12CTL0 d.ENC } },
    fun m => { m with regs := { m.regs with ADC12CTL0 := bis16 m.regs.ADC12CTL0 d.ADC12SC } },
    convert k r,
    ADCConversion ]

/-- The statements of the read routine of channel `k` after the sample loop,
in order, ending with `g_unADChannelAk /= *punAvgCount` for a nonzero count. -/
def teardownSteps (d : DeviceHeader) (k avgCount : Nat) : List (Machine → Machine) :=
  [ fun m => { m with regs := { m.regs with ADC12IE := bic16 m.regs.ADC12IE (ieBit d k) } },
    fun m => { m with regs := { m.regs with ADC12CTL0 := bic16 m.regs.ADC12CTL0 d.ENC } },
    fun m => { m with regs := { m.regs with ADC12CTL0 := bic16 m.regs.ADC12CTL0 d.ADC12ON } },
    fun m => { m with regs := { m.regs with P5OUT := bis8 m.regs.P5OUT (ampPin d k) } },
    fun m => setAccumulator k (accumulator k m / avgCount) m ]

/-- The state after running the statements in order. -/
def runSteps (steps : List (Machine → Machine)) (m : Machine) : Machine :=
  steps.foldl (fun m f => f m) m

/-- The states after each of the statements, in order. -/
def traceSteps : List (Machine → Machine) → Machine → List Machine
  | [], _ => []
  | f :: steps, m => f m :: traceSteps steps (f m)

/-- The states the sample loop of channel `k` passes through, statement by
statement, with the same conversion results as `sampleLoop`. -/
def sampleTrace (d : DeviceHeader) (k avgCount : Nat) : List Nat → Machine → List Machine
  | [], _ => []
  | r :: rest, m =>
    if m.g_uiCounter < avgCount then
      traceSteps (sampleSteps d k r) m ++
        sampleTrace d k avgCount rest (runSteps (sampleSteps d k r) m)
    else []

/-- Every state the read routine of channel `k` passes through after its
entry state, statement by statement; the teardown is reached only when the
sample loop exits, the final division only for a nonzero count. -/
def readTrace (d : DeviceHeader) (k avgCount : Nat) (convs : List Nat) (m : Machine) :
    List Machine :=
  traceSteps (armSteps d k) m ++
    sampleTrace d k avgCount convs (runSteps (armSteps d k) m) ++
    match sampleLoop d k avgCount convs (runSteps (armSteps d k) m) with
    | Outcome.ok (m1, _) =>
      if avgCount = 0 then traceSteps ((teardownSteps d k avgCount).take 4) m1
      else traceSteps (teardownSteps d k avgCount) m1
    | Outcome.hang => []
    | Outcome.divZero => []

/-- The read routine of channel `k` put together from its statements. -/
def readBySteps (d : DeviceHeader) (k avgCount : Nat) (convs : List Nat) (m : Machine) :
    Outcome (Nat × Machine × List Nat) :=
  match sampleLoop d k avgCount convs (runSteps (armSteps d k) m) with
  | Outcome.hang => Outcome.hang
  | Outcome.divZero => Outcome.divZero
  | Outcome.ok (m1, convs) =>
    if avgCount = 0 then Outcome.divZero
    else
      Outcome.ok (accumulator k (runSteps (teardownSteps d k avgCount) m1),
        runSteps (teardownSteps d k avgCount) m1, convs)

/-- The reading a routine returned, if it returned. -/
def readingOf (o : Outcome (Nat × Machine × List Nat)) : Option Nat :=
  match o with
  | Outcome.ok (v, _, _) => some v
  | Outcome.hang => none
  | Outcome.divZero => none

/-- The state after the passes of the loop that consume `rs`. -/
def afterSamples (d : DeviceHeader) (k : Nat) (rs : List Nat) (m : Machine) : Machine :=
  rs.foldl (fun m r => runSteps (sampleSteps d k r) m) m

/-- The power-on state after `vMain_CleanDataStruct`. -/
def cleanStart : Machine := vMain_CleanDataStruct powerOn

/-- The state in which the read routine of channel 2 returns when called, as
`uiMain_SL2` calls it, from `cleanStart` with sixteen results `0x123`. -/
def afterRead2 : Machine :=
  stateOf (unLIGHT_ReadChannel msp430x23x 2 16 (List.replicate 16 0x123)
    (vLight_Init msp430x23x Hal.idle cleanStart)) powerOn

/-- The channels among 1..4 whose interrupt-enable bit, bit `k-1`, is set in
a value of `ADC12IE`. -/
def armedOf (ie : Nat) : List Nat :=
  [1, 2, 3, 4].filter (fun k => ie.testBit (k - 1))

/-- The channels among 1..4 that are armed in a state. -/
def armedChannels (m : Machine) : List Nat := armedOf m.regs.ADC12IE

/-- The device header gives `BIT0 .. BIT3` their usual values. -/
def StdBits (d : DeviceHeader) : Prop :=
  d.BIT0 = 0x0001 ∧ d.BIT1 = 0x0002 ∧ d.BIT2 = 0x0004 ∧ d.BIT3 = 0x0008

/-- Every state passed through, statement by statement, along a sequence of
read calls `(k, count, results delivered during the call)`, each call
starting in the state the one before returned in; a call that does not
return ends the sequence. -/
def callsTrace (d : DeviceHeader) : List (Nat × Nat × List Nat) → Machine → List Machine
  | [], _ => []
  | (k, avgCount, convs) :: calls, m =>
    readTrace d k avgCount convs m ++
      match unLIGHT_ReadChannel d k avgCount convs m with
      | Outcome.ok (_, m', _) => callsTrace d calls m'
      | Outcome.hang => []
      | Outcome.divZero => []

/-- The states between the calls of such a sequence: the entry state and the
state each call returned in. -/
def callsBoundaries (d : DeviceHeader) : List (Nat × Nat × List Nat) → Machine → List Machine
  | [], m => [m]
  | (k, avgCount, convs) :: calls, m =>
    m :: match unLIGHT_ReadChannel d k avgCount convs m with
      | Outcome.ok (_, m', _) => callsBoundaries d calls m'
      | Outcome.hang => []
      | Outcome.divZero => []

/-! ## `main.c`: transducer labels -/

/-- Label constant `TRANSDUCER_0_LABEL_TXT`. -/
def TRANSDUCER_0_LABEL_TXT : String := "Test Function   "

/-- Label constant `TRANSDUCER_1_LABEL_TXT`. -/
def TRANSDUCER_1_LABEL_TXT : String := "SL1             "

/-- Label constant `TRANSDUCER_2_LABEL_TXT`. -/
def TRANSDUCER_2_LABEL_TXT : String := "SL2             "

/-- Label constant `TRANSDUCER_3_LABEL_TXT`; its fourth character is a tab. -/
def TRANSDUCER_3_LABEL_TXT : String := "SL3\t            "

/-- Label constant `TRANSDUCER_4_LABEL_TXT`; its fourth character is a tab. -/
def TRANSDUCER_4_LABEL_TXT : String := "SL4\t            "

/-- The bytes of a string literal in memory: its characters followed by the
terminating zero. -/
def literalBytes (lit : String) : List Nat := lit.data.map Char.toNat ++ [0]

/-- The loop `for (ucLoopCount = 0; ucLoopCount < TRANSDUCER_LABEL_LEN;
ucLoopCount++) *pucLabelArray++ = lit[ucLoopCount];` of `vMain_FetchLabel`,
entered with the current `ucLoopCount` and the bytes stored so far.  The
counter is a `uint8`; the budget of 256 passes is used up only when
`TRANSDUCER_LABEL_LEN` exceeds 255. -/
def labelLoop (labelLen : Nat) (lit : String) : Nat → Nat → List Nat → List Nat
  | 0, _, out => out
  | budget + 1, ucLoopCount, out =>
    if ucLoopCount < labelLen then
      labelLoop labelLen lit budget ((ucLoopCount + 1) % 256)
        (out ++ [(literalBytes lit).getD ucLoopCount 0])
    else out

/-- Routine `vMain_FetchLabel`: the bytes stored through `pucLabelArray`, in
order.  `labelLen` is the constant `TRANSDUCER_LABEL_LEN` of `core.h`, which
is not among the sources at hand. -/
def vMain_FetchLabel (labelLen : Nat) (ucTransNum : Nat) : List Nat :=
  match ucTransNum with
  | 0 => labelLoop labelLen TRANSDUCER_0_LABEL_TXT 256 0 []
  | 1 => labelLoop labelLen TRANSDUCER_1_LABEL_TXT 256 0 []
  | 2 => labelLoop labelLen TRANSDUCER_2_LABEL_TXT 256 0 []
  | 3 => labelLoop labelLen TRANSDUCER_3_LABEL_TXT 256 0 []
  | 4 => labelLoop labelLen TRANSDUCER_4_LABEL_TXT 256 0 []
  | _ => labelLoop labelLen "CANNOT COMPUTE!!" 256 0 []

/-- The label the interface prescribes for a transducer ID. -/
def labelFor (t : Nat) : String :=
  if t = 0 then TRANSDUCER_0_LABEL_TXT
  else if t = 1 then TRANSDUCER_1_LABEL_TXT
  else if t = 2 then TRANSDUCER_2_LABEL_TXT
  else if t = 3 then TRANSDUCER_3_LABEL_TXT
  else if t = 4 then TRANSDUCER_4_LABEL_TXT
  else "CANNOT COMPUTE!!"

/-! ## `main.c`: board metadata and start-up -/

/-- Constant `NUM_TRANSDUCERS`. -/
def NUM_TRANSDUCERS : Nat := 4

/-- Constant `TYPE_IS_SENSOR`, the ASCII letter S. -/
def TYPE_IS_SENSOR : Nat := 0x53

/-- Routine `ucMain_getNumTransducers`. -/
def ucMain_getNumTransducers : Nat := NUM_TRANSDUCERS

/-- Routine `ucMain_getTransducerType`: the cases `TRANSDUCER_1` (0x01) to
`TRANSDUCER_4` (0x04) share one body, every other value takes the default. -/
def ucMain_getTransducerType (ucTransNum : Nat) : Nat :=
  match ucTransNum with
  | 0x01 => TYPE_IS_SENSOR
  | 0x02 => TYPE_IS_SENSOR
  | 0x03 => TYPE_IS_SENSOR
  | 0x04 => TYPE_IS_SENSOR
  | _ => 0

/-- Routine `ucMain_getSampleDuration`. -/
def ucMain_getSampleDuration (_ucTransNum : Nat) : Nat := 0

/-- Routine `ucMain_ShutdownAllowed`. -/
def ucMain_ShutdownAllowed : Nat := 1

/-- Routine `main` up to its last statement, the call of `vCORE_Run`, which
does not return: the state in which `vCORE_Run` is entered.  The routine
`vCORE_Initilize` of the core is not among the sources at hand and is a
parameter. -/
def main (vCORE_Initilize : Machine → Machine) (m : Machine) : Machine :=
  let m := vCORE_Initilize m
  let m := vMain_CleanDataStruct m
  -- g_uiAveCounter = 0x10;
  let m := { m with g_uiAveCounter := 0x10 }
  -- g_ucEventTrigger = 0;
  { m with g_ucEventTrigger := 0 }

/-! ## Register fields read by the claims about the read routines -/

/-- The conversion start-address field `CSTARTADDx` of a value of `ADC12CTL1`,
bits 12..15. -/
def startAddress (ctl1 : Nat) : Nat := (ctl1 / 4096) % 16

/-- The state in which the read routine of channel 4 returns when called from
the power-on state with a count of 16 and sixteen results `0x123`. -/
def afterRead4 : Machine :=
  stateOf (unLIGHT_ReadChannel_4 msp430x23x 16 (List.replicate 16 0x123) powerOn) powerOn

/-- The bit position of the amplifier pin of channel `k` in the port: 1 for
`AMP1_EN` (`BIT1`), 2 for `AMP2_EN` (`BIT2`). -/
def ampPinIndex (k : Nat) : Nat :=
  match k with
  | 1 => 1
  | 2 => 1
  | _ => 2

/-! ## The bit-serial CRC-16/CCITT register

The reference the two lookup tables are compared with.  These definitions
follow the description of the bit-serial shift register with polynomial
0x1021, most significant bit first; they are not taken from `crc.c`, which
has no bit-serial routine. -/

/-- The CRC-16/CCITT polynomial `x^16 + x^12 + x^5 + 1`, without its top
term. -/
def CCITT_POLY : Nat := 0x1021

/-- One step of the bit-serial register on the message bit `bit`: the
register is shifted left by one within 16 bits, and the polynomial is xor-ed
in when the bit shifted out of position 15 differs from the message bit. -/
def bitSerialStep (reg bit : Nat) : Nat :=
  if (reg / 32768) % 2 ≠ bit % 2 then ((reg * 2) % 65536) ^^^ CCITT_POLY
  else (reg * 2) % 65536

/-- The bit-serial register after the message bits `bits`, in order. -/
def bitSerialCRC (reg : Nat) (bits : List Nat) : Nat :=
  bits.foldl bitSerialStep reg

/-- The `w` low bits of `x`, most significant first. -/
def bitsMSB : Nat → Nat → List Nat
  | 0, _ => []
  | w + 1, x => (x / 2 ^ w) % 2 :: bitsMSB w x

/-- The 16-bit value held by the register pair `(hi, lo)`. -/
def regValue (r : Nat × Nat) : Nat := 256 * r.1 + r.2

/-- The register pair `(hi, lo)` holding a 16-bit value. -/
def regBytes (v : Nat) : Nat × Nat := (v / 256, v % 256)

/-! ## Reading a report body back -/

/-- The slot IDs of the records `[slot_id, length, data[0..length-1]]` of a
report body, in the order in which the records appear.  The first argument
bounds the number of records read; the length of the body is always enough. -/
def recordIds : Nat → List Nat → List Nat
  | 0, _ => []
  | _ + 1, [] => []
  | _ + 1, [_] => []
  | budget + 1, id :: len :: rest => id :: recordIds budget (rest.drop len)

/-- The slots among `0 .. n-1` that hold unread data, by increasing ID. -/
def flaggedSlots (S : List ReportSlot) (n : Nat) : List Nat :=
  (List.range n).filter (fun i => decide (flagged (slotAt S i)))

/-- The state reached from `afterTwoDispatches` by a second dispatch of
command 2, during which the converter delivers sixteen results `0x456`. -/
def afterThreeDispatches : Machine :=
  stateOf (uiMainDispatch msp430x23x Hal.idle 2 0 [] (List.replicate 16 0x456)
    afterTwoDispatches) powerOn

/-- The records of the slots `ids` of a store, in that order. -/
def recordsOf (S : List ReportSlot) (ids : List Nat) : List Nat :=
  (ids.map (fun i => recordIf i (slotAt S i))).flatten

/-! # Theorems -/

/-! ## Nibble arithmetic used by the CRC proofs -/

theorem xor_nib (p q r s : Nat) (hq : q < 16) (hs : s < 16) :
    (16 * p + q) ^^^ (16 * r + s) = 16 * (p ^^^ r) + (q ^^^ s) := by
  have hq4 : q < 2 ^ 4 := by omega
  have hs4 : s < 2 ^ 4 := by omega
  have hqs : q ^^^ s < 2 ^ 4 := Nat.xor_lt_two_pow hq4 hs4
  have e : (16 : Nat) = 2 ^ 4 := by norm_num
  apply Nat.eq_of_testBit_eq
  intro j
  rw [Nat.testBit_xor, e, Nat.testBit_mul_pow_two_add p hq4, Nat.testBit_mul_pow_two_add r hs4,
    Nat.testBit_mul_pow_two_add _ hqs]
  by_cases hj : j < 4 <;> simp [hj]

theorem xor_lt_16 {a b : Nat} (ha : a < 16) (hb : b < 16) : a ^^^ b < 16 := by
  have ha4 : a < 2 ^ 4 := by omega
  have hb4 : b < 2 ^ 4 := by omega
  have := Nat.xor_lt_two_pow ha4 hb4
  omega

theorem lookupHI_eq (t : Nat) (ht : t < 16) : ucCRC16_lookupHI.getD t 0 = 16 * t + t / 8 := by
  interval_cases t <;> rfl

theorem lookupLO_eq (t : Nat) (ht : t < 16) :
    ucCRC16_lookupLO.getD t 0 = 16 * (2 * t % 16) + t := by
  interval_cases t <;> rfl

/-- Nibble normal form of `vCRC16_updateNibble` on a well-formed register. -/
theorem updateNibble_nf (n hi lo : Nat) (hn : n < 16) (hhi : hi < 256) (hlo : lo < 256) :
    vCRC16_updateNibble n (hi, lo) =
      (16 * (hi % 16 ^^^ (hi / 16 ^^^ n)) + (lo / 16 ^^^ (hi / 16 ^^^ n) / 8),
       16 * (lo % 16 ^^^ 2 * (hi / 16 ^^^ n) % 16) + (hi / 16 ^^^ n)) := by
  have ht : hi / 16 ^^^ n < 16 := xor_lt_16 (by omega) hn
  have h1 : (hi >>> 4) % 256 = hi / 16 := by
    rw [Nat.shiftRight_eq_div_pow]; norm_num; omega
  have h2 : (hi / 16 ^^^ n) % 256 = hi / 16 ^^^ n := by omega
  have h3 : ((hi <<< 4) ||| (lo >>> 4)) % 256 = 16 * (hi % 16) + lo / 16 := by
    rw [Nat.shiftLeft_eq, Nat.shiftRight_eq_div_pow]
    have hl : lo / 2 ^ 4 < 2 ^ 4 := by norm_num; omega
    have := Nat.mul_add_lt_is_or hl hi
    rw [Nat.mul_comm hi (2 ^ 4), ← this]
    norm_num; omega
  have h4 : (lo <<< 4) % 256 = 16 * (lo % 16) + 0 := by
    rw [Nat.shiftLeft_eq]; norm_num; omega
  have a1 : lo / 16 ^^^ (hi / 16 ^^^ n) / 8 < 16 := xor_lt_16 (by omega) (by omega)
  have a2 : hi % 16 ^^^ (hi / 16 ^^^ n) < 16 := xor_lt_16 (by omega) ht
  have a3 : lo % 16 ^^^ 2 * (hi / 16 ^^^ n) % 16 < 16 := xor_lt_16 (by omega) (by omega)
  have a4 : (0 : Nat) ^^^ (hi / 16 ^^^ n) = hi / 16 ^^^ n := Nat.zero_xor _
  simp only [vCRC16_updateNibble, h1, h2, h3, h4, lookupHI_eq _ ht, lookupLO_eq _ ht]
  rw [xor_nib _ _ _ _ (by omega) (by omega), xor_nib _ _ _ _ (by omega) ht, a4]
  congr 1 <;> omega

theorem updateNibble_ok (n : Nat) (r : Nat × Nat) : RegOK (vCRC16_updateNibble n r) := by
  constructor <;> simp only [vCRC16_updateNibble] <;> omega

theorem updateByte_ok (x : Nat) (r : Nat × Nat) : RegOK (vCRC16_updateByte x r) :=
  updateNibble_ok _ _

/-- Byte normal form of `vCRC16_updateByte` on a well-formed register: with
`t1`, `t2` the two table indices used, the result has nibbles
`(lo.hi ^ t1/8 ^ t2, lo.lo ^ 2*t1 ^ t2/8, t1 ^ 2*t2, t2)`. -/
theorem updateByte_nf (x hi lo : Nat) (hx : x < 256) (hhi : hi < 256) (hlo : lo < 256) :
    vCRC16_updateByte x (hi, lo) =
      (16 * ((lo / 16 ^^^ (hi / 16 ^^^ x / 16) / 8) ^^^
              ((hi % 16 ^^^ (hi / 16 ^^^ x / 16)) ^^^ x % 16)) +
          ((lo % 16 ^^^ 2 * (hi / 16 ^^^ x / 16) % 16) ^^^
              ((hi % 16 ^^^ (hi / 16 ^^^ x / 16)) ^^^ x % 16) / 8),
       16 * ((hi / 16 ^^^ x / 16) ^^^
              2 * ((hi % 16 ^^^ (hi / 16 ^^^ x / 16)) ^^^ x % 16) % 16) +
          ((hi % 16 ^^^ (hi / 16 ^^^ x / 16)) ^^^ x % 16)) := by
  have e1 : (x >>> 4) % 256 = x / 16 := by
    rw [Nat.shiftRight_eq_div_pow]; norm_num; omega
  have e2 : x &&& 0x0F = x % 16 := Nat.and_pow_two_sub_one_eq_mod x 4
  have ht1 : hi / 16 ^^^ x / 16 < 16 := xor_lt_16 (by omega) (by omega)
  have a1 : hi % 16 ^^^ (hi / 16 ^^^ x / 16) < 16 := xor_lt_16 (by omega) ht1
  have a2 : lo / 16 ^^^ (hi / 16 ^^^ x / 16) / 8 < 16 := xor_lt_16 (by omega) (by omega)
  have a3 : lo % 16 ^^^ 2 * (hi / 16 ^^^ x / 16) % 16 < 16 := xor_lt_16 (by omega) (by omega)
  rw [vCRC16_updateByte, e1, e2, updateNibble_nf _ hi lo (by omega) hhi hlo,
    updateNibble_nf _ _ _ (by omega) (by omega) (by omega)]
  have d1 : (16 * (hi % 16 ^^^ (hi / 16 ^^^ x / 16)) + (lo / 16 ^^^ (hi / 16 ^^^ x / 16) / 8)) / 16
      = hi % 16 ^^^ (hi / 16 ^^^ x / 16) := by omega
  have d2 : (16 * (hi % 16 ^^^ (hi / 16 ^^^ x / 16)) + (lo / 16 ^^^ (hi / 16 ^^^ x / 16) / 8)) % 16
      = lo / 16 ^^^ (hi / 16 ^^^ x / 16) / 8 := by omega
  have d3 : (16 * (lo % 16 ^^^ 2 * (hi / 16 ^^^ x / 16) % 16) + (hi / 16 ^^^ x / 16)) / 16
      = lo % 16 ^^^ 2 * (hi / 16 ^^^ x / 16) % 16 := by omega
  have d4 : (16 * (lo % 16 ^^^ 2 * (hi / 16 ^^^ x / 16) % 16) + (hi / 16 ^^^ x / 16)) % 16
      = hi / 16 ^^^ x / 16 := by omega
  rw [d1, d2, d3, d4]

/-- Feeding a register its own high byte shifts it left by one byte. -/
theorem updateByte_self (hi lo : Nat) (hhi : hi < 256) (hlo : lo < 256) :
    vCRC16_updateByte hi (hi, lo) = (lo, 0) := by
  rw [updateByte_nf hi hi lo hhi hhi hlo]
  simp only [Nat.xor_self, Nat.xor_zero, Nat.zero_div, Nat.mul_zero, Nat.zero_mod, Nat.add_zero]
  congr 1
  omega

/-- The register is zero after a byte exactly when the byte equals the high
cell and the low cell was zero. -/
theorem updateByte_eq_zero (x hi lo : Nat) (hx : x < 256) (hhi : hi < 256) (hlo : lo < 256)
    (h : vCRC16_updateByte x (hi, lo) = (0, 0)) : x = hi ∧ lo = 0 := by
  rw [updateByte_nf x hi lo hx hhi hlo] at h
  have ht1 : hi / 16 ^^^ x / 16 < 16 := xor_lt_16 (by omega) (by omega)
  have ht2 : (hi % 16 ^^^ (hi / 16 ^^^ x / 16)) ^^^ x % 16 < 16 :=
    xor_lt_16 (xor_lt_16 (by omega) ht1) (by omega)
  obtain ⟨h1, h2⟩ := Prod.mk.inj h
  have t2 : (hi % 16 ^^^ (hi / 16 ^^^ x / 16)) ^^^ x % 16 = 0 := by omega
  rw [t2] at h1 h2
  simp only [Nat.mul_zero, Nat.zero_mod, Nat.xor_zero, Nat.zero_div, Nat.add_zero] at h1 h2
  have t1 : hi / 16 ^^^ x / 16 = 0 := by omega
  rw [t1] at h1 t2
  simp only [Nat.mul_zero, Nat.zero_mod, Nat.xor_zero, Nat.zero_div] at h1 t2
  have q1 : hi / 16 = x / 16 := Nat.xor_eq_zero.mp t1
  have q2 : hi % 16 = x % 16 := Nat.xor_eq_zero.mp t2
  constructor <;> omega

/-- For a fixed register, the byte fed in is determined by the result. -/
theorem updateByte_inj_byte (x y hi lo : Nat) (hx : x < 256) (hy : y < 256)
    (hhi : hi < 256) (hlo : lo < 256)
    (h : vCRC16_updateByte x (hi, lo) = vCRC16_updateByte y (hi, lo)) : x = y := by
  rw [updateByte_nf x hi lo hx hhi hlo, updateByte_nf y hi lo hy hhi hlo] at h
  have hx1 : hi / 16 ^^^ x / 16 < 16 := xor_lt_16 (by omega) (by omega)
  have hy1 : hi / 16 ^^^ y / 16 < 16 := xor_lt_16 (by omega) (by omega)
  have hx2 : (hi % 16 ^^^ (hi / 16 ^^^ x / 16)) ^^^ x % 16 < 16 :=
    xor_lt_16 (xor_lt_16 (by omega) hx1) (by omega)
  have hy2 : (hi % 16 ^^^ (hi / 16 ^^^ y / 16)) ^^^ y % 16 < 16 :=
    xor_lt_16 (xor_lt_16 (by omega) hy1) (by omega)
  obtain ⟨-, h2⟩ := Prod.mk.inj h
  have t2 : (hi % 16 ^^^ (hi / 16 ^^^ x / 16)) ^^^ x % 16
      = (hi % 16 ^^^ (hi / 16 ^^^ y / 16)) ^^^ y % 16 := by omega
  rw [t2] at h2
  have t1' : (hi / 16 ^^^ x / 16) ^^^ 2 * ((hi % 16 ^^^ (hi / 16 ^^^ y / 16)) ^^^ y % 16) % 16
      = (hi / 16 ^^^ y / 16) ^^^ 2 * ((hi % 16 ^^^ (hi / 16 ^^^ y / 16)) ^^^ y % 16) % 16 := by
    omega
  have t1 : hi / 16 ^^^ x / 16 = hi / 16 ^^^ y / 16 := Nat.xor_left_inj.mp t1'
  rw [t1] at t2
  have q1 : x / 16 = y / 16 := Nat.xor_right_inj.mp t1
  have q2 : x % 16 = y % 16 := Nat.xor_right_inj.mp t2
  omega

/-- For a fixed byte, the register before is determined by the register after. -/
theorem updateByte_inj_reg (x : Nat) (r s : Nat × Nat) (hx : x < 256)
    (hr : RegOK r) (hs : RegOK s)
    (h : vCRC16_updateByte x r = vCRC16_updateByte x s) : r = s := by
  obtain ⟨hi, lo⟩ := r
  obtain ⟨hi', lo'⟩ := s
  obtain ⟨hhi, hlo⟩ := hr
  obtain ⟨hhi', hlo'⟩ := hs
  simp only at hhi hlo hhi' hlo'
  rw [updateByte_nf x hi lo hx hhi hlo, updateByte_nf x hi' lo' hx hhi' hlo'] at h
  have hx1 : hi / 16 ^^^ x / 16 < 16 := xor_lt_16 (by omega) (by omega)
  have hy1 : hi' / 16 ^^^ x / 16 < 16 := xor_lt_16 (by omega) (by omega)
  have hx2 : (hi % 16 ^^^ (hi / 16 ^^^ x / 16)) ^^^ x % 16 < 16 :=
    xor_lt_16 (xor_lt_16 (by omega) hx1) (by omega)
  have hy2 : (hi' % 16 ^^^ (hi' / 16 ^^^ x / 16)) ^^^ x % 16 < 16 :=
    xor_lt_16 (xor_lt_16 (by omega) hy1) (by omega)
  obtain ⟨h1, h2⟩ := Prod.mk.inj h
  have t2 : (hi % 16 ^^^ (hi / 16 ^^^ x / 16)) ^^^ x % 16
      = (hi' % 16 ^^^ (hi' / 16 ^^^ x / 16)) ^^^ x % 16 := by omega
  rw [t2] at h1 h2
  have t1' : (hi / 16 ^^^ x / 16) ^^^ 2 * ((hi' % 16 ^^^ (hi' / 16 ^^^ x / 16)) ^^^ x % 16) % 16
      = (hi' / 16 ^^^ x / 16) ^^^ 2 * ((hi' % 16 ^^^ (hi' / 16 ^^^ x / 16)) ^^^ x % 16) % 16 := by
    omega
  have t1 : hi / 16 ^^^ x / 16 = hi' / 16 ^^^ x / 16 := Nat.xor_left_inj.mp t1'
  rw [t1] at t2 h1
  have q1 : hi / 16 = hi' / 16 := Nat.xor_left_inj.mp t1
  have q2 : hi % 16 = hi' % 16 := Nat.xor_left_inj.mp (Nat.xor_left_inj.mp t2)
  have b1 : lo / 16 ^^^ (hi' / 16 ^^^ x / 16) / 8 < 16 := xor_lt_16 (by omega) (by omega)
  have b2 : lo' / 16 ^^^ (hi' / 16 ^^^ x / 16) / 8 < 16 := xor_lt_16 (by omega) (by omega)
  have b3 : lo % 16 ^^^ 2 * (hi' / 16 ^^^ x / 16) % 16 < 16 := xor_lt_16 (by omega) (by omega)
  have b4 : lo' % 16 ^^^ 2 * (hi' / 16 ^^^ x / 16) % 16 < 16 := xor_lt_16 (by omega) (by omega)
  have c1 := xor_lt_16 b1 hy2
  have c2 := xor_lt_16 b2 hy2
  have c3 := xor_lt_16 b3 (show ((hi' % 16 ^^^ (hi' / 16 ^^^ x / 16)) ^^^ x % 16) / 8 < 16 by omega)
  have c4 := xor_lt_16 b4 (show ((hi' % 16 ^^^ (hi' / 16 ^^^ x / 16)) ^^^ x % 16) / 8 < 16 by omega)
  have u1 : (lo / 16 ^^^ (hi' / 16 ^^^ x / 16) / 8) ^^^
      ((hi' % 16 ^^^ (hi' / 16 ^^^ x / 16)) ^^^ x % 16)
      = (lo' / 16 ^^^ (hi' / 16 ^^^ x / 16) / 8) ^^^
      ((hi' % 16 ^^^ (hi' / 16 ^^^ x / 16)) ^^^ x % 16) := by omega
  have u2 : (lo % 16 ^^^ 2 * (hi' / 16 ^^^ x / 16) % 16) ^^^
      ((hi' % 16 ^^^ (hi' / 16 ^^^ x / 16)) ^^^ x % 16) / 8
      = (lo' % 16 ^^^ 2 * (hi' / 16 ^^^ x / 16) % 16) ^^^
      ((hi' % 16 ^^^ (hi' / 16 ^^^ x / 16)) ^^^ x % 16) / 8 := by omega
  have q3 : lo / 16 = lo' / 16 := Nat.xor_left_inj.mp (Nat.xor_left_inj.mp u1)
  have q4 : lo % 16 = lo' % 16 := Nat.xor_left_inj.mp (Nat.xor_left_inj.mp u2)
  have : hi = hi' := by omega
  have : lo = lo' := by omega
  subst_vars
  rfl

/-! ## The message loop -/

theorem crcFeed_nil (r : Nat × Nat) : crcFeed r [] = r := rfl

theorem crcFeed_cons (r : Nat × Nat) (b : Nat) (l : List Nat) :
    crcFeed r (b :: l) = crcFeed (vCRC16_updateByte b r) l := rfl

theorem crcFeed_append (r : Nat × Nat) (l₁ l₂ : List Nat) :
    crcFeed r (l₁ ++ l₂) = crcFeed (crcFeed r l₁) l₂ := by
  simp [crcFeed, List.foldl_append]

theorem crcFeed_ok (r : Nat × Nat) (hr : RegOK r) (l : List Nat) : RegOK (crcFeed r l) := by
  induction l generalizing r with
  | nil => exact hr
  | cons b l ih => exact ih _ (updateByte_ok b r)

/-- Running the loop from counter `uc` with `n` iterations left feeds the `n`
bytes at offsets `p .. p+n-1` and advances the pointer by `n`. -/
theorem crcLoop_run (ucLimit : Nat) (buf : List Nat) (hlim : ucLimit ≤ 254) :
    ∀ (n budget uc p : Nat) (crc : Nat × Nat), uc + n = ucLimit + 1 → n < budget →
      p + n ≤ buf.length →
      crcLoop ucLimit buf budget uc p crc = some (p + n, crcFeed crc ((buf.drop p).take n)) := by
  intro n
  induction n with
  | zero =>
    intro budget uc p crc huc hb _
    obtain ⟨b, rfl⟩ : ∃ b, budget = b + 1 := ⟨budget - 1, by omega⟩
    have : ¬ uc ≤ ucLimit := by omega
    simp [crcLoop, this, crcFeed]
  | succ n ih =>
    intro budget uc p crc huc hb hp
    obtain ⟨b, rfl⟩ : ∃ b, budget = b + 1 := ⟨budget - 1, by omega⟩
    have h1 : uc ≤ ucLimit := by omega
    have h2 : (uc + 1) % 256 = uc + 1 := by omega
    have hplt : p < buf.length := by omega
    have h3 : (buf.drop p).take (n + 1) = buf.getD p 0 :: (buf.drop (p + 1)).take n := by
      rw [List.drop_eq_getElem_cons hplt, List.take_succ_cons, List.getD_eq_getElem _ _ hplt]
    rw [crcLoop, if_pos h1, h2, ih b (uc + 1) (p + 1) _ (by omega) (by omega) (by omega), h3,
      crcFeed_cons]
    congr 2
    omega

/-- With `ucLimit = 255` the loop test never fails: the budget always runs out. -/
theorem crcLoop_255 (buf : List Nat) :
    ∀ (budget uc p : Nat) (crc : Nat × Nat), uc < 256 →
      crcLoop 255 buf budget uc p crc = none := by
  intro budget
  induction budget with
  | zero => intros; rfl
  | succ b ih =>
    intro uc p crc huc
    rw [crcLoop, if_pos (by omega)]
    exact ih _ _ _ (Nat.mod_lt _ (by norm_num))

/-- SEND mode on a valid length. -/
theorem compute_send_eq (k : CommConst) (B : List Nat) (L : Nat)
    (h3 : 3 ≤ L) (hmax : L ≤ k.MAXMSGLEN + 1) (h8 : L < 256) (hlen : L ≤ B.length) :
    ucCRC16_compute_msg_CRC k k.CRC_FOR_MSG_TO_SEND B L =
      some (1, (B.set (L - 2) (crcFeed (0xFF, 0xFF) (B.take (L - 2))).1).set (L - 1)
        (crcFeed (0xFF, 0xFF) (B.take (L - 2))).2) := by
  have e1 : (L + 255) % 256 = L - 1 := by omega
  have e2 : (L - 1 + 254) % 256 = L - 3 := by omega
  have e3 : ¬ L - 1 < 2 := by omega
  have e4 : ¬ L - 1 > k.MAXMSGLEN := by omega
  have hrun := crcLoop_run (L - 3) B (by omega) (L - 2) 257 0 0 (0xFF, 0xFF) (by omega)
    (by omega) (by omega)
  simp only [ucCRC16_compute_msg_CRC, e1, e2, e3, e4, if_false, if_true, hrun, List.drop_zero,
    Nat.zero_add]
  have : L - 2 + 1 = L - 1 := by omega
  rw [this]

/-- RECEIVE mode (any flag other than the SEND flag) on a valid length. -/
theorem compute_rec_eq (k : CommConst) (flag : Nat) (B : List Nat) (L : Nat)
    (hflag : flag ≠ k.CRC_FOR_MSG_TO_SEND)
    (h3 : 3 ≤ L) (hmax : L ≤ k.MAXMSGLEN + 1) (h8 : L < 256) (hlen : L ≤ B.length) :
    ucCRC16_compute_msg_CRC k flag B L =
      some (if (crcFeed (0xFF, 0xFF) (B.take L)).1 = 0 ∧ (crcFeed (0xFF, 0xFF) (B.take L)).2 = 0
        then 1 else 0, B) := by
  have e1 : (L + 255) % 256 = L - 1 := by omega
  have e3 : ¬ L - 1 < 2 := by omega
  have e4 : ¬ L - 1 > k.MAXMSGLEN := by omega
  have hrun := crcLoop_run (L - 1) B (by omega) L 257 0 0 (0xFF, 0xFF) (by omega)
    (by omega) (by omega)
  simp only [ucCRC16_compute_msg_CRC, e1, e3, e4, if_false, hflag, hrun, List.drop_zero]
  split <;> rfl

/-! ## Buffer surgery -/

theorem take_set_set (a b : Nat) :
    ∀ (n : Nat) (B : List Nat), n + 2 ≤ B.length →
      ((B.set n a).set (n + 1) b).take (n + 2) = B.take n ++ [a, b] := by
  intro n
  induction n with
  | zero =>
    intro B h
    match B, h with
    | _ :: _ :: _, _ => simp
  | succ n ih =>
    intro B h
    match B, h with
    | x :: xs, h =>
      simp only [List.length_cons] at h
      simp only [List.set_cons_succ, List.take_succ_cons, List.cons_append, List.cons.injEq,
        true_and]
      exact ih xs (by omega)

theorem take_set_lt (v : Nat) :
    ∀ (j n : Nat) (B : List Nat), j < n → n ≤ B.length →
      (B.set j v).take n = B.take j ++ v :: (B.drop (j + 1)).take (n - (j + 1)) := by
  intro j
  induction j with
  | zero =>
    intro n B hj hn
    match B, n, hj, hn with
    | [], n, hj, hn => simp only [List.length_nil] at hn; omega
    | x :: xs, n + 1, _, _ => simp
  | succ j ih =>
    intro n B hj hn
    match B, n, hj, hn with
    | [], n, hj, hn => simp only [List.length_nil] at hn; omega
    | x :: xs, n + 1, hj, hn =>
      simp only [List.length_cons] at hn
      simp only [List.set_cons_succ, List.take_succ_cons, List.cons_append, List.drop_succ_cons,
        List.cons.injEq, true_and, Nat.add_sub_add_right]
      exact ih n xs (by omega) (by omega)

theorem take_split_at :
    ∀ (j n : Nat) (B : List Nat), j < n → n ≤ B.length →
      B.take n = B.take j ++ B.getD j 0 :: (B.drop (j + 1)).take (n - (j + 1)) := by
  intro j
  induction j with
  | zero =>
    intro n B hj hn
    match B, n, hj, hn with
    | [], n, hj, hn => simp only [List.length_nil] at hn; omega
    | x :: xs, n + 1, _, _ => simp
  | succ j ih =>
    intro n B hj hn
    match B, n, hj, hn with
    | [], n, hj, hn => simp only [List.length_nil] at hn; omega
    | x :: xs, n + 1, hj, hn =>
      simp only [List.length_cons] at hn
      simp only [List.take_succ_cons, List.cons_append, List.drop_succ_cons,
        List.cons.injEq, true_and, Nat.add_sub_add_right, List.getD_cons_succ]
      exact ih n xs (by omega) (by omega)

theorem Bytes_take {B : List Nat} (h : Bytes B) (n : Nat) : Bytes (B.take n) :=
  fun b hb => h b (List.mem_of_mem_take hb)

theorem Bytes_drop {B : List Nat} (h : Bytes B) (n : Nat) : Bytes (B.drop n) :=
  fun b hb => h b (List.mem_of_mem_drop hb)

theorem Bytes_getD {B : List Nat} (h : Bytes B) (i : Nat) : B.getD i 0 < 256 := by
  by_cases hi : i < B.length
  · rw [List.getD_eq_getElem _ _ hi]
    exact h _ (List.getElem_mem hi)
  · rw [List.getD_eq_default _ _ (by omega)]
    norm_num

theorem Bytes_set {B : List Nat} (h : Bytes B) (i v : Nat) (hv : v < 256) : Bytes (B.set i v) := by
  intro b hb
  rcases List.mem_or_eq_of_mem_set hb with h' | h'
  · exact h b h'
  · omega

/-! ## Injectivity of the register along a message -/

theorem crcFeed_inj_reg :
    ∀ (l : List Nat), Bytes l → ∀ (r s : Nat × Nat), RegOK r → RegOK s →
      crcFeed r l = crcFeed s l → r = s := by
  intro l
  induction l with
  | nil => intro _ r s _ _ h; exact h
  | cons b l ih =>
    intro hl r s hr hs h
    rw [crcFeed_cons, crcFeed_cons] at h
    have hb : b < 256 := hl b (List.mem_cons_self _ _)
    have hl' : Bytes l := fun c hc => hl c (List.mem_cons_of_mem _ hc)
    exact updateByte_inj_reg b r s hb hr hs
      (ih hl' _ _ (updateByte_ok b r) (updateByte_ok b s) h)

theorem crcFeed_inj_byte (q : Nat × Nat) (hq : RegOK q) (x y : Nat) (hx : x < 256)
    (hy : y < 256) (rest : List Nat) (hrest : Bytes rest)
    (h : crcFeed q (x :: rest) = crcFeed q (y :: rest)) : x = y := by
  rw [crcFeed_cons, crcFeed_cons] at h
  have := crcFeed_inj_reg rest hrest _ _ (updateByte_ok x q) (updateByte_ok y q) h
  obtain ⟨hi, lo⟩ := q
  exact updateByte_inj_byte x y hi lo hx hy hq.1 hq.2 this

/-- Feeding a register its own two bytes, high byte first, clears it. -/
theorem crcFeed_own (r : Nat × Nat) (hr : RegOK r) : crcFeed r [r.1, r.2] = (0, 0) := by
  obtain ⟨hi, lo⟩ := r
  obtain ⟨h1, h2⟩ := hr
  simp only at h1 h2
  rw [crcFeed_cons, crcFeed_cons, crcFeed_nil, updateByte_self hi lo h1 h2,
    updateByte_self lo 0 h2 (by norm_num)]

/-- Two bytes clear a register only if they are its own two bytes. -/
theorem crcFeed_two_eq_zero (r : Nat × Nat) (hr : RegOK r) (x y : Nat) (hx : x < 256)
    (hy : y < 256) (h : crcFeed r [x, y] = (0, 0)) : x = r.1 ∧ y = r.2 := by
  obtain ⟨hi, lo⟩ := r
  obtain ⟨h1, h2⟩ := hr
  simp only at h1 h2
  rw [crcFeed_cons, crcFeed_cons, crcFeed_nil] at h
  have hs := updateByte_ok x (hi, lo)
  generalize hsd : vCRC16_updateByte x (hi, lo) = s at h hs
  obtain ⟨shi, slo⟩ := s
  obtain ⟨e1, e2⟩ := updateByte_eq_zero y shi slo hy hs.1 hs.2 h
  subst e1 e2
  have hx' : x = hi := by
    have h0 := updateByte_self hi lo h1 h2
    rw [updateByte_nf x hi lo hx h1 h2] at hsd
    have ht1 : hi / 16 ^^^ x / 16 < 16 := xor_lt_16 (by omega) (by omega)
    have ht2 : (hi % 16 ^^^ (hi / 16 ^^^ x / 16)) ^^^ x % 16 < 16 :=
      xor_lt_16 (xor_lt_16 (by omega) ht1) (by omega)
    obtain ⟨-, g2⟩ := Prod.mk.inj hsd
    have t2 : (hi % 16 ^^^ (hi / 16 ^^^ x / 16)) ^^^ x % 16 = 0 := by omega
    rw [t2] at g2
    simp only [Nat.mul_zero, Nat.zero_mod, Nat.xor_zero, Nat.add_zero] at g2
    have t1 : hi / 16 ^^^ x / 16 = 0 := by omega
    rw [t1] at t2
    simp only [Nat.xor_zero] at t2
    have q1 : hi / 16 = x / 16 := Nat.xor_eq_zero.mp t1
    have q2 : hi % 16 = x % 16 := Nat.xor_eq_zero.mp t2
    omega
  subst hx'
  rw [updateByte_self x lo h1 h2] at hsd
  obtain ⟨g1, -⟩ := Prod.mk.inj hsd
  exact ⟨rfl, g1.symm⟩

theorem take_add_two :
    ∀ (n : Nat) (B : List Nat), n + 2 ≤ B.length →
      B.take (n + 2) = B.take n ++ [B.getD n 0, B.getD (n + 1) 0] := by
  intro n
  induction n with
  | zero =>
    intro B h
    match B, h with
    | _ :: _ :: _, _ => simp
  | succ n ih =>
    intro B h
    match B, h with
    | x :: xs, h =>
      simp only [List.length_cons] at h
      simp only [List.take_succ_cons, List.cons_append, List.cons.injEq, true_and,
        List.getD_cons_succ]
      exact ih xs (by omega)

theorem getElem_opt_set_set (B : List Nat) (n a b : Nat) (h : n + 2 ≤ B.length) :
    ((B.set n a).set (n + 1) b)[n]? = some a ∧ ((B.set n a).set (n + 1) b)[n + 1]? = some b ∧
      ∀ i, i ≠ n → i ≠ n + 1 → ((B.set n a).set (n + 1) b)[i]? = B[i]? := by
  refine ⟨?_, ?_, ?_⟩
  · rw [List.getElem?_set_ne (by omega), List.getElem?_set_self (by omega)]
  · rw [List.getElem?_set_self (by simp only [List.length_set]; omega)]
  · intro i h1 h2
    rw [List.getElem?_set_ne (by omega), List.getElem?_set_ne (by omega)]

theorem getD_of_getElem_opt {B : List Nat} {i v : Nat} (h : B[i]? = some v) : B.getD i 0 = v := by
  rw [List.getD_eq_getElem?_getD, h]
  rfl

/-- The completed buffer, cut at the message length, is the payload followed
by the two CRC bytes; the register over it is zero. -/
theorem crcFeed_completed (B : List Nat) (L : Nat) (h3 : 3 ≤ L) (hlen : L ≤ B.length) :
    crcFeed (0xFF, 0xFF)
      (((B.set (L - 2) (crcFeed (0xFF, 0xFF) (B.take (L - 2))).1).set (L - 1)
        (crcFeed (0xFF, 0xFF) (B.take (L - 2))).2).take L) = (0, 0) := by
  have hr : RegOK (crcFeed (0xFF, 0xFF) (B.take (L - 2))) :=
    crcFeed_ok _ (by constructor <;> norm_num) _
  have e1 : L - 1 = L - 2 + 1 := by omega
  have e2 : L = L - 2 + 2 := by omega
  have := take_set_set (crcFeed (0xFF, 0xFF) (B.take (L - 2))).1
    (crcFeed (0xFF, 0xFF) (B.take (L - 2))).2 (L - 2) B (by omega)
  rw [← e1, ← e2] at this
  rw [this, crcFeed_append]
  exact crcFeed_own _ hr

/-! ## The CRC16 codec: claims C1 to C7 -/

/-- C1. CRC round trip: for every buffer and every valid length
`3 ≤ L ≤ MAXMSGLEN + 1`, SEND mode returns 1 with a completed buffer, and
RECEIVE mode on that completed buffer with the same length returns 1.  (The
reserved bytes need not be zero for this.) -/
theorem crc_round_trip (k : CommConst) (B : List Nat) (L : Nat)
    (hmodes : k.CRC_FOR_MSG_TO_REC ≠ k.CRC_FOR_MSG_TO_SEND)
    (h3 : 3 ≤ L) (hmax : L ≤ k.MAXMSGLEN + 1) (h8 : L < 256) (hlen : L ≤ B.length) :
    ∃ S, ucCRC16_compute_msg_CRC k k.CRC_FOR_MSG_TO_SEND B L = some (1, S) ∧
      ucCRC16_compute_msg_CRC k k.CRC_FOR_MSG_TO_REC S L = some (1, S) := by
  refine ⟨_, compute_send_eq k B L h3 hmax h8 hlen, ?_⟩
  rw [compute_rec_eq k _ _ L hmodes h3 hmax h8 (by simp only [List.length_set]; exact hlen),
    crcFeed_completed B L h3 hlen]
  rfl

/-- C1, at a concrete input: a four-byte buffer with two payload bytes. -/
theorem crc_round_trip_witness :
    ∃ S, ucCRC16_compute_msg_CRC ⟨64, 1, 0⟩ 1 [0x31, 0x32, 0, 0] 4 = some (1, S) ∧
      ucCRC16_compute_msg_CRC ⟨64, 1, 0⟩ 0 S 4 = some (1, S) :=
  crc_round_trip ⟨64, 1, 0⟩ [0x31, 0x32, 0, 0] 4 (by decide) (by decide) (by decide)
    (by decide) (by decide)

/-- C2. RECEIVE compares the new CRC with the received one: on a valid length,
RECEIVE mode returns 1 exactly when the two trailing bytes of the buffer equal
the two bytes SEND mode would write there, and 0 otherwise. -/
theorem crc_receive_iff_trailing_match (k : CommConst) (B : List Nat) (L : Nat)
    (hmodes : k.CRC_FOR_MSG_TO_REC ≠ k.CRC_FOR_MSG_TO_SEND)
    (h3 : 3 ≤ L) (hmax : L ≤ k.MAXMSGLEN + 1) (h8 : L < 256) (hlen : L ≤ B.length)
    (hB : Bytes B) :
    ∃ S, ucCRC16_compute_msg_CRC k k.CRC_FOR_MSG_TO_SEND B L = some (1, S) ∧
      ucCRC16_compute_msg_CRC k k.CRC_FOR_MSG_TO_REC B L =
        some (if B.getD (L - 2) 0 = S.getD (L - 2) 0 ∧ B.getD (L - 1) 0 = S.getD (L - 1) 0
          then 1 else 0, B) := by
  refine ⟨_, compute_send_eq k B L h3 hmax h8 hlen, ?_⟩
  have hr : RegOK (crcFeed (0xFF, 0xFF) (B.take (L - 2))) :=
    crcFeed_ok _ (by constructor <;> norm_num) _
  have e1 : L - 1 = L - 2 + 1 := by omega
  have e2 : L = L - 2 + 2 := by omega
  obtain ⟨g1, g2, -⟩ := getElem_opt_set_set B (L - 2) (crcFeed (0xFF, 0xFF) (B.take (L - 2))).1
    (crcFeed (0xFF, 0xFF) (B.take (L - 2))).2 (by omega)
  rw [← e1] at g1 g2
  rw [getD_of_getElem_opt g1, getD_of_getElem_opt g2,
    compute_rec_eq k _ B L hmodes h3 hmax h8 hlen]
  have ht := take_add_two (L - 2) B (by omega)
  rw [← e1, ← e2] at ht
  rw [ht, crcFeed_append]
  have hiff :
      ((crcFeed (crcFeed (0xFF, 0xFF) (B.take (L - 2)))
            [B.getD (L - 2) 0, B.getD (L - 1) 0]).1 = 0 ∧
        (crcFeed (crcFeed (0xFF, 0xFF) (B.take (L - 2)))
            [B.getD (L - 2) 0, B.getD (L - 1) 0]).2 = 0) ↔
      (B.getD (L - 2) 0 = (crcFeed (0xFF, 0xFF) (B.take (L - 2))).1 ∧
        B.getD (L - 1) 0 = (crcFeed (0xFF, 0xFF) (B.take (L - 2))).2) := by
    constructor
    · intro h
      exact crcFeed_two_eq_zero _ hr _ _ (Bytes_getD hB _) (Bytes_getD hB _) (Prod.ext h.1 h.2)
    · intro h
      rw [h.1, h.2, crcFeed_own _ hr]
      exact ⟨rfl, rfl⟩
  simp only [hiff]

/-- C2, at a concrete input: a received buffer that carries its CRC. -/
theorem crc_receive_iff_trailing_match_witness :
    ∃ S, ucCRC16_compute_msg_CRC ⟨64, 1, 0⟩ 1 [0x31, 0x32, 0x3D, 0xBA] 4 = some (1, S) ∧
      ucCRC16_compute_msg_CRC ⟨64, 1, 0⟩ 0 [0x31, 0x32, 0x3D, 0xBA] 4 =
        some (if [0x31, 0x32, 0x3D, 0xBA].getD (4 - 2) 0 = S.getD (4 - 2) 0 ∧
            [0x31, 0x32, 0x3D, 0xBA].getD (4 - 1) 0 = S.getD (4 - 1) 0
          then 1 else 0, [0x31, 0x32, 0x3D, 0xBA]) :=
  crc_receive_iff_trailing_match ⟨64, 1, 0⟩ [0x31, 0x32, 0x3D, 0xBA] 4 (by decide) (by decide)
    (by decide) (by decide) (by decide) (by unfold Bytes; decide)

/-- C3. CRC reference vector: SEND mode over the nine ASCII bytes "123456789"
followed by two reserved zero bytes, with length 11 and `MAXMSGLEN ≥ 10`,
returns 1 and writes 0x29 at offset 9 and 0xB1 at offset 10: the CRC is 0x29B1. -/
theorem crc_reference_vector (k : CommConst) (hM : 10 ≤ k.MAXMSGLEN) :
    ucCRC16_compute_msg_CRC k k.CRC_FOR_MSG_TO_SEND
        [0x31, 0x32, 0x33, 0x34, 0x35, 0x36, 0x37, 0x38, 0x39, 0, 0] 11 =
      some (1, [0x31, 0x32, 0x33, 0x34, 0x35, 0x36, 0x37, 0x38, 0x39, 0x29, 0xB1]) := by
  rw [compute_send_eq k _ 11 (by norm_num) (by omega) (by norm_num) (by decide)]
  decide

/-- C3, at the concrete build constants `MAXMSGLEN = 64`, SEND = 1, REC = 0. -/
theorem crc_reference_vector_witness :
    ucCRC16_compute_msg_CRC ⟨64, 1, 0⟩ 1
        [0x31, 0x32, 0x33, 0x34, 0x35, 0x36, 0x37, 0x38, 0x39, 0, 0] 11 =
      some (1, [0x31, 0x32, 0x33, 0x34, 0x35, 0x36, 0x37, 0x38, 0x39, 0x29, 0xB1]) :=
  crc_reference_vector ⟨64, 1, 0⟩ (by decide)

/-- C4. CRC rejection: in a buffer completed by SEND mode on a valid length,
inverting any single bit of any payload byte (offsets `0 .. L-3`) makes the
following RECEIVE-mode check return 0. -/
theorem crc_payload_bit_flip_rejected (k : CommConst) (B S : List Nat) (L j bit : Nat)
    (hmodes : k.CRC_FOR_MSG_TO_REC ≠ k.CRC_FOR_MSG_TO_SEND)
    (h3 : 3 ≤ L) (hmax : L ≤ k.MAXMSGLEN + 1) (h8 : L < 256) (hlen : L ≤ B.length)
    (hB : Bytes B)
    (hS : ucCRC16_compute_msg_CRC k k.CRC_FOR_MSG_TO_SEND B L = some (1, S))
    (hj : j < L - 2) (hbit : bit < 8) :
    ucCRC16_compute_msg_CRC k k.CRC_FOR_MSG_TO_REC (flipBit S j bit) L =
      some (0, flipBit S j bit) := by
  have hr : RegOK (crcFeed (0xFF, 0xFF) (B.take (L - 2))) :=
    crcFeed_ok _ (by constructor <;> norm_num) _
  have hinit : RegOK ((0xFF, 0xFF) : Nat × Nat) := by constructor <;> norm_num
  rw [compute_send_eq k B L h3 hmax h8 hlen] at hS
  have hSeq := (Prod.mk.inj (Option.some.inj hS)).2
  have hSlen : S.length = B.length := by rw [← hSeq]; simp only [List.length_set]
  have hSB : Bytes S := by
    rw [← hSeq]
    exact Bytes_set (Bytes_set hB _ _ hr.1) _ _ hr.2
  have hzero : crcFeed (0xFF, 0xFF) (S.take L) = (0, 0) := by
    rw [← hSeq]; exact crcFeed_completed B L h3 hlen
  have hx : S.getD j 0 < 256 := Bytes_getD hSB j
  have hv : S.getD j 0 ^^^ 2 ^ bit < 256 := by
    have h1 : S.getD j 0 < 2 ^ 8 := by omega
    have h2 : 2 ^ bit < 2 ^ 8 := Nat.pow_lt_pow_right (by norm_num) hbit
    have := Nat.xor_lt_two_pow h1 h2
    omega
  have hne : S.getD j 0 ^^^ 2 ^ bit ≠ S.getD j 0 := by
    intro h
    have h' : S.getD j 0 ^^^ 2 ^ bit = S.getD j 0 ^^^ 0 := by rw [Nat.xor_zero]; exact h
    have := Nat.xor_right_inj.mp h'
    have := Nat.two_pow_pos bit
    omega
  rw [compute_rec_eq k _ _ L hmodes h3 hmax h8
    (by simp only [flipBit, List.length_set]; omega)]
  have hnz : ¬ ((crcFeed (0xFF, 0xFF) ((flipBit S j bit).take L)).1 = 0 ∧
      (crcFeed (0xFF, 0xFF) ((flipBit S j bit).take L)).2 = 0) := by
    intro h
    have hflip : crcFeed (0xFF, 0xFF) ((flipBit S j bit).take L) = (0, 0) := Prod.ext h.1 h.2
    rw [flipBit, take_set_lt _ j L S (by omega) (by omega), crcFeed_append] at hflip
    rw [take_split_at j L S (by omega) (by omega), crcFeed_append, ← hflip] at hzero
    exact hne (crcFeed_inj_byte _ (crcFeed_ok _ hinit _) _ _ hx hv _
      (Bytes_take (Bytes_drop hSB _) _) hzero).symm
  rw [if_neg hnz]

/-- C4, at a concrete input: bit 0 of the first payload byte is inverted. -/
theorem crc_payload_bit_flip_rejected_witness :
    ucCRC16_compute_msg_CRC ⟨64, 1, 0⟩ 0 (flipBit [0x31, 0x32, 0x3D, 0xBA] 0 0) 4 =
      some (0, flipBit [0x31, 0x32, 0x3D, 0xBA] 0 0) :=
  crc_payload_bit_flip_rejected ⟨64, 1, 0⟩ [0x31, 0x32, 0, 0] [0x31, 0x32, 0x3D, 0xBA] 4 0 0
    (by decide) (by decide) (by decide) (by decide) (by decide) (by unfold Bytes; decide)
    (by decide) (by decide) (by decide)

/-- C5. CRC length guard: with `MAXMSGLEN ≤ 254`, for either mode and every
8-bit length `L` that is 0, 1, 2 or exceeds `MAXMSGLEN + 1`, the limit `L - 1`
computed in 8-bit arithmetic is below 2 or above `MAXMSGLEN`, and the call
returns 0 with the buffer unmodified. -/
theorem crc_length_guard (k : CommConst) (ucMsgFlag : Nat) (B : List Nat) (L : Nat)
    (hL : L < 256) (hM : k.MAXMSGLEN ≤ 254) (h : L ≤ 2 ∨ k.MAXMSGLEN + 1 < L) :
    ((L + 255) % 256 < 2 ∨ k.MAXMSGLEN < (L + 255) % 256) ∧
      ucCRC16_compute_msg_CRC k ucMsgFlag B L = some (0, B) := by
  have hg : (L + 255) % 256 < 2 ∨ k.MAXMSGLEN < (L + 255) % 256 := by omega
  refine ⟨hg, ?_⟩
  unfold ucCRC16_compute_msg_CRC
  rcases hg with hg | hg
  · simp only [hg, if_true]
  · by_cases h2 : (L + 255) % 256 < 2
    · simp only [h2, if_true]
    · simp only [h2, if_false, gt_iff_lt, hg, if_true]

/-- C5, at a concrete input: length 0 in SEND mode. -/
theorem crc_length_guard_witness :
    ((0 + 255) % 256 < 2 ∨ (⟨64, 1, 0⟩ : CommConst).MAXMSGLEN < (0 + 255) % 256) ∧
      ucCRC16_compute_msg_CRC ⟨64, 1, 0⟩ 1 [0x31, 0x32, 0x33] 0 = some (0, [0x31, 0x32, 0x33]) :=
  crc_length_guard ⟨64, 1, 0⟩ 1 [0x31, 0x32, 0x33] 0 (by decide) (by decide) (by decide)

/-- Why C5 needs `MAXMSGLEN ≤ 254`: with `MAXMSGLEN ≥ 255`, length 0 passes
the guard with `ucLimit = 255`, and in RECEIVE mode the loop never exits. -/
theorem compute_rec_length_zero_unbounded (k : CommConst) (flag : Nat) (B : List Nat)
    (hflag : flag ≠ k.CRC_FOR_MSG_TO_SEND) (hM : 255 ≤ k.MAXMSGLEN) :
    ucCRC16_compute_msg_CRC k flag B 0 = none := by
  have e4 : ¬ 255 > k.MAXMSGLEN := by omega
  simp only [ucCRC16_compute_msg_CRC, Nat.zero_add, Nat.reduceMod, Nat.reduceLT, if_false, e4,
    hflag, crcLoop_255 B 257 0 0 (0xFF, 0xFF) (by norm_num)]

/-- C6. SEND postcondition and frame: on a valid length SEND mode returns 1;
the completed buffer has the high byte of the register at offset `L-2` and its
low byte at offset `L-1`, where the register starts at 0xFFFF and is fed
exactly the bytes at offsets `0 .. L-3`; every other offset, in particular the
payload, is unchanged. -/
theorem crc_send_post (k : CommConst) (B : List Nat) (L : Nat)
    (h3 : 3 ≤ L) (hmax : L ≤ k.MAXMSGLEN + 1) (h8 : L < 256) (hlen : L ≤ B.length) :
    ∃ S, ucCRC16_compute_msg_CRC k k.CRC_FOR_MSG_TO_SEND B L = some (1, S) ∧
      S.length = B.length ∧
      S[L - 2]? = some (crcFeed (0xFF, 0xFF) (B.take (L - 2))).1 ∧
      S[L - 1]? = some (crcFeed (0xFF, 0xFF) (B.take (L - 2))).2 ∧
      ∀ i, i ≠ L - 2 → i ≠ L - 1 → S[i]? = B[i]? := by
  refine ⟨_, compute_send_eq k B L h3 hmax h8 hlen, by simp only [List.length_set], ?_⟩
  have e1 : L - 1 = L - 2 + 1 := by omega
  rw [e1]
  exact getElem_opt_set_set B (L - 2) _ _ (by omega)

/-- C6, at a concrete input. -/
theorem crc_send_post_witness :
    ∃ S, ucCRC16_compute_msg_CRC ⟨64, 1, 0⟩ 1 [0x31, 0x32, 7, 9] 4 = some (1, S) ∧
      S.length = [0x31, 0x32, 7, 9].length ∧
      S[4 - 2]? = some (crcFeed (0xFF, 0xFF) ([0x31, 0x32, 7, 9].take (4 - 2))).1 ∧
      S[4 - 1]? = some (crcFeed (0xFF, 0xFF) ([0x31, 0x32, 7, 9].take (4 - 2))).2 ∧
      ∀ i, i ≠ 4 - 2 → i ≠ 4 - 1 → S[i]? = [0x31, 0x32, 7, 9][i]? :=
  crc_send_post ⟨64, 1, 0⟩ [0x31, 0x32, 7, 9] 4 (by decide) (by decide) (by decide) (by decide)

/-- C7. RECEIVE postcondition: on a valid length RECEIVE mode leaves the
buffer unchanged and returns 1 exactly when the register, started at 0xFFFF
and fed all `L` bytes at offsets `0 .. L-1`, ends with high and low byte both
zero; otherwise it returns 0. -/
theorem crc_receive_post (k : CommConst) (B : List Nat) (L : Nat)
    (hmodes : k.CRC_FOR_MSG_TO_REC ≠ k.CRC_FOR_MSG_TO_SEND)
    (h3 : 3 ≤ L) (hmax : L ≤ k.MAXMSGLEN + 1) (h8 : L < 256) (hlen : L ≤ B.length) :
    ucCRC16_compute_msg_CRC k k.CRC_FOR_MSG_TO_REC B L =
      some (if (crcFeed (0xFF, 0xFF) (B.take L)).1 = 0 ∧ (crcFeed (0xFF, 0xFF) (B.take L)).2 = 0
        then 1 else 0, B) :=
  compute_rec_eq k _ B L hmodes h3 hmax h8 hlen

/-- C7, at a concrete input: a buffer that does not carry its CRC. -/
theorem crc_receive_post_witness :
    ucCRC16_compute_msg_CRC ⟨64, 1, 0⟩ 0 [0x31, 0x32, 7, 9] 4 =
      some (if (crcFeed (0xFF, 0xFF) ([0x31, 0x32, 7, 9].take 4)).1 = 0 ∧
          (crcFeed (0xFF, 0xFF) ([0x31, 0x32, 7, 9].take 4)).2 = 0
        then 1 else 0, [0x31, 0x32, 7, 9]) :=
  crc_receive_post ⟨64, 1, 0⟩ [0x31, 0x32, 7, 9] 4 (by decide) (by decide) (by decide)
    (by decide) (by decide)

/-! ## The report store: slot access -/

theorem slotAt_set_self (S : List ReportSlot) (i : Nat) (s : ReportSlot) (hi : i < S.length) :
    slotAt (S.set i s) i = s := by
  simp [slotAt, List.getD_eq_getElem?_getD, List.getElem?_set_self hi]

theorem slotAt_set_ne (S : List ReportSlot) (i j : Nat) (s : ReportSlot) (hij : i ≠ j) :
    slotAt (S.set i s) j = slotAt S j := by
  simp [slotAt, List.getD_eq_getElem?_getD, List.getElem?_set_ne hij]

theorem slotAt_mem (S : List ReportSlot) (i : Nat) (hi : i < S.length) : slotAt S i ∈ S := by
  rw [slotAt, List.getD_eq_getElem _ _ hi]
  exact List.getElem_mem hi

theorem mem_iff_slotAt (S : List ReportSlot) (s : ReportSlot) :
    s ∈ S ↔ ∃ i, i < S.length ∧ slotAt S i = s := by
  constructor
  · intro h
    obtain ⟨i, hi, rfl⟩ := List.getElem_of_mem h
    exact ⟨i, hi, by rw [slotAt, List.getD_eq_getElem _ _ hi]⟩
  · rintro ⟨i, hi, rfl⟩
    exact slotAt_mem S i hi

theorem set_slotAt_self (S : List ReportSlot) (i : Nat) (hi : i < S.length) :
    S.set i (slotAt S i) = S := by
  apply List.ext_getElem?
  intro j
  by_cases hij : i = j
  · subst hij
    rw [List.getElem?_set_self hi, slotAt, List.getD_eq_getElem _ _ hi,
      List.getElem?_eq_getElem hi]
  · rw [List.getElem?_set_ne hij]

theorem store_ext (S T : List ReportSlot) (hlen : S.length = T.length)
    (h : ∀ i, i < S.length → slotAt S i = slotAt T i) : S = T := by
  apply List.ext_getElem hlen
  intro i h1 h2
  have := h i h1
  rwa [slotAt, slotAt, List.getD_eq_getElem _ _ h1, List.getD_eq_getElem _ _ h2] at this

/-! ## The report store: the handlers' stores -/

theorem getD_append_cons (pre rest : List Nat) (x : Nat) :
    (pre ++ x :: rest).getD pre.length 0 = x := by
  induction pre with
  | nil => rfl
  | cons a pre ih => simpa using ih

theorem set_append_cons (pre rest : List Nat) (x v : Nat) :
    (pre ++ x :: rest).set pre.length v = pre ++ v :: rest := by
  induction pre with
  | nil => rfl
  | cons a pre ih => simp [ih]

/-- The four stores of a handler replace the slot by a flagged two-byte one. -/
theorem storeReading_eq (S : List ReportSlot) (i uiLight : Nat) (hi : i < S.length)
    (hd : (slotAt S i).m_ucaData.length = MAXDATALEN) :
    storeReading S i uiLight =
      S.set i ⟨[(uiLight >>> 8) % 256, uiLight % 256], 2,
        bis8 (slotAt S i).m_ucFlags F_NEWDATA⟩ := by
  rcases hs : slotAt S i with ⟨data, len, fl⟩
  simp only [hs] at hd
  match data, hd with
  | [a, b], _ =>
    simp only [storeReading, setData, setLength, setFlags, hs, slotAt_set_self _ _ _ hi,
      List.set_set, List.length_set, hi, List.set_cons_zero, List.set_cons_succ]

theorem uiMain_Test_eq (m : Machine) (hi : 0 < m.S_Report.length)
    (hd : (slotAt m.S_Report 0).m_ucaData.length = MAXDATALEN) :
    uiMain_Test m =
      (0, { m with S_Report := m.S_Report.set 0 ⟨[0xDE, 0xAD], 2,
        bis8 (slotAt m.S_Report 0).m_ucFlags F_NEWDATA⟩ }) := by
  rcases hs : slotAt m.S_Report 0 with ⟨data, len, fl⟩
  simp only [hs] at hd
  match data, hd with
  | [a, b], _ =>
    simp only [uiMain_Test, setData, setLength, setFlags, hs, slotAt_set_self _ _ _ hi,
      List.set_set, List.length_set, hi, List.set_cons_zero, List.set_cons_succ]

/-! ## The report store: `ucMain_FetchData` -/

/-- The inner loop, entered at `ucByteCnt = pre.length` with the bytes `mid`
still to ship, ships exactly `mid` and zeroes it in the slot. -/
theorem fetchDataLoop_run (i : Nat) :
    ∀ (mid pre post : List Nat) (budget : Nat) (S : List ReportSlot) (out : List Nat),
      i < S.length → (slotAt S i).m_ucaData = pre ++ mid ++ post →
      (slotAt S i).m_ucLength = pre.length + mid.length → (slotAt S i).m_ucLength < 256 →
      mid.length < budget →
      fetchDataLoop i budget pre.length S out =
        (S.set i { slotAt S i with
            m_ucaData := pre ++ List.replicate mid.length 0 ++ post }, out ++ mid) := by
  intro mid
  induction mid with
  | nil =>
    intro pre post budget S out hi hdata hlen _ hb
    obtain ⟨b, rfl⟩ : ∃ b, budget = b + 1 := ⟨budget - 1, by omega⟩
    have hnot : ¬ pre.length < (slotAt S i).m_ucLength := by
      rw [hlen]; simp
    rw [fetchDataLoop, if_neg hnot]
    simp only [List.length_nil, List.replicate_zero, List.append_nil]
    simp only [List.append_nil] at hdata
    rw [← hdata, set_slotAt_self S i hi]
  | cons x mid ih =>
    intro pre post budget S out hi hdata hlen h8 hb
    obtain ⟨b, rfl⟩ : ∃ b, budget = b + 1 := ⟨budget - 1, by omega⟩
    simp only [List.length_cons] at hlen hb
    have hlt : pre.length < (slotAt S i).m_ucLength := by omega
    have hmod : (pre.length + 1) % 256 = (pre ++ [0]).length := by
      simp only [List.length_append, List.length_singleton]; omega
    have hget : (slotAt S i).m_ucaData.getD pre.length 0 = x := by
      rw [hdata, List.append_assoc, List.cons_append]
      exact getD_append_cons pre (mid ++ post) x
    have hset : (slotAt S i).m_ucaData.set pre.length 0 = (pre ++ [0]) ++ mid ++ post := by
      rw [hdata, List.append_assoc, List.cons_append, set_append_cons]
      simp
    rw [fetchDataLoop, if_pos hlt, hmod, hget]
    have hslot : slotAt (setData S i pre.length 0) i =
        { slotAt S i with m_ucaData := (pre ++ [0]) ++ mid ++ post } := by
      rw [setData, slotAt_set_self _ _ _ hi, hset]
    rw [ih (pre ++ [0]) post b (setData S i pre.length 0) (out ++ [x])
      (by rw [setData, List.length_set]; exact hi)
      (by rw [hslot])
      (by rw [hslot]; simp only [List.length_append, List.length_singleton]; omega)
      (by rw [hslot]; exact h8)
      (by omega)]
    rw [hslot, setData, List.set_set]
    simp [List.replicate_succ]

theorem bis8_flagged (f : Nat) : bis8 f F_NEWDATA &&& F_NEWDATA ≠ 0 := by
  have h1 : (f ||| 1) % 2 = 1 := by simp
  have h2 : bis8 f F_NEWDATA &&& F_NEWDATA = ((f ||| 1) % 256) % 2 := by
    simp only [bis8, F_NEWDATA]
    exact Nat.and_one_is_mod _
  rw [h2]
  omega

theorem bic8_not_flagged (f : Nat) : bic8 f F_NEWDATA &&& F_NEWDATA = 0 := by
  have h0 : (0xFFFF ^^^ 1 : Nat) = 0xFFFE := by decide
  have h1 : (f &&& 0xFFFE) % 2 = 0 := by
    rcases Nat.mod_two_eq_zero_or_one (f &&& 0xFFFE) with h | h
    · exact h
    · rw [Nat.and_mod_two_eq_one] at h
      omega
  have h2 : bic8 f F_NEWDATA &&& F_NEWDATA = ((f &&& 0xFFFE) % 256) % 2 := by
    simp only [bic8, F_NEWDATA, h0]
    exact Nat.and_one_is_mod _
  rw [h2]
  omega

theorem drained_not_flagged (s : ReportSlot) : ¬ flagged (drained s) := by
  simp only [flagged, drained, ne_eq, not_not]
  exact bic8_not_flagged _

/-- One pass of the outer loop on a slot whose length fits. -/
theorem fetchSlot_eq (u : Nat) (out : List Nat) (S : List ReportSlot) (i : Nat)
    (hu : u < 256) (hi : i < S.length) (hfit : SlotFits (slotAt S i)) :
    fetchSlot (u, out, S) i =
      ((u + recordCost (slotAt S i)) % 256, out ++ recordIf i (slotAt S i),
        if flagged (slotAt S i) then S.set i (drained (slotAt S i)) else S) := by
  by_cases hf : flagged (slotAt S i)
  · have hf' : (slotAt S i).m_ucFlags &&& F_NEWDATA ≠ 0 := hf
    have hsplit : (slotAt S i).m_ucaData =
        [] ++ (slotAt S i).m_ucaData.take (slotAt S i).m_ucLength ++
          (slotAt S i).m_ucaData.drop (slotAt S i).m_ucLength := by
      simp
    have hl : ((slotAt S i).m_ucaData.take (slotAt S i).m_ucLength).length =
        (slotAt S i).m_ucLength := by
      rw [List.length_take]; exact Nat.min_eq_left hfit.1
    have hrun := fetchDataLoop_run i ((slotAt S i).m_ucaData.take (slotAt S i).m_ucLength) []
      ((slotAt S i).m_ucaData.drop (slotAt S i).m_ucLength) 256 S
      (out ++ [i, (slotAt S i).m_ucLength]) hi hsplit
      (by rw [hl]; simp) hfit.2 (by rw [hl]; exact hfit.2)
    simp only [List.length_nil] at hrun
    simp only [fetchSlot, hf', if_true, ne_eq, not_false_eq_true, hrun, recordCost, recordIf, hf,
      record, setLength, setFlags, slotAt_set_self _ _ _ hi, List.set_set, List.length_set, hi,
      drained, hl, List.nil_append, List.append_assoc]
  · have hf' : ¬ ((slotAt S i).m_ucFlags &&& F_NEWDATA ≠ 0) := hf
    simp only [fetchSlot, hf', if_false, recordCost, recordIf, hf, Nat.add_zero,
      List.append_nil, Nat.mod_eq_of_lt hu]

/-- The outer loop over a list of distinct slot indices. -/
theorem fetch_fold (is : List Nat) :
    ∀ (u : Nat) (out : List Nat) (S : List ReportSlot), is.Nodup → u < 256 →
      (∀ i ∈ is, i < S.length) → (∀ i ∈ is, SlotFits (slotAt S i)) →
      (is.foldl fetchSlot (u, out, S)).1 =
          (u + (is.map (fun i => recordCost (slotAt S i))).sum) % 256 ∧
        (is.foldl fetchSlot (u, out, S)).2.1 =
          out ++ (is.map (fun i => recordIf i (slotAt S i))).flatten ∧
        (is.foldl fetchSlot (u, out, S)).2.2.length = S.length ∧
        ∀ j, slotAt (is.foldl fetchSlot (u, out, S)).2.2 j =
          if j ∈ is ∧ flagged (slotAt S j) then drained (slotAt S j) else slotAt S j := by
  induction is with
  | nil =>
    intro u out S _ hu _ _
    simp [Nat.mod_eq_of_lt hu]
  | cons i rest ih =>
    intro u out S hnd hu hlt hfit
    obtain ⟨hnotin, hnd'⟩ := List.nodup_cons.mp hnd
    have hi : i < S.length := hlt i (List.mem_cons_self _ _)
    have hne : ∀ j ∈ rest, i ≠ j := fun j hj h => hnotin (h ▸ hj)
    rw [List.foldl_cons, fetchSlot_eq u out S i hu hi (hfit i (List.mem_cons_self _ _))]
    have hS' : ∀ j ∈ rest,
        slotAt (if flagged (slotAt S i) then S.set i (drained (slotAt S i)) else S) j =
          slotAt S j := by
      intro j hj
      split
      · exact slotAt_set_ne _ _ _ _ (hne j hj)
      · rfl
    have hlen' : (if flagged (slotAt S i) then S.set i (drained (slotAt S i)) else S).length =
        S.length := by
      split
      · exact List.length_set _ _ _
      · rfl
    obtain ⟨h1, h2, h3, h4⟩ := ih ((u + recordCost (slotAt S i)) % 256)
      (out ++ recordIf i (slotAt S i))
      (if flagged (slotAt S i) then S.set i (drained (slotAt S i)) else S) hnd'
      (Nat.mod_lt _ (by norm_num))
      (fun j hj => by rw [hlen']; exact hlt j (List.mem_cons_of_mem _ hj))
      (fun j hj => by rw [hS' j hj]; exact hfit j (List.mem_cons_of_mem _ hj))
    have hc1 : rest.map (fun j => recordCost
        (slotAt (if flagged (slotAt S i) then S.set i (drained (slotAt S i)) else S) j)) =
        rest.map (fun j => recordCost (slotAt S j)) :=
      List.map_congr_left (fun j hj => by rw [hS' j hj])
    have hc2 : rest.map (fun j => recordIf j
        (slotAt (if flagged (slotAt S i) then S.set i (drained (slotAt S i)) else S) j)) =
        rest.map (fun j => recordIf j (slotAt S j)) :=
      List.map_congr_left (fun j hj => by rw [hS' j hj])
    rw [hc1] at h1
    rw [hc2] at h2
    refine ⟨?_, ?_, ?_, ?_⟩
    · rw [h1, List.map_cons, List.sum_cons]
      omega
    · rw [h2, List.map_cons, List.flatten_cons, List.append_assoc]
    · rw [h3, hlen']
    · intro j
      rw [h4 j]
      by_cases hji : j = i
      · subst hji
        have hjr : ¬ j ∈ rest := hnotin
        by_cases hf : flagged (slotAt S j)
        · simp only [hjr, false_and, if_false, hf, if_true, slotAt_set_self _ _ _ hi,
            List.mem_cons, true_or, true_and]
        · simp only [hjr, false_and, if_false, hf, and_false]
      · have hsj : slotAt (if flagged (slotAt S i) then S.set i (drained (slotAt S i)) else S) j =
            slotAt S j := by
          split
          · exact slotAt_set_ne _ _ _ _ (fun h => hji h.symm)
          · rfl
        simp only [hsj, List.mem_cons, hji, false_or]

theorem range_NUMDATGEN : List.range NUMDATGEN = [0, 1, 2, 3, 4, 5] := by decide

theorem record_length (i : Nat) (s : ReportSlot) (h : s.m_ucLength ≤ s.m_ucaData.length) :
    (record i s).length = s.m_ucLength + 2 := by
  simp only [record, List.length_append, List.length_cons, List.length_nil, List.length_take,
    Nat.min_eq_left h]
  omega

theorem recordIf_length (i : Nat) (s : ReportSlot) (h : s.m_ucLength ≤ s.m_ucaData.length) :
    (recordIf i s).length = recordCost s := by
  unfold recordIf recordCost
  split
  · exact record_length i s h
  · rfl

theorem recordCost_le (s : ReportSlot) (h : s.m_ucLength ≤ MAXDATALEN) : recordCost s ≤ 4 := by
  unfold recordCost
  unfold MAXDATALEN at h
  split <;> omega

/-- Shape and length bound give `SlotFits` for every slot index. -/
theorem slotFits_of_shape (S : List ReportSlot) (hS : StoreShape S)
    (hlen : ∀ s ∈ S, s.m_ucLength ≤ MAXDATALEN) (i : Nat) (hi : i < S.length) :
    SlotFits (slotAt S i) := by
  have h1 := hS.2 _ (slotAt_mem S i hi)
  have h2 := hlen _ (slotAt_mem S i hi)
  unfold MAXDATALEN at h1 h2
  exact ⟨by omega, by omega⟩

/-- The whole of `ucMain_FetchData` on a store whose lengths fit. -/
theorem fetchData_spec (S : List ReportSlot) (hS : StoreShape S)
    (hlen : ∀ s ∈ S, s.m_ucLength ≤ MAXDATALEN) :
    (ucMain_FetchData S).1 = ((List.range NUMDATGEN).map (fun i => recordCost (slotAt S i))).sum ∧
      (ucMain_FetchData S).2.1 = reportBody S ∧
      (ucMain_FetchData S).2.2.length = S.length ∧
      ∀ j, slotAt (ucMain_FetchData S).2.2 j =
        if j < NUMDATGEN ∧ flagged (slotAt S j) then drained (slotAt S j) else slotAt S j := by
  have hlt : ∀ i ∈ List.range NUMDATGEN, i < S.length := fun i hi => by
    rw [hS.1]; exact List.mem_range.mp hi
  obtain ⟨h1, h2, h3, h4⟩ := fetch_fold (List.range NUMDATGEN) 0 [] S (List.nodup_range _)
    (by norm_num) hlt (fun i hi => slotFits_of_shape S hS hlen i (hlt i hi))
  refine ⟨?_, ?_, h3, ?_⟩
  · rw [ucMain_FetchData, h1, Nat.zero_add]
    apply Nat.mod_eq_of_lt
    have hb : ∀ i, i < NUMDATGEN → recordCost (slotAt S i) ≤ 4 := fun i hi =>
      recordCost_le _ (hlen _ (slotAt_mem S i (by rw [hS.1]; exact hi)))
    have b0 := hb 0 (by decide)
    have b1 := hb 1 (by decide)
    have b2 := hb 2 (by decide)
    have b3 := hb 3 (by decide)
    have b4 := hb 4 (by decide)
    have b5 := hb 5 (by decide)
    simp only [range_NUMDATGEN, List.map_cons, List.map_nil, List.sum_cons, List.sum_nil]
    omega
  · rw [ucMain_FetchData, h2, List.nil_append, reportBody]
  · intro j
    rw [ucMain_FetchData, h4 j]
    simp only [List.mem_range]

/-! ## The report store: claim C8 -/

/-- C8. Report wire framing: when every slot's length is at most `MAXDATALEN`,
`ucMain_FetchData` stores through its output pointer exactly the records
`[slot_id, length, data[0..length-1]]` of the flagged slots, by increasing
slot ID 0..5, and nothing for the other slots; its return value is the number
of bytes stored, which is the sum of `length + 2` over the flagged slots. -/
theorem fetch_wire_framing (S : List ReportSlot) (hS : StoreShape S)
    (hlen : ∀ s ∈ S, s.m_ucLength ≤ MAXDATALEN) :
    (ucMain_FetchData S).2.1 = reportBody S ∧
      (ucMain_FetchData S).1 = (ucMain_FetchData S).2.1.length ∧
      (ucMain_FetchData S).1 =
        ((List.range NUMDATGEN).map (fun i => recordCost (slotAt S i))).sum := by
  obtain ⟨h1, h2, -, -⟩ := fetchData_spec S hS hlen
  refine ⟨h2, ?_, h1⟩
  rw [h1, h2, reportBody, List.length_flatten, List.map_map]
  congr 1
  apply List.map_congr_left
  intro i hi
  have hi' : i < S.length := by rw [hS.1]; exact List.mem_range.mp hi
  exact (recordIf_length i _ (slotFits_of_shape S hS hlen i hi').1).symm

/-- C8, at the store in which only slot 2 is flagged, with data
`[0xDE, 0xAD]` and length 2: the bytes stored are `[2, 2, 0xDE, 0xAD]` and
the return value is 4. -/
theorem fetch_wire_framing_witness :
    ucMain_FetchData slot2Store =
        (4, [2, 2, 0xDE, 0xAD], List.replicate 6 ⟨[0, 0], 0, 0⟩) ∧
      ((ucMain_FetchData slot2Store).2.1 = reportBody slot2Store ∧
        (ucMain_FetchData slot2Store).1 = (ucMain_FetchData slot2Store).2.1.length ∧
        (ucMain_FetchData slot2Store).1 =
          ((List.range NUMDATGEN).map (fun i => recordCost (slotAt slot2Store i))).sum) :=
  ⟨by decide, fetch_wire_framing slot2Store (by unfold StoreShape; decide) (by decide)⟩

/-! ## The read routines leave the report store alone -/

theorem sampleLoop_store (d : DeviceHeader) (k avgCount : Nat) :
    ∀ (convs : List Nat) (m m' : Machine) (convs' : List Nat),
      sampleLoop d k avgCount convs m = Outcome.ok (m', convs') →
      m'.S_Report = m.S_Report ∧ m'.g_uiAveCounter = m.g_uiAveCounter := by
  intro convs
  induction convs with
  | nil =>
    intro m m' convs' h
    rw [sampleLoop] at h
    split at h
    · exact absurd h (by simp)
    · obtain ⟨rfl, -⟩ := Prod.mk.inj (Outcome.ok.inj h)
      exact ⟨rfl, rfl⟩
  | cons r rest ih =>
    intro m m' convs' h
    rw [sampleLoop] at h
    split at h
    · obtain ⟨h1, h2⟩ := ih _ _ _ h
      have e1 : (ADCConversion (convert k r (trigger d m))).S_Report = m.S_Report := by
        unfold ADCConversion convert trigger
        split <;> split <;> rfl
      have e2 : (ADCConversion (convert k r (trigger d m))).g_uiAveCounter =
          m.g_uiAveCounter := by
        unfold ADCConversion convert trigger
        split <;> split <;> rfl
      exact ⟨h1.trans e1, h2.trans e2⟩
    · obtain ⟨rfl, -⟩ := Prod.mk.inj (Outcome.ok.inj h)
      exact ⟨rfl, rfl⟩

theorem readChannel_1_store (d : DeviceHeader) (avgCount : Nat) (convs convs' : List Nat)
    (m m' : Machine) (v : Nat)
    (h : unLIGHT_ReadChannel_1 d avgCount convs m = Outcome.ok (v, m', convs')) :
    m'.S_Report = m.S_Report := by
  unfold unLIGHT_ReadChannel_1 at h
  simp only at h
  split at h
  · exact absurd h (by simp)
  · exact absurd h (by simp)
  · rename_i m1 c1 hloop
    split at h
    · exact absurd h (by simp)
    · obtain ⟨-, h2⟩ := Prod.mk.inj (Outcome.ok.inj h)
      obtain ⟨rfl, -⟩ := Prod.mk.inj h2
      exact (sampleLoop_store d 1 avgCount _ _ _ _ hloop).1

theorem readChannel_2_store (d : DeviceHeader) (avgCount : Nat) (convs convs' : List Nat)
    (m m' : Machine) (v : Nat)
    (h : unLIGHT_ReadChannel_2 d avgCount convs m = Outcome.ok (v, m', convs')) :
    m'.S_Report = m.S_Report := by
  unfold unLIGHT_ReadChannel_2 at h
  simp only at h
  split at h
  · exact absurd h (by simp)
  · exact absurd h (by simp)
  · rename_i m1 c1 hloop
    split at h
    · exact absurd h (by simp)
    · obtain ⟨-, h2⟩ := Prod.mk.inj (Outcome.ok.inj h)
      obtain ⟨rfl, -⟩ := Prod.mk.inj h2
      exact (sampleLoop_store d 2 avgCount _ _ _ _ hloop).1

theorem readChannel_3_store (d : DeviceHeader) (avgCount : Nat) (convs convs' : List Nat)
    (m m' : Machine) (v : Nat)
    (h : unLIGHT_ReadChannel_3 d avgCount convs m = Outcome.ok (v, m', convs')) :
    m'.S_Report = m.S_Report := by
  unfold unLIGHT_ReadChannel_3 at h
  simp only at h
  split at h
  · exact absurd h (by simp)
  · exact absurd h (by simp)
  · rename_i m1 c1 hloop
    split at h
    · exact absurd h (by simp)
    · obtain ⟨-, h2⟩ := Prod.mk.inj (Outcome.ok.inj h)
      obtain ⟨rfl, -⟩ := Prod.mk.inj h2
      exact (sampleLoop_store d 3 avgCount _ _ _ _ hloop).1

theorem readChannel_4_store (d : DeviceHeader) (avgCount : Nat) (convs convs' : List Nat)
    (m m' : Machine) (v : Nat)
    (h : unLIGHT_ReadChannel_4 d avgCount convs m = Outcome.ok (v, m', convs')) :
    m'.S_Report = m.S_Report := by
  unfold unLIGHT_ReadChannel_4 at h
  simp only at h
  split at h
  · exact absurd h (by simp)
  · exact absurd h (by simp)
  · rename_i m1 c1 hloop
    split at h
    · exact absurd h (by simp)
    · obtain ⟨-, h2⟩ := Prod.mk.inj (Outcome.ok.inj h)
      obtain ⟨rfl, -⟩ := Prod.mk.inj h2
      exact (sampleLoop_store d 4 avgCount _ _ _ _ hloop).1

/-! ## Every reachable store satisfies `StoreInv` -/

theorem storeInv_shape {S : List ReportSlot} (h : StoreInv S) : StoreShape S :=
  ⟨h.1, fun s hs => (h.2 s hs).1⟩

theorem slotInv_len_le {s : ReportSlot} (h : SlotInv s) : s.m_ucLength ≤ MAXDATALEN := by
  unfold MAXDATALEN
  rcases h.2 with h' | h'
  · omega
  · omega

theorem storeInv_len_le {S : List ReportSlot} (h : StoreInv S) :
    ∀ s ∈ S, s.m_ucLength ≤ MAXDATALEN :=
  fun s hs => slotInv_len_le (h.2 s hs)

theorem storeInv_set {S : List ReportSlot} (h : StoreInv S) (i : Nat) (s : ReportSlot)
    (hs : SlotInv s) : StoreInv (S.set i s) := by
  refine ⟨by rw [List.length_set]; exact h.1, ?_⟩
  intro t ht
  rcases List.mem_or_eq_of_mem_set ht with h' | h'
  · exact h.2 t h'
  · rw [h']; exact hs

theorem slotInv_reading (b0 b1 f : Nat) : SlotInv ⟨[b0, b1], 2, bis8 f F_NEWDATA⟩ :=
  ⟨rfl, Or.inl ⟨bis8_flagged f, rfl⟩⟩

theorem slotInv_clear : SlotInv ⟨[0, 0], 0, 0⟩ :=
  ⟨rfl, Or.inr ⟨by decide, rfl, rfl⟩⟩

theorem slotInv_drained (s : ReportSlot) (h : SlotInv s) (hf : flagged s) :
    drained s = ⟨[0, 0], 0, bic8 s.m_ucFlags F_NEWDATA⟩ ∧ SlotInv (drained s) := by
  obtain ⟨data, len, fl⟩ := s
  obtain ⟨hd, hcase⟩ := h
  rcases hcase with ⟨-, hl⟩ | ⟨hnf, -⟩
  · simp only at hd hl
    subst hl
    match data, hd with
    | [a, b], _ =>
      have e : drained ⟨[a, b], 2, fl⟩ = ⟨[0, 0], 0, bic8 fl F_NEWDATA⟩ := rfl
      refine ⟨e, ?_⟩
      rw [e]
      exact ⟨rfl, Or.inr ⟨fun h => h (bic8_not_flagged fl), rfl, rfl⟩⟩
  · exact absurd hf hnf

theorem cleanSlot_eq (S : List ReportSlot) (i : Nat) (hi : i < S.length)
    (hd : (slotAt S i).m_ucaData.length = MAXDATALEN) :
    cleanSlot S i = S.set i ⟨[0, 0], 0, 0⟩ := by
  rcases hs : slotAt S i with ⟨data, len, fl⟩
  simp only [hs] at hd
  match data, hd with
  | [a, b], _ =>
    have hr : List.range MAXDATALEN = [0, 1] := by decide
    simp only [cleanSlot, hr, List.foldl_cons, List.foldl_nil, setData, setLength, setFlags, hs,
      slotAt_set_self _ _ _ hi, List.set_set, List.length_set, hi, List.set_cons_zero,
      List.set_cons_succ]

theorem clean_fold (is : List Nat) :
    ∀ (S : List ReportSlot), (∀ i ∈ is, i < S.length) →
      (∀ j, j < S.length → (slotAt S j).m_ucaData.length = MAXDATALEN) →
      (is.foldl cleanSlot S).length = S.length ∧
        ∀ j, slotAt (is.foldl cleanSlot S) j =
          if j ∈ is then ⟨[0, 0], 0, 0⟩ else slotAt S j := by
  induction is with
  | nil =>
    intro S _ _
    simp
  | cons i rest ih =>
    intro S hlt hd
    have hi : i < S.length := hlt i (List.mem_cons_self _ _)
    rw [List.foldl_cons, cleanSlot_eq S i hi (hd i hi)]
    have hd' : ∀ j, j < (S.set i ⟨[0, 0], 0, 0⟩).length →
        (slotAt (S.set i ⟨[0, 0], 0, 0⟩) j).m_ucaData.length = MAXDATALEN := by
      intro j hj
      rw [List.length_set] at hj
      by_cases hji : i = j
      · subst hji
        rw [slotAt_set_self _ _ _ hi]
        rfl
      · rw [slotAt_set_ne _ _ _ _ hji]
        exact hd j hj
    obtain ⟨h1, h2⟩ := ih (S.set i ⟨[0, 0], 0, 0⟩)
      (fun j hj => by rw [List.length_set]; exact hlt j (List.mem_cons_of_mem _ hj)) hd'
    refine ⟨by rw [h1, List.length_set], ?_⟩
    intro j
    rw [h2 j]
    by_cases hjr : j ∈ rest
    · simp only [hjr, if_true, List.mem_cons, or_true]
    · by_cases hji : i = j
      · subst hji
        simp only [hjr, if_false, slotAt_set_self _ _ _ hi, List.mem_cons, true_or, if_true]
      · have hji' : ¬ j = i := fun h => hji h.symm
        simp only [hjr, if_false, slotAt_set_ne _ _ _ _ hji, List.mem_cons, hji', false_or]

theorem clean_inv (m : Machine) (h : StoreShape m.S_Report) :
    StoreInv (vMain_CleanDataStruct m).S_Report ∧
      (vMain_CleanDataStruct m).S_Report = List.replicate NUMDATGEN ⟨[0, 0], 0, 0⟩ := by
  have hdef : (vMain_CleanDataStruct m).S_Report =
      (List.range NUMDATGEN).foldl cleanSlot m.S_Report := by
    rw [vMain_CleanDataStruct]
  obtain ⟨h1, h2⟩ := clean_fold (List.range NUMDATGEN) m.S_Report
    (fun i hi => by rw [h.1]; exact List.mem_range.mp hi)
    (fun j hj => h.2 _ (slotAt_mem _ j hj))
  rw [← hdef] at h1 h2
  generalize (vMain_CleanDataStruct m).S_Report = T at h1 h2 ⊢
  have hT : T.length = NUMDATGEN := h1.trans h.1
  have hall : ∀ s ∈ T, s = ⟨[0, 0], 0, 0⟩ := by
    intro s hs
    obtain ⟨j, hj, rfl⟩ := (mem_iff_slotAt T s).mp hs
    rw [h2 j, if_pos (List.mem_range.mpr (by rw [← hT]; exact hj))]
  refine ⟨⟨hT, fun s hs => by rw [hall s hs]; exact slotInv_clear⟩, ?_⟩
  rw [← hT]
  exact List.eq_replicate_of_mem hall

theorem narrowRet_ok {o : Outcome (Nat × Machine × List Nat)} {r : Nat} {m' : Machine}
    {convs' : List Nat} (h : narrowRet o = Outcome.ok (r, m', convs')) :
    ∃ v, o = Outcome.ok (v, m', convs') ∧ r = v % 256 := by
  match o, h with
  | Outcome.ok (v, m1, c1), h =>
    simp only [narrowRet] at h
    obtain ⟨h1, h2⟩ := Prod.mk.inj (Outcome.ok.inj h)
    obtain ⟨rfl, rfl⟩ := Prod.mk.inj h2
    exact ⟨v, rfl, h1.symm⟩

theorem vLight_Init_store (d : DeviceHeader) (hal : Hal) (m : Machine) :
    (vLight_Init d hal m).S_Report = m.S_Report := rfl

theorem vLight_Shutdown_store (d : DeviceHeader) (hal : Hal) (m : Machine) :
    (vLight_Shutdown d hal m).S_Report = m.S_Report := rfl

theorem uiMain_SL1_store (d : DeviceHeader) (hal : Hal) (convs convs' : List Nat)
    (m m' : Machine) (v : Nat) (h : uiMain_SL1 d hal convs m = Outcome.ok (v, m', convs')) :
    ∃ u, m'.S_Report = storeReading m.S_Report 1 u := by
  unfold uiMain_SL1 at h
  simp only at h
  split at h
  · exact absurd h (by simp)
  · exact absurd h (by simp)
  · rename_i u m1 c1 hread
    have hst := readChannel_1_store d _ _ _ _ _ _ hread
    obtain ⟨-, h2⟩ := Prod.mk.inj (Outcome.ok.inj h)
    obtain ⟨rfl, -⟩ := Prod.mk.inj h2
    exact ⟨u, by rw [vLight_Shutdown_store, hst, vLight_Init_store]⟩

theorem uiMain_SL2_store (d : DeviceHeader) (hal : Hal) (convs convs' : List Nat)
    (m m' : Machine) (v : Nat) (h : uiMain_SL2 d hal convs m = Outcome.ok (v, m', convs')) :
    ∃ u, m'.S_Report = storeReading m.S_Report 2 u := by
  unfold uiMain_SL2 at h
  simp only at h
  split at h
  · exact absurd h (by simp)
  · exact absurd h (by simp)
  · rename_i u m1 c1 hread
    have hst := readChannel_2_store d _ _ _ _ _ _ hread
    obtain ⟨-, h2⟩ := Prod.mk.inj (Outcome.ok.inj h)
    obtain ⟨rfl, -⟩ := Prod.mk.inj h2
    exact ⟨u, by rw [vLight_Shutdown_store, hst, vLight_Init_store]⟩

theorem uiMain_SL3_store (d : DeviceHeader) (hal : Hal) (convs convs' : List Nat)
    (m m' : Machine) (v : Nat) (h : uiMain_SL3 d hal convs m = Outcome.ok (v, m', convs')) :
    ∃ u, m'.S_Report = storeReading m.S_Report 3 u := by
  unfold uiMain_SL3 at h
  simp only at h
  split at h
  · exact absurd h (by simp)
  · exact absurd h (by simp)
  · rename_i u m1 c1 hread
    have hst := readChannel_3_store d _ _ _ _ _ _ hread
    obtain ⟨-, h2⟩ := Prod.mk.inj (Outcome.ok.inj h)
    obtain ⟨rfl, -⟩ := Prod.mk.inj h2
    exact ⟨u, by rw [vLight_Shutdown_store, hst, vLight_Init_store]⟩

theorem uiMain_SL4_store (d : DeviceHeader) (hal : Hal) (convs convs' : List Nat)
    (m m' : Machine) (v : Nat) (h : uiMain_SL4 d hal convs m = Outcome.ok (v, m', convs')) :
    ∃ u, m'.S_Report = storeReading m.S_Report 4 u := by
  unfold uiMain_SL4 at h
  simp only at h
  split at h
  · exact absurd h (by simp)
  · exact absurd h (by simp)
  · rename_i u m1 c1 hread
    have hst := readChannel_4_store d _ _ _ _ _ _ hread
    obtain ⟨-, h2⟩ := Prod.mk.inj (Outcome.ok.inj h)
    obtain ⟨rfl, -⟩ := Prod.mk.inj h2
    exact ⟨u, by rw [vLight_Shutdown_store, hst, vLight_Init_store]⟩

/-- The report store after a dispatch that returns. -/
theorem dispatch_store (d : DeviceHeader) (hal : Hal) (c len ret : Nat)
    (param convs convs' : List Nat) (m m' : Machine) (hS : StoreShape m.S_Report)
    (hstep : uiMainDispatch d hal c len param convs m = Outcome.ok (ret, m', convs')) :
    (4 < c ∧ m'.S_Report = m.S_Report) ∨
      (c ≤ 4 ∧ ∃ b0 b1, m'.S_Report =
        m.S_Report.set c ⟨[b0, b1], 2, bis8 (slotAt m.S_Report c).m_ucFlags F_NEWDATA⟩) := by
  have hlen : ∀ i, i < NUMDATGEN → i < m.S_Report.length := fun i hi => by rw [hS.1]; exact hi
  have hdat : ∀ i, i < NUMDATGEN → (slotAt m.S_Report i).m_ucaData.length = MAXDATALEN :=
    fun i hi => hS.2 _ (slotAt_mem _ i (hlen i hi))
  match c, hstep with
  | 0, hstep =>
    right
    refine ⟨by omega, 0xDE, 0xAD, ?_⟩
    simp only [uiMainDispatch] at hstep
    obtain ⟨v, ho, -⟩ := narrowRet_ok hstep
    rw [uiMain_Test_eq m (hlen 0 (by decide)) (hdat 0 (by decide))] at ho
    obtain ⟨-, h2⟩ := Prod.mk.inj (Outcome.ok.inj ho)
    obtain ⟨rfl, -⟩ := Prod.mk.inj h2
    rfl
  | 1, hstep =>
    right
    simp only [uiMainDispatch] at hstep
    obtain ⟨v, ho, -⟩ := narrowRet_ok hstep
    obtain ⟨u, hu⟩ := uiMain_SL1_store d hal _ _ _ _ _ ho
    exact ⟨by omega, _, _, hu.trans (storeReading_eq _ 1 u (hlen 1 (by decide))
      (hdat 1 (by decide)))⟩
  | 2, hstep =>
    right
    simp only [uiMainDispatch] at hstep
    obtain ⟨v, ho, -⟩ := narrowRet_ok hstep
    obtain ⟨u, hu⟩ := uiMain_SL2_store d hal _ _ _ _ _ ho
    exact ⟨by omega, _, _, hu.trans (storeReading_eq _ 2 u (hlen 2 (by decide))
      (hdat 2 (by decide)))⟩
  | 3, hstep =>
    right
    simp only [uiMainDispatch] at hstep
    obtain ⟨v, ho, -⟩ := narrowRet_ok hstep
    obtain ⟨u, hu⟩ := uiMain_SL3_store d hal _ _ _ _ _ ho
    exact ⟨by omega, _, _, hu.trans (storeReading_eq _ 3 u (hlen 3 (by decide))
      (hdat 3 (by decide)))⟩
  | 4, hstep =>
    right
    simp only [uiMainDispatch] at hstep
    obtain ⟨v, ho, -⟩ := narrowRet_ok hstep
    obtain ⟨u, hu⟩ := uiMain_SL4_store d hal _ _ _ _ _ ho
    exact ⟨by omega, _, _, hu.trans (storeReading_eq _ 4 u (hlen 4 (by decide))
      (hdat 4 (by decide)))⟩
  | n + 5, hstep =>
    left
    simp only [uiMainDispatch] at hstep
    obtain ⟨-, h2⟩ := Prod.mk.inj (Outcome.ok.inj hstep)
    obtain ⟨rfl, -⟩ := Prod.mk.inj h2
    exact ⟨by omega, rfl⟩

/-- What a fetch leaves behind in a store that satisfies the invariant. -/
theorem fetch_post (S : List ReportSlot) (h : StoreInv S) :
    StoreInv (ucMain_FetchData S).2.2 ∧
      (∀ j, ¬ flagged (slotAt (ucMain_FetchData S).2.2 j)) ∧
      (∀ j, j < NUMDATGEN → flagged (slotAt S j) →
        (slotAt (ucMain_FetchData S).2.2 j).m_ucLength = 0 ∧
          (slotAt (ucMain_FetchData S).2.2 j).m_ucaData = [0, 0]) ∧
      (∀ j, ¬ flagged (slotAt S j) → slotAt (ucMain_FetchData S).2.2 j = slotAt S j) := by
  obtain ⟨-, -, h3, h4⟩ := fetchData_spec S (storeInv_shape h) (storeInv_len_le h)
  have hin : ∀ j, j < NUMDATGEN → SlotInv (slotAt S j) := fun j hj =>
    h.2 _ (slotAt_mem S j (by rw [h.1]; exact hj))
  refine ⟨⟨h3.trans h.1, ?_⟩, ?_, ?_, ?_⟩
  · intro s hs
    obtain ⟨j, hj, rfl⟩ := (mem_iff_slotAt _ s).mp hs
    rw [h3, h.1] at hj
    rw [h4 j]
    by_cases hf : flagged (slotAt S j)
    · rw [if_pos ⟨hj, hf⟩]
      exact (slotInv_drained _ (hin j hj) hf).2
    · rw [if_neg (fun hc => hf hc.2)]
      exact hin j hj
  · intro j
    rw [h4 j]
    by_cases hc : j < NUMDATGEN ∧ flagged (slotAt S j)
    · rw [if_pos hc]
      exact drained_not_flagged _
    · rw [if_neg hc]
      intro hf
      by_cases hj : j < NUMDATGEN
      · exact hc ⟨hj, hf⟩
      · have : slotAt S j = ⟨[], 0, 0⟩ := by
          rw [slotAt, List.getD_eq_default _ _ (by rw [h.1]; omega)]
        rw [this] at hf
        exact absurd hf (by decide)
  · intro j hj hf
    rw [h4 j, if_pos ⟨hj, hf⟩, (slotInv_drained _ (hin j hj) hf).1]
    exact ⟨rfl, rfl⟩
  · intro j hf
    rw [h4 j, if_neg (fun hc => hf hc.2)]

/-- A fetch from a store with no flagged slot ships nothing and changes nothing. -/
theorem fetch_idle (S : List ReportSlot) (h : StoreInv S)
    (hnf : ∀ j, ¬ flagged (slotAt S j)) : ucMain_FetchData S = (0, [], S) := by
  obtain ⟨h1, h2, h3, h4⟩ := fetchData_spec S (storeInv_shape h) (storeInv_len_le h)
  have e1 : (ucMain_FetchData S).1 = 0 := by
    rw [h1]
    have : (List.range NUMDATGEN).map (fun i => recordCost (slotAt S i)) =
        (List.range NUMDATGEN).map (fun _ => 0) :=
      List.map_congr_left (fun i _ => by rw [recordCost, if_neg (hnf i)])
    rw [this]
    decide
  have e2 : (ucMain_FetchData S).2.1 = [] := by
    rw [h2, reportBody]
    have : (List.range NUMDATGEN).map (fun i => recordIf i (slotAt S i)) =
        (List.range NUMDATGEN).map (fun _ => []) :=
      List.map_congr_left (fun i _ => by rw [recordIf, if_neg (hnf i)])
    rw [this]
    decide
  have e3 : (ucMain_FetchData S).2.2 = S :=
    store_ext _ _ h3 (fun j _ => by rw [h4 j, if_neg (fun hc => hnf j hc.2)])
  exact Prod.ext e1 (Prod.ext e2 e3)

/-- Every reachable state has a store that satisfies the invariant. -/
theorem reachable_inv (d : DeviceHeader) (hal : Hal) (m : Machine) (h : Reachable d hal m) :
    StoreInv m.S_Report := by
  induction h with
  | clean m hshape => exact (clean_inv m hshape).1
  | dispatch m m' c len ret param convs convs' _ hstep ih =>
    rcases dispatch_store d hal c len ret param convs convs' m m' (storeInv_shape ih) hstep with
      ⟨-, he⟩ | ⟨-, b0, b1, he⟩
    · rw [he]; exact ih
    · rw [he]; exact storeInv_set ih c _ (slotInv_reading b0 b1 _)
  | fetch m _ ih => exact (fetch_post m.S_Report ih).1

/-! ## The report store: claims C9 and C10 -/

/-- C9. Fetch drains the store: in every reachable state, after
`ucMain_FetchData` no slot is flagged, every slot that was flagged has length
zero and both data bytes zero, every slot that was not flagged is unchanged,
and a second `ucMain_FetchData` right after returns 0, stores no byte and
leaves the store unchanged. -/
theorem fetch_drains_store (d : DeviceHeader) (hal : Hal) (m : Machine)
    (h : Reachable d hal m) :
    (∀ i, i < NUMDATGEN → ¬ flagged (slotAt (ucMain_FetchData m.S_Report).2.2 i)) ∧
      (∀ i, i < NUMDATGEN → flagged (slotAt m.S_Report i) →
        (slotAt (ucMain_FetchData m.S_Report).2.2 i).m_ucLength = 0 ∧
          (slotAt (ucMain_FetchData m.S_Report).2.2 i).m_ucaData = [0, 0]) ∧
      (∀ i, i < NUMDATGEN → ¬ flagged (slotAt m.S_Report i) →
        slotAt (ucMain_FetchData m.S_Report).2.2 i = slotAt m.S_Report i) ∧
      ucMain_FetchData (ucMain_FetchData m.S_Report).2.2 =
        (0, [], (ucMain_FetchData m.S_Report).2.2) := by
  have hinv := reachable_inv d hal m h
  obtain ⟨p1, p2, p3, p4⟩ := fetch_post m.S_Report hinv
  exact ⟨fun i _ => p2 i, p3, fun i _ => p4 i, fetch_idle _ p1 p2⟩

/-- A run from power-on: clean-up, dispatch of command 0, dispatch of
command 2 with sixteen conversion results; both dispatches return. -/
theorem afterTwoDispatches_reachable : Reachable msp430x23x Hal.idle afterTwoDispatches :=
  Reachable.dispatch (uiMain_Test (vMain_CleanDataStruct powerOn)).2 afterTwoDispatches
    2 0 1 [] (List.replicate 16 0x123) []
    (Reachable.dispatch (vMain_CleanDataStruct powerOn) _ 0 0 0 [] [] []
      (Reachable.clean powerOn (by unfold StoreShape; decide)) rfl) rfl

/-- C9, at the state reached from power-on by the clean-up, a dispatch of
command 0 and a dispatch of command 2. -/
theorem fetch_drains_store_witness :
    (∀ i, i < NUMDATGEN →
        ¬ flagged (slotAt (ucMain_FetchData afterTwoDispatches.S_Report).2.2 i)) ∧
      (∀ i, i < NUMDATGEN → flagged (slotAt afterTwoDispatches.S_Report i) →
        (slotAt (ucMain_FetchData afterTwoDispatches.S_Report).2.2 i).m_ucLength = 0 ∧
          (slotAt (ucMain_FetchData afterTwoDispatches.S_Report).2.2 i).m_ucaData = [0, 0]) ∧
      (∀ i, i < NUMDATGEN → ¬ flagged (slotAt afterTwoDispatches.S_Report i) →
        slotAt (ucMain_FetchData afterTwoDispatches.S_Report).2.2 i =
          slotAt afterTwoDispatches.S_Report i) ∧
      ucMain_FetchData (ucMain_FetchData afterTwoDispatches.S_Report).2.2 =
        (0, [], (ucMain_FetchData afterTwoDispatches.S_Report).2.2) :=
  fetch_drains_store msp430x23x Hal.idle afterTwoDispatches afterTwoDispatches_reachable

/-- C10. Report-slot consistency: in every state reachable from
`vMain_CleanDataStruct` by `uiMainDispatch` and `ucMain_FetchData` calls,
every slot 0..5 has `F_NEWDATA` set exactly when its length is nonzero, and
its length is at most `MAXDATALEN`, in fact 0 or 2. -/
theorem report_slot_invariant (d : DeviceHeader) (hal : Hal) (m : Machine)
    (h : Reachable d hal m) (i : Nat) (hi : i < NUMDATGEN) :
    (flagged (slotAt m.S_Report i) ↔ (slotAt m.S_Report i).m_ucLength ≠ 0) ∧
      (slotAt m.S_Report i).m_ucLength ≤ MAXDATALEN ∧
      ((slotAt m.S_Report i).m_ucLength = 0 ∨ (slotAt m.S_Report i).m_ucLength = 2) := by
  have hinv := reachable_inv d hal m h
  have hs := hinv.2 _ (slotAt_mem m.S_Report i (by rw [hinv.1]; exact hi))
  refine ⟨?_, slotInv_len_le hs, ?_⟩
  · rcases hs.2 with ⟨hf, hl⟩ | ⟨hf, hl, -⟩
    · exact ⟨fun _ => by omega, fun _ => hf⟩
    · exact ⟨fun hc => absurd hc hf, fun hc => absurd hl hc⟩
  · rcases hs.2 with ⟨-, hl⟩ | ⟨-, hl, -⟩
    · exact Or.inr hl
    · exact Or.inl hl

/-- C10, at slot 2 of the state reached from power-on by the clean-up, a
dispatch of command 0 and a dispatch of command 2. -/
theorem report_slot_invariant_witness :
    (flagged (slotAt afterTwoDispatches.S_Report 2) ↔
        (slotAt afterTwoDispatches.S_Report 2).m_ucLength ≠ 0) ∧
      (slotAt afterTwoDispatches.S_Report 2).m_ucLength ≤ MAXDATALEN ∧
      ((slotAt afterTwoDispatches.S_Report 2).m_ucLength = 0 ∨
        (slotAt afterTwoDispatches.S_Report 2).m_ucLength = 2) :=
  report_slot_invariant msp430x23x Hal.idle afterTwoDispatches afterTwoDispatches_reachable
    2 (by decide)

/-! ## The read routines, statement by statement -/

theorem readChannel_1_eq (d : DeviceHeader) (avgCount : Nat) (convs : List Nat) (m : Machine) :
    unLIGHT_ReadChannel_1 d avgCount convs m = readBySteps d 1 avgCount convs m := rfl

theorem readChannel_2_eq (d : DeviceHeader) (avgCount : Nat) (convs : List Nat) (m : Machine) :
    unLIGHT_ReadChannel_2 d avgCount convs m = readBySteps d 2 avgCount convs m := rfl

theorem readChannel_3_eq (d : DeviceHeader) (avgCount : Nat) (convs : List Nat) (m : Machine) :
    unLIGHT_ReadChannel_3 d avgCount convs m = readBySteps d 3 avgCount convs m := rfl

theorem readChannel_4_eq (d : DeviceHeader) (avgCount : Nat) (convs : List Nat) (m : Machine) :
    unLIGHT_ReadChannel_4 d avgCount convs m = readBySteps d 4 avgCount convs m := rfl

/-- For `k` in 1..4 the routine of channel `k` is the routine put together
from the statements of channel `k`. -/
theorem readChannel_eq (d : DeviceHeader) (k avgCount : Nat) (convs : List Nat) (m : Machine)
    (hk1 : 1 ≤ k) (hk4 : k ≤ 4) :
    unLIGHT_ReadChannel d k avgCount convs m = readBySteps d k avgCount convs m := by
  obtain rfl | rfl | rfl | rfl : k = 1 ∨ k = 2 ∨ k = 3 ∨ k = 4 := by omega
  · exact readChannel_1_eq d avgCount convs m
  · exact readChannel_2_eq d avgCount convs m
  · exact readChannel_3_eq d avgCount convs m
  · exact readChannel_4_eq d avgCount convs m

/-! ## The sample loop -/

theorem sampleIter_eq (d : DeviceHeader) (k r : Nat) (m : Machine) :
    runSteps (sampleSteps d k r) m = ADCConversion (convert k r (trigger d m)) := rfl

theorem sampleIter_counter (d : DeviceHeader) (k r : Nat) (m : Machine) :
    (runSteps (sampleSteps d k r) m).g_uiCounter = (m.g_uiCounter + 1) % 256 := by
  rw [sampleIter_eq]
  unfold ADCConversion convert trigger
  split <;> split <;> rfl

theorem sampleIter_request (d : DeviceHeader) (k r : Nat) (m : Machine) :
    (runSteps (sampleSteps d k r) m).g_unActiveChannelRequest = m.g_unActiveChannelRequest := by
  rw [sampleIter_eq]
  unfold ADCConversion convert trigger
  split <;> split <;> rfl

theorem sampleIter_ie (d : DeviceHeader) (k r : Nat) (m : Machine) :
    (runSteps (sampleSteps d k r) m).regs.ADC12IE = m.regs.ADC12IE := by
  rw [sampleIter_eq]
  unfold ADCConversion convert trigger
  split <;> split <;> rfl

/-- One pass of the loop adds the delivered result to the accumulator of the
active channel, modulo 2^16. -/
theorem sampleIter_acc (d : DeviceHeader) (k r : Nat) (m : Machine) (hk1 : 1 ≤ k) (hk4 : k ≤ 4)
    (hreq : m.g_unActiveChannelRequest = k) :
    accumulator k (runSteps (sampleSteps d k r) m) = (accumulator k m + r) % 65536 := by
  rw [sampleIter_eq]
  obtain rfl | rfl | rfl | rfl : k = 1 ∨ k = 2 ∨ k = 3 ∨ k = 4 := by omega
  all_goals
    simp only [ADCConversion, convert, trigger, hreq, accumulator]

theorem afterSamples_nil (d : DeviceHeader) (k : Nat) (m : Machine) :
    afterSamples d k [] m = m := rfl

theorem afterSamples_cons (d : DeviceHeader) (k r : Nat) (rs : List Nat) (m : Machine) :
    afterSamples d k (r :: rs) m = afterSamples d k rs (runSteps (sampleSteps d k r) m) := rfl

theorem afterSamples_request (d : DeviceHeader) (k : Nat) (rs : List Nat) :
    ∀ m : Machine, (afterSamples d k rs m).g_unActiveChannelRequest =
      m.g_unActiveChannelRequest := by
  induction rs with
  | nil => intro m; rfl
  | cons r rs ih => intro m; rw [afterSamples_cons, ih, sampleIter_request]

theorem afterSamples_ie (d : DeviceHeader) (k : Nat) (rs : List Nat) :
    ∀ m : Machine, (afterSamples d k rs m).regs.ADC12IE = m.regs.ADC12IE := by
  induction rs with
  | nil => intro m; rfl
  | cons r rs ih => intro m; rw [afterSamples_cons, ih, sampleIter_ie]

theorem afterSamples_counter (d : DeviceHeader) (k : Nat) (rs : List Nat) :
    ∀ m : Machine, m.g_uiCounter + rs.length ≤ 255 →
      (afterSamples d k rs m).g_uiCounter = m.g_uiCounter + rs.length := by
  induction rs with
  | nil => intro m _; rfl
  | cons r rs ih =>
    intro m h
    simp only [List.length_cons] at h
    have hc := sampleIter_counter d k r m
    rw [afterSamples_cons, ih _ (by rw [hc]; omega), hc, List.length_cons]
    omega

theorem afterSamples_acc (d : DeviceHeader) (k : Nat) (hk1 : 1 ≤ k) (hk4 : k ≤ 4)
    (rs : List Nat) :
    ∀ m : Machine, m.g_unActiveChannelRequest = k → accumulator k m < 65536 →
      accumulator k (afterSamples d k rs m) = (accumulator k m + rs.sum) % 65536 := by
  induction rs with
  | nil =>
    intro m _ hacc
    simp only [afterSamples_nil, List.sum_nil, Nat.add_zero]
    omega
  | cons r rs ih =>
    intro m hreq hacc
    have hstep := sampleIter_acc d k r m hk1 hk4 hreq
    rw [afterSamples_cons, ih _ (by rw [sampleIter_request]; exact hreq) (by rw [hstep]; omega),
      hstep, List.sum_cons]
    omega

/-- With the counter at most 255 steps below a count `avgCount ≤ 255`, the
loop makes exactly one pass per delivered result until the counter reaches
the count, and leaves the other results untouched. -/
theorem sampleLoop_run (d : DeviceHeader) (k avgCount : Nat) (hN : avgCount ≤ 255)
    (rs rest : List Nat) :
    ∀ m : Machine, m.g_uiCounter + rs.length = avgCount →
      sampleLoop d k avgCount (rs ++ rest) m = Outcome.ok (afterSamples d k rs m, rest) := by
  induction rs with
  | nil =>
    intro m h
    simp only [List.length_nil, Nat.add_zero] at h
    have hnot : ¬ m.g_uiCounter < avgCount := by omega
    cases rest with
    | nil => simp only [List.append_nil, sampleLoop, hnot, if_false, afterSamples_nil]
    | cons r rest => simp only [List.nil_append, sampleLoop, hnot, if_false, afterSamples_nil]
  | cons r rs ih =>
    intro m h
    simp only [List.length_cons] at h
    have hlt : m.g_uiCounter < avgCount := by omega
    have hc := sampleIter_counter d k r m
    rw [List.cons_append, sampleLoop, if_pos hlt, ← sampleIter_eq, afterSamples_cons]
    exact ih _ (by rw [hc]; omega)

/-- With a count of 256 or more the 8-bit counter never reaches the count:
however many results the converter delivers, the loop wants one more. -/
theorem sampleLoop_never_exits (d : DeviceHeader) (k avgCount : Nat) (hN : 256 ≤ avgCount)
    (convs : List Nat) :
    ∀ m : Machine, m.g_uiCounter < 256 → sampleLoop d k avgCount convs m = Outcome.hang := by
  induction convs with
  | nil =>
    intro m h
    rw [sampleLoop, if_pos (by omega)]
  | cons r rest ih =>
    intro m h
    rw [sampleLoop, if_pos (by omega), ← sampleIter_eq]
    exact ih _ (by rw [sampleIter_counter]; exact Nat.mod_lt _ (by norm_num))

/-- With a count of zero the loop body is not entered. -/
theorem sampleLoop_zero (d : DeviceHeader) (k : Nat) (convs : List Nat) (m : Machine) :
    sampleLoop d k 0 convs m = Outcome.ok (m, convs) := by
  cases convs with
  | nil => simp only [sampleLoop, Nat.not_lt_zero, if_false]
  | cons r rest => simp only [sampleLoop, Nat.not_lt_zero, if_false]

/-! ## The state at the entry of the sample loop and after the teardown -/

theorem setAccumulator_counter (k v : Nat) (m : Machine) :
    (setAccumulator k v m).g_uiCounter = m.g_uiCounter := by
  unfold setAccumulator; split <;> rfl

theorem setAccumulator_request (k v : Nat) (m : Machine) :
    (setAccumulator k v m).g_unActiveChannelRequest = m.g_unActiveChannelRequest := by
  unfold setAccumulator; split <;> rfl

theorem setAccumulator_regs (k v : Nat) (m : Machine) :
    (setAccumulator k v m).regs = m.regs := by
  unfold setAccumulator; split <;> rfl

theorem setAccumulator_store (k v : Nat) (m : Machine) :
    (setAccumulator k v m).S_Report = m.S_Report := by
  unfold setAccumulator; split <;> rfl

theorem accumulator_setAccumulator (k v : Nat) (m : Machine) :
    accumulator k (setAccumulator k v m) = v := by
  rcases k with _ | _ | _ | _ | k <;> rfl

/-- The accumulator of a channel is read from the four accumulator globals only. -/
theorem accumulator_congr (k : Nat) (m m' : Machine)
    (h1 : m'.g_unADChannelA1 = m.g_unADChannelA1) (h2 : m'.g_unADChannelA2 = m.g_unADChannelA2)
    (h3 : m'.g_unADChannelA3 = m.g_unADChannelA3) (h4 : m'.g_unADChannelA4 = m.g_unADChannelA4) :
    accumulator k m' = accumulator k m := by
  unfold accumulator; split <;> assumption

theorem arm_counter (d : DeviceHeader) (k : Nat) (m : Machine) :
    (runSteps (armSteps d k) m).g_uiCounter = 0 := by
  rcases k with _ | _ | _ | _ | k <;> rfl

theorem arm_request (d : DeviceHeader) (k : Nat) (m : Machine) :
    (runSteps (armSteps d k) m).g_unActiveChannelRequest = k := rfl

theorem arm_acc (d : DeviceHeader) (k : Nat) (m : Machine) :
    accumulator k (runSteps (armSteps d k) m) = 0 := by
  rcases k with _ | _ | _ | _ | k <;> rfl

theorem teardown_acc (d : DeviceHeader) (k avgCount : Nat) (m : Machine) :
    accumulator k (runSteps (teardownSteps d k avgCount) m) = accumulator k m / avgCount := by
  rcases k with _ | _ | _ | _ | k <;> rfl

/-- The read routine for a count in 1..255 with at least that many results
delivered: it returns, having consumed exactly `avgCount` results, and the
reading is the sum of those results modulo 2^16, divided by the count. -/
theorem readBySteps_run (d : DeviceHeader) (k avgCount : Nat) (rs rest : List Nat)
    (m : Machine) (hk1 : 1 ≤ k) (hk4 : k ≤ 4) (hN1 : 1 ≤ avgCount) (hN : avgCount ≤ 255)
    (hrs : rs.length = avgCount) :
    readBySteps d k avgCount (rs ++ rest) m =
      Outcome.ok (rs.sum % 65536 / avgCount,
        runSteps (teardownSteps d k avgCount)
          (afterSamples d k rs (runSteps (armSteps d k) m)), rest) := by
  have hrun := sampleLoop_run d k avgCount hN rs rest (runSteps (armSteps d k) m)
    (by rw [arm_counter]; omega)
  have hne : ¬ avgCount = 0 := by omega
  simp only [readBySteps, hrun, hne, if_false]
  rw [teardown_acc, afterSamples_acc d k hk1 hk4 rs _ (arm_request d k m)
    (by rw [arm_acc]; norm_num), arm_acc, Nat.zero_add]

/-! ## Readings are 16-bit values -/

theorem sampleIter_acc_lt (d : DeviceHeader) (k r j : Nat) (m : Machine)
    (h : accumulator j m < 65536) :
    accumulator j (runSteps (sampleSteps d k r) m) < 65536 := by
  rw [sampleIter_eq]
  have e1 : (convert k r (trigger d m)).g_unADChannelA1 = m.g_unADChannelA1 := by
    unfold convert trigger; split <;> rfl
  have e2 : (convert k r (trigger d m)).g_unADChannelA2 = m.g_unADChannelA2 := by
    unfold convert trigger; split <;> rfl
  have e3 : (convert k r (trigger d m)).g_unADChannelA3 = m.g_unADChannelA3 := by
    unfold convert trigger; split <;> rfl
  have e4 : (convert k r (trigger d m)).g_unADChannelA4 = m.g_unADChannelA4 := by
    unfold convert trigger; split <;> rfl
  generalize convert k r (trigger d m) = c at e1 e2 e3 e4
  rcases j with _ | _ | _ | _ | j <;>
    simp only [accumulator] at h ⊢ <;>
    unfold ADCConversion <;>
    split <;>
    simp only [e1, e2, e3, e4] <;>
    omega

theorem sampleLoop_acc_lt (d : DeviceHeader) (k avgCount j : Nat) :
    ∀ (convs : List Nat) (m m' : Machine) (convs' : List Nat),
      sampleLoop d k avgCount convs m = Outcome.ok (m', convs') →
      accumulator j m < 65536 → accumulator j m' < 65536 := by
  intro convs
  induction convs with
  | nil =>
    intro m m' convs' h hacc
    rw [sampleLoop] at h
    split at h
    · exact absurd h (by simp)
    · obtain ⟨rfl, -⟩ := Prod.mk.inj (Outcome.ok.inj h)
      exact hacc
  | cons r rest ih =>
    intro m m' convs' h hacc
    rw [sampleLoop] at h
    split at h
    · rw [← sampleIter_eq] at h
      exact ih _ _ _ h (sampleIter_acc_lt d k r j m hacc)
    · obtain ⟨rfl, -⟩ := Prod.mk.inj (Outcome.ok.inj h)
      exact hacc

/-- What a returning read routine has done: the loop exited, the count is
nonzero, and the reading is the accumulator of the channel divided by the
count, a value below 2^16. -/
theorem readBySteps_ok (d : DeviceHeader) (k avgCount : Nat) (convs convs' : List Nat)
    (m m' : Machine) (v : Nat)
    (h : readBySteps d k avgCount convs m = Outcome.ok (v, m', convs')) :
    ∃ m1, sampleLoop d k avgCount convs (runSteps (armSteps d k) m) = Outcome.ok (m1, convs') ∧
      avgCount ≠ 0 ∧ v = accumulator k m1 / avgCount ∧
      m' = runSteps (teardownSteps d k avgCount) m1 ∧ v < 65536 := by
  unfold readBySteps at h
  split at h
  · exact absurd h (by simp)
  · exact absurd h (by simp)
  · rename_i m1 c1 hloop
    split at h
    · exact absurd h (by simp)
    · rename_i hne
      obtain ⟨h1, h2⟩ := Prod.mk.inj (Outcome.ok.inj h)
      obtain ⟨h3, h4⟩ := Prod.mk.inj h2
      subst h4
      have hv : v = accumulator k m1 / avgCount := by rw [← h1, teardown_acc]
      have hlt := sampleLoop_acc_lt d k avgCount k _ _ _ _ hloop
        (by rw [arm_acc]; norm_num)
      refine ⟨m1, hloop, hne, hv, h3.symm, ?_⟩
      rw [hv]
      exact Nat.lt_of_le_of_lt (Nat.div_le_self _ _) hlt

theorem readChannel_store (d : DeviceHeader) (k avgCount : Nat) (convs convs' : List Nat)
    (m m' : Machine) (v : Nat)
    (h : unLIGHT_ReadChannel d k avgCount convs m = Outcome.ok (v, m', convs')) :
    m'.S_Report = m.S_Report := by
  unfold unLIGHT_ReadChannel at h
  split at h
  · exact readChannel_1_store d _ _ _ _ _ _ h
  · exact readChannel_2_store d _ _ _ _ _ _ h
  · exact readChannel_3_store d _ _ _ _ _ _ h
  · exact readChannel_4_store d _ _ _ _ _ _ h

theorem split_reading (v : Nat) (hv : v < 65536) :
    (v >>> 8) % 256 = v >>> 8 ∧ v % 256 = v &&& 0xFF ∧ 256 * (v >>> 8) + (v &&& 0xFF) = v := by
  have e1 : v >>> 8 = v / 256 := by rw [Nat.shiftRight_eq_div_pow]
  have e2 : v &&& 0xFF = v % 256 := Nat.and_pow_two_sub_one_eq_mod v 8
  rw [e1, e2]
  omega

/-! ## Dispatch: claims C11 to C14 -/

/-- A fetch from a store in which only slot `k` holds data, two bytes. -/
theorem fetch_single (S : List ReportSlot) (k b0 b1 f : Nat) (hS : StoreShape S)
    (hk : k < NUMDATGEN) (hf : f &&& F_NEWDATA ≠ 0)
    (hothers : ∀ j, j < NUMDATGEN → j ≠ k →
      ¬ flagged (slotAt S j) ∧ (slotAt S j).m_ucLength = 0) :
    (ucMain_FetchData (S.set k ⟨[b0, b1], 2, f⟩)).1 = 4 ∧
      (ucMain_FetchData (S.set k ⟨[b0, b1], 2, f⟩)).2.1 = [k, 2, b0, b1] := by
  have hkl : k < S.length := by rw [hS.1]; exact hk
  have hshape : StoreShape (S.set k ⟨[b0, b1], 2, f⟩) := by
    refine ⟨by rw [List.length_set]; exact hS.1, ?_⟩
    intro s hs
    rcases List.mem_or_eq_of_mem_set hs with h | h
    · exact hS.2 s h
    · rw [h]; rfl
  have hat : ∀ j, j < NUMDATGEN → slotAt (S.set k ⟨[b0, b1], 2, f⟩) j =
      if j = k then ⟨[b0, b1], 2, f⟩ else slotAt S j := by
    intro j _
    by_cases hjk : j = k
    · rw [if_pos hjk, hjk, slotAt_set_self _ _ _ hkl]
    · rw [if_neg hjk, slotAt_set_ne _ _ _ _ (fun h => hjk h.symm)]
  have hlen : ∀ s ∈ S.set k ⟨[b0, b1], 2, f⟩, s.m_ucLength ≤ MAXDATALEN := by
    intro s hs
    obtain ⟨j, hj, rfl⟩ := (mem_iff_slotAt _ s).mp hs
    rw [hshape.1] at hj
    rw [hat j hj]
    split
    · exact Nat.le_refl 2
    · rename_i hjk
      rw [(hothers j hj hjk).2]
      exact Nat.zero_le _
  have hcost : ∀ j, j < NUMDATGEN → recordCost (slotAt (S.set k ⟨[b0, b1], 2, f⟩) j) =
      if j = k then 4 else 0 := by
    intro j hj
    rw [hat j hj]
    have hfl : flagged ⟨[b0, b1], 2, f⟩ := hf
    split
    · rw [recordCost, if_pos hfl]
    · rename_i hjk
      rw [recordCost, if_neg (hothers j hj hjk).1]
  have hrec : ∀ j, j < NUMDATGEN → recordIf j (slotAt (S.set k ⟨[b0, b1], 2, f⟩) j) =
      if j = k then [k, 2, b0, b1] else [] := by
    intro j hj
    rw [hat j hj]
    have hfl : flagged ⟨[b0, b1], 2, f⟩ := hf
    split
    · rename_i hjk
      rw [recordIf, if_pos hfl, hjk]
      rfl
    · rename_i hjk
      rw [recordIf, if_neg (hothers j hj hjk).1]
  obtain ⟨h1, h2, -, -⟩ := fetchData_spec _ hshape hlen
  rw [h1, h2, reportBody, range_NUMDATGEN]
  simp only [List.map_cons, List.map_nil, List.sum_cons, List.sum_nil, List.flatten_cons,
    List.flatten_nil, hcost 0 (by decide), hcost 1 (by decide), hcost 2 (by decide),
    hcost 3 (by decide), hcost 4 (by decide), hcost 5 (by decide), hrec 0 (by decide),
    hrec 1 (by decide), hrec 2 (by decide), hrec 3 (by decide), hrec 4 (by decide),
    hrec 5 (by decide)]
  have hk' : k = 0 ∨ k = 1 ∨ k = 2 ∨ k = 3 ∨ k = 4 ∨ k = 5 := by
    unfold NUMDATGEN at hk; omega
  rcases hk' with rfl | rfl | rfl | rfl | rfl | rfl <;> simp

/-- A dispatch of channel `k` whose read routine returns. -/
theorem dispatch_channel_eq (d : DeviceHeader) (hal : Hal) (k len : Nat)
    (param convs convs' : List Nat) (m m1 : Machine) (v : Nat) (hk1 : 1 ≤ k) (hk4 : k ≤ 4)
    (hread : unLIGHT_ReadChannel d k m.g_uiAveCounter convs (vLight_Init d hal m) =
      Outcome.ok (v, m1, convs')) :
    ∃ ret, uiMainDispatch d hal k len param convs m =
      Outcome.ok (ret, vLight_Shutdown d hal
        { m1 with S_Report := storeReading m1.S_Report k v }, convs') := by
  obtain rfl | rfl | rfl | rfl : k = 1 ∨ k = 2 ∨ k = 3 ∨ k = 4 := by omega
  · have h' : unLIGHT_ReadChannel_1 d (vLight_Init d hal m).g_uiAveCounter convs
        (vLight_Init d hal m) = Outcome.ok (v, m1, convs') := hread
    exact ⟨0, by simp only [uiMainDispatch, uiMain_SL1, h', narrowRet]⟩
  · have h' : unLIGHT_ReadChannel_2 d (vLight_Init d hal m).g_uiAveCounter convs
        (vLight_Init d hal m) = Outcome.ok (v, m1, convs') := hread
    exact ⟨1, by simp only [uiMainDispatch, uiMain_SL2, h', narrowRet]⟩
  · have h' : unLIGHT_ReadChannel_3 d (vLight_Init d hal m).g_uiAveCounter convs
        (vLight_Init d hal m) = Outcome.ok (v, m1, convs') := hread
    exact ⟨1, by simp only [uiMainDispatch, uiMain_SL3, h', narrowRet]⟩
  · have h' : unLIGHT_ReadChannel_4 d (vLight_Init d hal m).g_uiAveCounter convs
        (vLight_Init d hal m) = Outcome.ok (v, m1, convs') := hread
    exact ⟨1, by simp only [uiMainDispatch, uiMain_SL4, h', narrowRet]⟩

/-- C11. Dispatch mapping for channels: for `k` in 1..4, `uiMainDispatch(k, ...)`
runs the read routine of channel `k` with the sample count `g_uiAveCounter`;
when that routine returns the average `v`, the dispatch returns, `v` is a
16-bit value, and slot `k` holds data `[v >> 8, v & 0xFF]`, length 2 and
`F_NEWDATA` set; `256 * data[0] + data[1]` is `v`; and if every other slot is
empty, a following `ucMain_FetchData` stores exactly `[k, 2, v >> 8, v & 0xFF]`
and returns 4. -/
theorem dispatch_channel_populates (d : DeviceHeader) (hal : Hal) (k len : Nat)
    (param convs convs' : List Nat) (m m1 : Machine) (v : Nat) (hk1 : 1 ≤ k) (hk4 : k ≤ 4)
    (hS : StoreShape m.S_Report)
    (hread : unLIGHT_ReadChannel d k m.g_uiAveCounter convs (vLight_Init d hal m) =
      Outcome.ok (v, m1, convs')) :
    ∃ ret m', uiMainDispatch d hal k len param convs m = Outcome.ok (ret, m', convs') ∧
      v < 65536 ∧
      slotAt m'.S_Report k =
        ⟨[v >>> 8, v &&& 0xFF], 2, bis8 (slotAt m.S_Report k).m_ucFlags F_NEWDATA⟩ ∧
      flagged (slotAt m'.S_Report k) ∧
      256 * (v >>> 8) + (v &&& 0xFF) = v ∧
      ((∀ j, j < NUMDATGEN → j ≠ k →
          ¬ flagged (slotAt m.S_Report j) ∧ (slotAt m.S_Report j).m_ucLength = 0) →
        (ucMain_FetchData m'.S_Report).1 = 4 ∧
          (ucMain_FetchData m'.S_Report).2.1 = [k, 2, v >>> 8, v &&& 0xFF]) := by
  obtain ⟨ret, hret⟩ := dispatch_channel_eq d hal k len param convs convs' m m1 v hk1 hk4 hread
  have hv : v < 65536 := by
    rw [readChannel_eq d k _ _ _ hk1 hk4] at hread
    obtain ⟨-, -, -, -, -, hlt⟩ := readBySteps_ok d k _ _ _ _ _ _ hread
    exact hlt
  obtain ⟨s1, s2, s3⟩ := split_reading v hv
  have hk6 : k < NUMDATGEN := by unfold NUMDATGEN; omega
  have hkl : k < m.S_Report.length := by rw [hS.1]; exact hk6
  have hst : (vLight_Shutdown d hal { m1 with S_Report := storeReading m1.S_Report k v }).S_Report =
      m.S_Report.set k
        ⟨[v >>> 8, v &&& 0xFF], 2, bis8 (slotAt m.S_Report k).m_ucFlags F_NEWDATA⟩ := by
    have e1 : m1.S_Report = m.S_Report :=
      (readChannel_store d k _ _ _ _ _ _ hread).trans (vLight_Init_store d hal m)
    rw [vLight_Shutdown_store]
    simp only [e1]
    rw [storeReading_eq _ k v hkl (hS.2 _ (slotAt_mem _ k hkl)), s1, s2]
  refine ⟨ret, _, hret, hv, ?_, ?_, s3, ?_⟩
  · rw [hst, slotAt_set_self _ _ _ hkl]
  · rw [hst, slotAt_set_self _ _ _ hkl]
    exact bis8_flagged _
  · intro hothers
    rw [hst]
    exact fetch_single m.S_Report k _ _ _ hS hk6 (bis8_flagged _) hothers

/-- C11, at channel 2 from the cleaned power-on state, with sixteen results
`0x123` delivered: the reading is `0x123`. -/
theorem dispatch_channel_populates_witness :
    ∃ ret m', uiMainDispatch msp430x23x Hal.idle 2 0 [] (List.replicate 16 0x123) cleanStart =
        Outcome.ok (ret, m', []) ∧
      0x123 < 65536 ∧
      slotAt m'.S_Report 2 =
        ⟨[0x123 >>> 8, 0x123 &&& 0xFF], 2,
          bis8 (slotAt cleanStart.S_Report 2).m_ucFlags F_NEWDATA⟩ ∧
      flagged (slotAt m'.S_Report 2) ∧
      256 * (0x123 >>> 8) + (0x123 &&& 0xFF) = 0x123 ∧
      ((∀ j, j < NUMDATGEN → j ≠ 2 →
          ¬ flagged (slotAt cleanStart.S_Report j) ∧
            (slotAt cleanStart.S_Report j).m_ucLength = 0) →
        (ucMain_FetchData m'.S_Report).1 = 4 ∧
          (ucMain_FetchData m'.S_Report).2.1 = [2, 2, 0x123 >>> 8, 0x123 &&& 0xFF]) :=
  dispatch_channel_populates msp430x23x Hal.idle 2 0 [] (List.replicate 16 0x123) []
    cleanStart afterRead2 0x123 (by decide) (by decide) (by unfold StoreShape; decide) rfl

/-- C12. Unknown command IDs are harmless: for every command ID above 4,
`uiMainDispatch` returns (with status 1), consumes no conversion result and
leaves the whole state, in particular every report slot, exactly as it was. -/
theorem dispatch_unknown_id (d : DeviceHeader) (hal : Hal) (c len : Nat)
    (param convs : List Nat) (m : Machine) (hc : 4 < c) :
    uiMainDispatch d hal c len param convs m = Outcome.ok (1, m, convs) := by
  match c, hc with
  | n + 5, _ => rfl

/-- C12, at command ID 99. -/
theorem dispatch_unknown_id_witness :
    uiMainDispatch msp430x23x Hal.idle 99 0 [] [7, 7] cleanStart =
      Outcome.ok (1, cleanStart, [7, 7]) :=
  dispatch_unknown_id msp430x23x Hal.idle 99 0 [] [7, 7] cleanStart (by decide)

/-- C13. Diagnostic handler: `uiMainDispatch(0, ...)` returns 0, consumes no
conversion result, changes nothing but the report store, and leaves slot 0
with data `[0xDE, 0xAD]`, length 2 and `F_NEWDATA` set; when the store was
freshly reset, a following `ucMain_FetchData` stores exactly
`[0, 2, 0xDE, 0xAD]` and returns 4. -/
theorem dispatch_diagnostic (d : DeviceHeader) (hal : Hal) (len : Nat)
    (param convs : List Nat) (m : Machine) (hS : StoreShape m.S_Report) :
    uiMainDispatch d hal 0 len param convs m =
        Outcome.ok (0, { m with S_Report := (m.S_Report.set 0
          ⟨[0xDE, 0xAD], 2, bis8 (slotAt m.S_Report 0).m_ucFlags F_NEWDATA⟩) }, convs) ∧
      flagged ⟨[0xDE, 0xAD], 2, bis8 (slotAt m.S_Report 0).m_ucFlags F_NEWDATA⟩ ∧
      ∃ m', uiMainDispatch d hal 0 len param convs (vMain_CleanDataStruct m) =
          Outcome.ok (0, m', convs) ∧
        (ucMain_FetchData m'.S_Report).1 = 4 ∧
        (ucMain_FetchData m'.S_Report).2.1 = [0, 2, 0xDE, 0xAD] := by
  have hgen : ∀ m : Machine, StoreShape m.S_Report →
      uiMainDispatch d hal 0 len param convs m =
        Outcome.ok (0, { m with S_Report := (m.S_Report.set 0
          ⟨[0xDE, 0xAD], 2, bis8 (slotAt m.S_Report 0).m_ucFlags F_NEWDATA⟩) }, convs) := by
    intro m hS
    have hl : 0 < m.S_Report.length := by rw [hS.1]; decide
    simp only [uiMainDispatch, uiMain_Test_eq m hl (hS.2 _ (slotAt_mem _ 0 hl)), narrowRet]
  obtain ⟨hinv, hrep⟩ := clean_inv m hS
  refine ⟨hgen m hS, bis8_flagged _, _, hgen _ (storeInv_shape hinv), ?_⟩
  simp only [hrep]
  exact ⟨by decide, by decide⟩

/-- C13, at the power-on state. -/
theorem dispatch_diagnostic_witness :
    uiMainDispatch msp430x23x Hal.idle 0 0 [] [] powerOn =
        Outcome.ok (0, { powerOn with S_Report := (powerOn.S_Report.set 0
          ⟨[0xDE, 0xAD], 2, bis8 (slotAt powerOn.S_Report 0).m_ucFlags F_NEWDATA⟩) }, []) ∧
      flagged ⟨[0xDE, 0xAD], 2, bis8 (slotAt powerOn.S_Report 0).m_ucFlags F_NEWDATA⟩ ∧
      ∃ m', uiMainDispatch msp430x23x Hal.idle 0 0 [] [] (vMain_CleanDataStruct powerOn) =
          Outcome.ok (0, m', []) ∧
        (ucMain_FetchData m'.S_Report).1 = 4 ∧
        (ucMain_FetchData m'.S_Report).2.1 = [0, 2, 0xDE, 0xAD] :=
  dispatch_diagnostic msp430x23x Hal.idle 0 [] [] powerOn (by unfold StoreShape; decide)

/-- C14. Dispatch frame: for every command ID `c` in 0..4, a returning
`uiMainDispatch(c, ...)` changes report slot `c` only; the store keeps its
size and every slot `j ≠ c` keeps its data bytes, length and flags. -/
theorem dispatch_frame (d : DeviceHeader) (hal : Hal) (c len ret : Nat)
    (param convs convs' : List Nat) (m m' : Machine) (hc : c ≤ 4)
    (hS : StoreShape m.S_Report)
    (hstep : uiMainDispatch d hal c len param convs m = Outcome.ok (ret, m', convs')) :
    m'.S_Report.length = m.S_Report.length ∧
      ∀ j, j ≠ c → slotAt m'.S_Report j = slotAt m.S_Report j := by
  rcases dispatch_store d hal c len ret param convs convs' m m' hS hstep with
    ⟨h4, -⟩ | ⟨-, b0, b1, he⟩
  · omega
  · rw [he]
    exact ⟨List.length_set _ _ _, fun j hj => slotAt_set_ne _ _ _ _ (fun h => hj h.symm)⟩

/-- C14, at the dispatch of command 2 that leads to `afterTwoDispatches`. -/
theorem dispatch_frame_witness :
    afterTwoDispatches.S_Report.length =
        (uiMain_Test (vMain_CleanDataStruct powerOn)).2.S_Report.length ∧
      ∀ j, j ≠ 2 → slotAt afterTwoDispatches.S_Report j =
        slotAt (uiMain_Test (vMain_CleanDataStruct powerOn)).2.S_Report j :=
  dispatch_frame msp430x23x Hal.idle 2 0 1 [] (List.replicate 16 0x123) []
    (uiMain_Test (vMain_CleanDataStruct powerOn)).2 afterTwoDispatches (by decide)
    (by unfold StoreShape; decide) rfl

/-! ## Acquisition: claims C15, C16 and C18 -/

theorem sum_le_of_le (rs : List Nat) (b : Nat) (h : ∀ r ∈ rs, r ≤ b) :
    rs.sum ≤ b * rs.length := by
  induction rs with
  | nil => simp
  | cons r rs ih =>
    have h1 := h r (List.mem_cons_self _ _)
    have h2 := ih (fun x hx => h x (List.mem_cons_of_mem _ hx))
    rw [List.sum_cons, List.length_cons, Nat.mul_succ]
    omega

/-- C15, as stated, fails: with a count of 17 and seventeen results 4095 the
16-bit accumulator wraps and channel 1 returns 239, while the floor of the
mean is 4095. -/
theorem averaging_wraps_at_17_samples :
    readingOf (unLIGHT_ReadChannel_1 msp430x23x 17 (List.replicate 17 4095) powerOn) =
        some 239 ∧
      (List.replicate 17 4095).sum / 17 = 4095 := by
  decide

/-- C15, amended. Acquisition averaging: for every channel `k` in 1..4,
every count `N` with `1 ≤ N ≤ 255` and every results `r_1..r_N` delivered
through the handler, the read routine returns, consumes exactly those `N`
results, and its reading is `((r_1 + ... + r_N) mod 2^16) / N`; this is the
floor of the mean whenever the sum is below 2^16, which holds for every
`N ≤ 16` with results of at most 4095. -/
theorem read_channel_average (d : DeviceHeader) (k N : Nat) (rs rest : List Nat) (m : Machine)
    (hk1 : 1 ≤ k) (hk4 : k ≤ 4) (hN1 : 1 ≤ N) (hN : N ≤ 255) (hrs : rs.length = N) :
    (∃ m', unLIGHT_ReadChannel d k N (rs ++ rest) m =
        Outcome.ok (rs.sum % 65536 / N, m', rest)) ∧
      (rs.sum < 65536 → rs.sum % 65536 / N = rs.sum / N) ∧
      (N ≤ 16 → (∀ r ∈ rs, r ≤ 4095) → rs.sum < 65536) := by
  refine ⟨⟨runSteps (teardownSteps d k N) (afterSamples d k rs (runSteps (armSteps d k) m)),
    ?_⟩, ?_, ?_⟩
  · rw [readChannel_eq d k _ _ _ hk1 hk4]
    exact readBySteps_run d k N rs rest m hk1 hk4 hN1 hN hrs
  · intro h
    rw [Nat.mod_eq_of_lt h]
  · intro h16 hr
    have := sum_le_of_le rs 4095 hr
    rw [hrs] at this
    have : 4095 * N ≤ 4095 * 16 := Nat.mul_le_mul_left _ h16
    omega

/-- C15 amended, at channel 3 with a count of 4 and results 10, 20, 30, 41. -/
theorem read_channel_average_witness :
    (∃ m', unLIGHT_ReadChannel msp430x23x 3 4 ([10, 20, 30, 41] ++ [99]) powerOn =
        Outcome.ok ([10, 20, 30, 41].sum % 65536 / 4, m', [99])) ∧
      ([10, 20, 30, 41].sum < 65536 → [10, 20, 30, 41].sum % 65536 / 4 =
        [10, 20, 30, 41].sum / 4) ∧
      (4 ≤ 16 → (∀ r ∈ [10, 20, 30, 41], r ≤ 4095) → [10, 20, 30, 41].sum < 65536) :=
  read_channel_average msp430x23x 3 4 [10, 20, 30, 41] [99] powerOn (by decide) (by decide)
    (by decide) (by decide) rfl

/-- C16, at the failing input. With a requested count of 256 the 8-bit
counter `g_uiCounter` wraps from 255 to 0 and never reaches the count: for
every channel, every entry state and every number of results the converter
delivers, the routine is still waiting for another conversion. -/
theorem read_count_256_never_returns (d : DeviceHeader) (convs : List Nat) (m : Machine) :
    unLIGHT_ReadChannel_1 d 256 convs m = Outcome.hang ∧
      unLIGHT_ReadChannel_2 d 256 convs m = Outcome.hang ∧
      unLIGHT_ReadChannel_3 d 256 convs m = Outcome.hang ∧
      unLIGHT_ReadChannel_4 d 256 convs m = Outcome.hang := by
  have h : ∀ k, readBySteps d k 256 convs m = Outcome.hang := by
    intro k
    have := sampleLoop_never_exits d k 256 (Nat.le_refl _) convs (runSteps (armSteps d k) m)
      (by rw [arm_counter]; norm_num)
    simp only [readBySteps, this]
  exact ⟨(readChannel_1_eq d _ _ _).trans (h 1), (readChannel_2_eq d _ _ _).trans (h 2),
    (readChannel_3_eq d _ _ _).trans (h 3), (readChannel_4_eq d _ _ _).trans (h 4)⟩

/-- The part of C16 that holds: for a count `N ≤ 255` and `N` results
delivered, the loop exits after exactly `N` passes with the counter at `N`. -/
theorem sampleLoop_exact (d : DeviceHeader) (k N : Nat) (rs rest : List Nat) (m : Machine)
    (hN : N ≤ 255) (hrs : rs.length = N) :
    sampleLoop d k N (rs ++ rest) (runSteps (armSteps d k) m) =
        Outcome.ok (afterSamples d k rs (runSteps (armSteps d k) m), rest) ∧
      (afterSamples d k rs (runSteps (armSteps d k) m)).g_uiCounter = N := by
  refine ⟨sampleLoop_run d k N hN rs rest _ (by rw [arm_counter]; omega), ?_⟩
  rw [afterSamples_counter d k rs _ (by rw [arm_counter]; omega), arm_counter]
  omega

/-- C18. Zero sample count: for every channel `k` in 1..4 and a count of 0,
the sample loop is left at once, in the state it was entered in, with no
statement of its body run, no conversion result consumed and the accumulator
of the channel at 0; the routine then divides by zero. -/
theorem zero_sample_count (d : DeviceHeader) (k : Nat) (convs : List Nat) (m : Machine)
    (hk1 : 1 ≤ k) (hk4 : k ≤ 4) :
    sampleLoop d k 0 convs (runSteps (armSteps d k) m) =
        Outcome.ok (runSteps (armSteps d k) m, convs) ∧
      sampleTrace d k 0 convs (runSteps (armSteps d k) m) = [] ∧
      accumulator k (runSteps (armSteps d k) m) = 0 ∧
      unLIGHT_ReadChannel d k 0 convs m = Outcome.divZero := by
  refine ⟨sampleLoop_zero d k convs _, ?_, arm_acc d k m, ?_⟩
  · cases convs with
    | nil => rfl
    | cons r rest => simp only [sampleTrace, Nat.not_lt_zero, if_false]
  · rw [readChannel_eq d k _ _ _ hk1 hk4]
    simp only [readBySteps, sampleLoop_zero, if_true]

/-- C18, at channel 4 from the power-on state. -/
theorem zero_sample_count_witness :
    sampleLoop msp430x23x 4 0 [5, 6] (runSteps (armSteps msp430x23x 4) powerOn) =
        Outcome.ok (runSteps (armSteps msp430x23x 4) powerOn, [5, 6]) ∧
      sampleTrace msp430x23x 4 0 [5, 6] (runSteps (armSteps msp430x23x 4) powerOn) = [] ∧
      accumulator 4 (runSteps (armSteps msp430x23x 4) powerOn) = 0 ∧
      unLIGHT_ReadChannel msp430x23x 4 0 [5, 6] powerOn = Outcome.divZero :=
  zero_sample_count msp430x23x 4 [5, 6] powerOn (by decide) (by decide)

/-! ## Store reset: claim C20 -/

/-- C20. Store reset: from every store of the right shape,
`vMain_CleanDataStruct` leaves all six slots with both data bytes, the length
and the flags zero, and a `ucMain_FetchData` right after it returns 0, stores
nothing and leaves the store as it is. -/
theorem store_reset (m : Machine) (hS : StoreShape m.S_Report) :
    (vMain_CleanDataStruct m).S_Report = List.replicate NUMDATGEN ⟨[0, 0], 0, 0⟩ ∧
      (∀ i, i < NUMDATGEN → slotAt (vMain_CleanDataStruct m).S_Report i = ⟨[0, 0], 0, 0⟩) ∧
      ucMain_FetchData (vMain_CleanDataStruct m).S_Report =
        (0, [], (vMain_CleanDataStruct m).S_Report) := by
  obtain ⟨-, hrep⟩ := clean_inv m hS
  rw [hrep]
  refine ⟨rfl, ?_, by decide⟩
  intro i hi
  have : i = 0 ∨ i = 1 ∨ i = 2 ∨ i = 3 ∨ i = 4 ∨ i = 5 := by unfold NUMDATGEN at hi; omega
  rcases this with rfl | rfl | rfl | rfl | rfl | rfl <;> rfl

/-- C20, at the power-on state, whose store holds arbitrary contents. -/
theorem store_reset_witness :
    (vMain_CleanDataStruct powerOn).S_Report = List.replicate NUMDATGEN ⟨[0, 0], 0, 0⟩ ∧
      (∀ i, i < NUMDATGEN →
        slotAt (vMain_CleanDataStruct powerOn).S_Report i = ⟨[0, 0], 0, 0⟩) ∧
      ucMain_FetchData (vMain_CleanDataStruct powerOn).S_Report =
        (0, [], (vMain_CleanDataStruct powerOn).S_Report) :=
  store_reset powerOn (by unfold StoreShape; decide)

/-! ## Labels: claim C19 -/

/-- C19. Label fetch: with `TRANSDUCER_LABEL_LEN = 16`, for every transducer
ID `vMain_FetchLabel` stores exactly 16 bytes, the characters of the label of
that transducer: the constants `TRANSDUCER_0_LABEL_TXT` to
`TRANSDUCER_4_LABEL_TXT` for IDs 0 to 4, each 16 characters long and the
first being "Test Function   ", and "CANNOT COMPUTE!!" for every other ID
(every ID of the form `t + 5`). -/
theorem fetch_label (t : Nat) :
    vMain_FetchLabel 16 t = (labelFor t).data.map Char.toNat ∧
      (vMain_FetchLabel 16 t).length = 16 ∧
      (labelFor t).length = 16 ∧
      vMain_FetchLabel 16 0 = "Test Function   ".data.map Char.toNat ∧
      vMain_FetchLabel 16 (t + 5) = "CANNOT COMPUTE!!".data.map Char.toNat := by
  have h0 : vMain_FetchLabel 16 0 = "Test Function   ".data.map Char.toNat := by decide
  have h5 : ∀ n, vMain_FetchLabel 16 (n + 5) = "CANNOT COMPUTE!!".data.map Char.toNat := by
    intro n
    show labelLoop 16 "CANNOT COMPUTE!!" 256 0 [] = _
    decide
  match t with
  | 0 => exact ⟨by decide, by decide, by decide, h0, h5 _⟩
  | 1 => exact ⟨by decide, by decide, by decide, h0, h5 _⟩
  | 2 => exact ⟨by decide, by decide, by decide, h0, h5 _⟩
  | 3 => exact ⟨by decide, by decide, by decide, h0, h5 _⟩
  | 4 => exact ⟨by decide, by decide, by decide, h0, h5 _⟩
  | n + 5 =>
    have e1 := h5 n
    have e2 : labelFor (n + 5) = "CANNOT COMPUTE!!" := by
      simp [labelFor]
    rw [e1, e2]
    exact ⟨rfl, by decide, by decide, h0, h5 _⟩

/-! ## Mutual exclusion of the converter: claim C17 -/

theorem testBit_bis16 (x b j : Nat) (hj : j < 16) :
    (bis16 x b).testBit j = (x.testBit j || b.testBit j) := by
  have e : (65536 : Nat) = 2 ^ 16 := by norm_num
  rw [bis16, e, Nat.testBit_mod_two_pow, Nat.testBit_or]
  simp [hj]

theorem testBit_bic16 (x b j : Nat) (hj : j < 16) :
    (bic16 x b).testBit j = (x.testBit j && !b.testBit j) := by
  have e : (65536 : Nat) = 2 ^ 16 := by norm_num
  have e' : (0xFFFF : Nat) = 2 ^ 16 - 1 := by norm_num
  rw [bic16, e, Nat.testBit_mod_two_pow, Nat.testBit_and, Nat.testBit_xor, e',
    Nat.testBit_two_pow_sub_one]
  simp [hj]

theorem ieBit_std (d : DeviceHeader) (hd : StdBits d) (k : Nat) (hk1 : 1 ≤ k) (hk4 : k ≤ 4) :
    ieBit d k = 2 ^ (k - 1) := by
  obtain ⟨h0, h1, h2, h3⟩ := hd
  obtain rfl | rfl | rfl | rfl : k = 1 ∨ k = 2 ∨ k = 3 ∨ k = 4 := by omega
  · exact h0
  · exact h1
  · exact h2
  · exact h3

/-- The armed channels, read off the four low bits. -/
theorem armedOf_of_bits (ie : Nat) (b0 b1 b2 b3 : Bool) (h0 : ie.testBit 0 = b0)
    (h1 : ie.testBit 1 = b1) (h2 : ie.testBit 2 = b2) (h3 : ie.testBit 3 = b3) :
    armedOf ie = [1, 2, 3, 4].filter
      (fun k => k = 1 && b0 || k = 2 && b1 || k = 3 && b2 || k = 4 && b3) := by
  subst h0 h1 h2 h3
  unfold armedOf
  apply List.filter_congr
  intro k hk
  simp only [List.mem_cons, List.mem_singleton, List.mem_nil_iff, or_false] at hk
  rcases hk with rfl | rfl | rfl | rfl <;> simp

theorem armedOf_nil_iff (ie : Nat) :
    armedOf ie = [] ↔ ie.testBit 0 = false ∧ ie.testBit 1 = false ∧ ie.testBit 2 = false ∧
      ie.testBit 3 = false := by
  rw [armedOf_of_bits ie _ _ _ _ rfl rfl rfl rfl]
  cases ie.testBit 0 <;> cases ie.testBit 1 <;> cases ie.testBit 2 <;>
    cases ie.testBit 3 <;> decide

theorem testBit_arm (ie k j : Nat) (hj : j < 16) (h : ie.testBit j = false) :
    (bis16 ie (2 ^ (k - 1))).testBit j = decide (k - 1 = j) := by
  rw [testBit_bis16 _ _ _ hj, h, Nat.testBit_two_pow, Bool.false_or]

theorem testBit_disarm (ie k j : Nat) (hj : j < 16) (h : ie.testBit j = false) :
    (bic16 (bis16 ie (2 ^ (k - 1))) (2 ^ (k - 1))).testBit j = false := by
  rw [testBit_bic16 _ _ _ hj, testBit_arm ie k j hj h, Nat.testBit_two_pow]
  cases decide (k - 1 = j) <;> rfl

/-- Arming channel `k` from a value with bits 0..3 clear arms exactly `k`. -/
theorem armedOf_bis (ie k : Nat) (hk1 : 1 ≤ k) (hk4 : k ≤ 4) (h : armedOf ie = []) :
    armedOf (bis16 ie (2 ^ (k - 1))) = [k] := by
  obtain ⟨h0, h1, h2, h3⟩ := (armedOf_nil_iff ie).mp h
  rw [armedOf_of_bits _ _ _ _ _ (testBit_arm ie k 0 (by norm_num) h0)
    (testBit_arm ie k 1 (by norm_num) h1) (testBit_arm ie k 2 (by norm_num) h2)
    (testBit_arm ie k 3 (by norm_num) h3)]
  obtain rfl | rfl | rfl | rfl : k = 1 ∨ k = 2 ∨ k = 3 ∨ k = 4 := by omega
  all_goals decide

/-- Disarming channel `k` after arming it leaves bits 0..3 clear again. -/
theorem armedOf_bic_bis (ie k : Nat) (h : armedOf ie = []) :
    armedOf (bic16 (bis16 ie (2 ^ (k - 1))) (2 ^ (k - 1))) = [] := by
  obtain ⟨h0, h1, h2, h3⟩ := (armedOf_nil_iff ie).mp h
  exact (armedOf_nil_iff _).mpr ⟨testBit_disarm ie k 0 (by norm_num) h0,
    testBit_disarm ie k 1 (by norm_num) h1, testBit_disarm ie k 2 (by norm_num) h2,
    testBit_disarm ie k 3 (by norm_num) h3⟩

theorem traceSteps_getLast (steps : List (Machine → Machine)) (hne : steps ≠ []) :
    ∀ m : Machine, (traceSteps steps m).getLast? = some (runSteps steps m) := by
  induction steps with
  | nil => exact absurd rfl hne
  | cons f rest ih =>
    intro m
    cases rest with
    | nil => rfl
    | cons g rest' =>
      have h := ih (List.cons_ne_nil _ _) (f m)
      rw [traceSteps, List.getLast?_cons, h]
      rfl

theorem convert_ie (k r : Nat) (m : Machine) :
    (convert k r m).regs.ADC12IE = m.regs.ADC12IE := by
  unfold convert; split <;> rfl

theorem ADCConversion_regs (m : Machine) : (ADCConversion m).regs = m.regs := by
  unfold ADCConversion; split <;> rfl

/-- Before the sample loop the interrupt-enable register either still has its
entry value or has just had the bit of channel `k` set. -/
theorem arm_trace_ie (d : DeviceHeader) (k : Nat) (m s : Machine)
    (hs : s ∈ traceSteps (armSteps d k) m) :
    s.regs.ADC12IE = m.regs.ADC12IE ∨
      s.regs.ADC12IE = bis16 m.regs.ADC12IE (ieBit d k) := by
  rcases k with _ | _ | _ | _ | k <;>
    simp only [traceSteps, armSteps, List.mem_cons, List.mem_nil_iff, or_false] at hs <;>
    rcases hs with rfl | rfl | rfl | rfl | rfl | rfl | rfl | rfl | rfl | rfl | rfl | rfl |
      rfl | rfl | rfl <;>
    first
    | exact Or.inl rfl
    | exact Or.inr rfl

theorem arm_ie (d : DeviceHeader) (k : Nat) (m : Machine) :
    (runSteps (armSteps d k) m).regs.ADC12IE = bis16 m.regs.ADC12IE (ieBit d k) := by
  rcases k with _ | _ | _ | _ | k <;> rfl

/-- The sample loop, its handler included, leaves the interrupt-enable
register alone. -/
theorem sampleTrace_ie (d : DeviceHeader) (k avgCount : Nat) :
    ∀ (convs : List Nat) (a s : Machine), s ∈ sampleTrace d k avgCount convs a →
      s.regs.ADC12IE = a.regs.ADC12IE := by
  intro convs
  induction convs with
  | nil => intro a s hs; simp [sampleTrace] at hs
  | cons r rest ih =>
    intro a s hs
    rw [sampleTrace] at hs
    split at hs
    · rcases List.mem_append.mp hs with h | h
      · simp only [traceSteps, sampleSteps, List.mem_cons, List.mem_nil_iff, or_false] at h
        rcases h with rfl | rfl | rfl | rfl
        · rfl
        · rfl
        · rw [convert_ie]
        · rw [ADCConversion_regs, convert_ie]
      · rw [ih _ _ h, sampleIter_ie]
    · simp at hs

theorem sampleLoop_ie (d : DeviceHeader) (k avgCount : Nat) :
    ∀ (convs : List Nat) (m m' : Machine) (convs' : List Nat),
      sampleLoop d k avgCount convs m = Outcome.ok (m', convs') →
      m'.regs.ADC12IE = m.regs.ADC12IE := by
  intro convs
  induction convs with
  | nil =>
    intro m m' convs' h
    rw [sampleLoop] at h
    split at h
    · exact absurd h (by simp)
    · obtain ⟨rfl, -⟩ := Prod.mk.inj (Outcome.ok.inj h)
      rfl
  | cons r rest ih =>
    intro m m' convs' h
    rw [sampleLoop] at h
    split at h
    · rw [← sampleIter_eq] at h
      rw [ih _ _ _ h, sampleIter_ie]
    · obtain ⟨rfl, -⟩ := Prod.mk.inj (Outcome.ok.inj h)
      rfl

/-- The loop's own trace ends in the state the loop exits in. -/
theorem sampleTrace_getLast (d : DeviceHeader) (k avgCount : Nat) :
    ∀ (convs : List Nat) (a m1 : Machine) (convs' : List Nat),
      sampleLoop d k avgCount convs a = Outcome.ok (m1, convs') →
      (a :: sampleTrace d k avgCount convs a).getLast? = some m1 := by
  intro convs
  induction convs with
  | nil =>
    intro a m1 convs' h
    rw [sampleLoop] at h
    split at h
    · exact absurd h (by simp)
    · obtain ⟨rfl, -⟩ := Prod.mk.inj (Outcome.ok.inj h)
      rfl
  | cons r rest ih =>
    intro a m1 convs' h
    rw [sampleLoop] at h
    rw [sampleTrace]
    split at h
    · rename_i hlt
      rw [← sampleIter_eq] at h
      have hrec := ih _ _ _ h
      rw [if_pos hlt]
      have hl := traceSteps_getLast (sampleSteps d k r) (List.cons_ne_nil _ _) a
      rw [List.getLast?_cons] at hrec ⊢
      rw [List.getLast?_append, hl]
      cases hS : (sampleTrace d k avgCount rest (runSteps (sampleSteps d k r) a)).getLast? with
      | none =>
        rw [hS] at hrec
        exact hrec
      | some y =>
        rw [hS] at hrec
        exact hrec
    · rename_i hge
      rw [if_neg hge]
      obtain ⟨rfl, -⟩ := Prod.mk.inj (Outcome.ok.inj h)
      rfl

/-- From the first teardown statement on, the bit of channel `k` is cleared. -/
theorem teardown_trace_ie (d : DeviceHeader) (k avgCount n : Nat) (m1 s : Machine)
    (hs : s ∈ traceSteps ((teardownSteps d k avgCount).take n) m1) :
    s.regs.ADC12IE = bic16 m1.regs.ADC12IE (ieBit d k) := by
  have hall : ∀ t, t ∈ traceSteps (teardownSteps d k avgCount) m1 →
      t.regs.ADC12IE = bic16 m1.regs.ADC12IE (ieBit d k) := by
    intro t ht
    rcases k with _ | _ | _ | _ | k <;>
      simp only [traceSteps, teardownSteps, List.mem_cons, List.mem_nil_iff, or_false] at ht <;>
      rcases ht with rfl | rfl | rfl | rfl | rfl <;> rfl
  have hsub : ∀ (steps : List (Machine → Machine)) (n : Nat) (m : Machine) (t : Machine),
      t ∈ traceSteps (steps.take n) m → t ∈ traceSteps steps m := by
    intro steps
    induction steps with
    | nil => intro n m t ht; simpa using ht
    | cons f rest ih =>
      intro n m t ht
      cases n with
      | zero => simp [traceSteps] at ht
      | succ n =>
        simp only [List.take_succ_cons, traceSteps, List.mem_cons] at ht ⊢
        rcases ht with h | h
        · exact Or.inl h
        · exact Or.inr (ih n _ t h)
  exact hall s (hsub _ n m1 s hs)

/-- One read call entered with no channel armed: in every state it passes
through either no channel or exactly channel `k` is armed, and if it returns,
it returns in the last state of its trace with no channel armed. -/
theorem read_call_armed (d : DeviceHeader) (hd : StdBits d) (k avgCount : Nat)
    (convs : List Nat) (m : Machine) (hk1 : 1 ≤ k) (hk4 : k ≤ 4)
    (hm : armedChannels m = []) :
    (∀ s ∈ readTrace d k avgCount convs m, armedChannels s = [] ∨ armedChannels s = [k]) ∧
      ∀ v m' convs', unLIGHT_ReadChannel d k avgCount convs m = Outcome.ok (v, m', convs') →
        armedChannels m' = [] ∧ (readTrace d k avgCount convs m).getLast? = some m' := by
  have hbit := ieBit_std d hd k hk1 hk4
  have harm : armedOf (bis16 m.regs.ADC12IE (ieBit d k)) = [k] := by
    rw [hbit]; exact armedOf_bis _ k hk1 hk4 hm
  have hdis : armedOf (bic16 (bis16 m.regs.ADC12IE (ieBit d k)) (ieBit d k)) = [] := by
    rw [hbit]; exact armedOf_bic_bis _ k hm
  constructor
  · intro s hs
    unfold readTrace at hs
    rcases List.mem_append.mp hs with h | h
    · rcases List.mem_append.mp h with h | h
      · rcases arm_trace_ie d k m s h with e | e
        · left; unfold armedChannels; rw [e]; exact hm
        · right; unfold armedChannels; rw [e]; exact harm
      · right
        unfold armedChannels
        rw [sampleTrace_ie d k avgCount convs _ s h, arm_ie]
        exact harm
    · left
      unfold armedChannels
      cases hloop : sampleLoop d k avgCount convs (runSteps (armSteps d k) m) with
      | hang => rw [hloop] at h; simp at h
      | divZero => rw [hloop] at h; simp at h
      | ok x =>
        obtain ⟨m1, c1⟩ := x
        rw [hloop] at h
        have hie : m1.regs.ADC12IE = bis16 m.regs.ADC12IE (ieBit d k) := by
          rw [sampleLoop_ie d k avgCount _ _ _ _ hloop, arm_ie]
        simp only at h
        split at h
        · rw [teardown_trace_ie d k avgCount 4 m1 s h, hie]
          exact hdis
        · have h' : s ∈ traceSteps ((teardownSteps d k avgCount).take 5) m1 := h
          rw [teardown_trace_ie d k avgCount 5 m1 s h', hie]
          exact hdis
  · intro v m' convs' hret
    rw [readChannel_eq d k _ _ _ hk1 hk4] at hret
    obtain ⟨m1, hloop, hne, -, hm', -⟩ := readBySteps_ok d k _ _ _ _ _ _ hret
    have hie : m1.regs.ADC12IE = bis16 m.regs.ADC12IE (ieBit d k) := by
      rw [sampleLoop_ie d k avgCount _ _ _ _ hloop, arm_ie]
    have hlast := traceSteps_getLast (teardownSteps d k avgCount) (List.cons_ne_nil _ _) m1
    have hmem : m' ∈ traceSteps ((teardownSteps d k avgCount).take 5) m1 := by
      have : m' ∈ traceSteps (teardownSteps d k avgCount) m1 := by
        rw [hm']
        exact List.mem_of_getLast?_eq_some hlast
      exact this
    constructor
    · unfold armedChannels
      rw [teardown_trace_ie d k avgCount 5 m1 m' hmem, hie]
      exact hdis
    · unfold readTrace
      rw [hloop]
      simp only [if_neg hne]
      rw [List.getLast?_append, hlast, hm']
      rfl

/-- C17. Mutual exclusion of the converter: with `BIT0 .. BIT3` as the device
header defines them, start in a state with bits 0..3 of `ADC12IE` clear and
run any sequence of read calls for channels 1..4, each with its own count
and delivered results, each starting where the one before returned.  In every
state passed through, statement by statement and handler runs included, at
most one of the four channel interrupt bits is set; in every state between
calls none is set. -/
theorem converter_mutual_exclusion (d : DeviceHeader) (hd : StdBits d)
    (calls : List (Nat × Nat × List Nat)) (hcalls : ∀ c ∈ calls, 1 ≤ c.1 ∧ c.1 ≤ 4)
    (m : Machine) (hm : armedChannels m = []) :
    (∀ s ∈ callsTrace d calls m, (armedChannels s).length ≤ 1) ∧
      ∀ b ∈ callsBoundaries d calls m, armedChannels b = [] := by
  induction calls generalizing m with
  | nil =>
    constructor
    · intro s hs; simp [callsTrace] at hs
    · intro b hb
      simp only [callsBoundaries, List.mem_singleton] at hb
      rw [hb]; exact hm
  | cons c rest ih =>
    obtain ⟨k, avgCount, convs⟩ := c
    obtain ⟨hk1, hk4⟩ := hcalls (k, avgCount, convs) (List.mem_cons_self _ _)
    have hrest : ∀ c ∈ rest, 1 ≤ c.1 ∧ c.1 ≤ 4 := fun c hc =>
      hcalls c (List.mem_cons_of_mem _ hc)
    obtain ⟨htrace, hret⟩ := read_call_armed d hd k avgCount convs m hk1 hk4 hm
    constructor
    · intro s hs
      rw [callsTrace] at hs
      rcases List.mem_append.mp hs with h | h
      · rcases htrace s h with e | e <;> rw [e] <;> simp
      · cases hrc : unLIGHT_ReadChannel d k avgCount convs m with
        | hang => rw [hrc] at h; simp at h
        | divZero => rw [hrc] at h; simp at h
        | ok x =>
          obtain ⟨v, m', c'⟩ := x
          rw [hrc] at h
          exact (ih hrest m' (hret v m' c' hrc).1).1 s h
    · intro b hb
      rw [callsBoundaries] at hb
      rcases List.mem_cons.mp hb with h | h
      · rw [h]; exact hm
      · cases hrc : unLIGHT_ReadChannel d k avgCount convs m with
        | hang => rw [hrc] at h; simp at h
        | divZero => rw [hrc] at h; simp at h
        | ok x =>
          obtain ⟨v, m', c'⟩ := x
          rw [hrc] at h
          exact (ih hrest m' (hret v m' c' hrc).1).2 b h

/-- C17, at the power-on state with a read of channel 1 followed by a read
of channel 3, two samples each. -/
theorem converter_mutual_exclusion_witness :
    (∀ s ∈ callsTrace msp430x23x [(1, 2, [5, 6]), (3, 2, [7, 8])] powerOn,
        (armedChannels s).length ≤ 1) ∧
      ∀ b ∈ callsBoundaries msp430x23x [(1, 2, [5, 6]), (3, 2, [7, 8])] powerOn,
        armedChannels b = [] :=
  converter_mutual_exclusion msp430x23x ⟨rfl, rfl, rfl, rfl⟩
    [(1, 2, [5, 6]), (3, 2, [7, 8])] (by decide) powerOn (by decide)

/-! ## Board metadata: claim C21 -/

/-- C21. Board metadata: `ucMain_getNumTransducers` returns 4; for every ID
`t`, `ucMain_getTransducerType t` is the sensor tag 0x53 exactly when `t` is
one of 1, 2, 3, 4 and the sentinel 0 otherwise, in particular at `t = 0`;
`ucMain_getSampleDuration t` is 0; `ucMain_ShutdownAllowed` returns 1. -/
theorem board_metadata (t : Nat) :
    ucMain_getNumTransducers = 4 ∧
      (ucMain_getTransducerType t = 0x53 ↔ t = 1 ∨ t = 2 ∨ t = 3 ∨ t = 4) ∧
      (ucMain_getTransducerType t = 0 ↔ ¬ (t = 1 ∨ t = 2 ∨ t = 3 ∨ t = 4)) ∧
      ucMain_getTransducerType 0 = 0 ∧
      ucMain_getSampleDuration t = 0 ∧
      ucMain_ShutdownAllowed = 1 := by
  refine ⟨rfl, ?_, ?_, rfl, rfl, rfl⟩
  · rcases t with _ | _ | _ | _ | _ | t <;>
      simp [ucMain_getTransducerType, TYPE_IS_SENSOR]
  · rcases t with _ | _ | _ | _ | _ | t <;>
      simp [ucMain_getTransducerType, TYPE_IS_SENSOR]

/-! ## The tables against the bit-serial register: claim C22 -/

theorem xor_block (i p q r s : Nat) (hq : q < 2 ^ i) (hs : s < 2 ^ i) :
    (2 ^ i * p + q) ^^^ (2 ^ i * r + s) = 2 ^ i * (p ^^^ r) + (q ^^^ s) := by
  have hqs : q ^^^ s < 2 ^ i := Nat.xor_lt_two_pow hq hs
  apply Nat.eq_of_testBit_eq
  intro j
  rw [Nat.testBit_xor, Nat.testBit_mul_pow_two_add p hq, Nat.testBit_mul_pow_two_add r hs,
    Nat.testBit_mul_pow_two_add _ hqs]
  by_cases hj : j < i <;> simp [hj]

theorem bitSerialStep_lt (reg bit : Nat) : bitSerialStep reg bit < 65536 := by
  have h1 : (reg * 2) % 65536 < 2 ^ 16 := Nat.mod_lt _ (by norm_num)
  have h2 : CCITT_POLY < 2 ^ 16 := by unfold CCITT_POLY; norm_num
  have h3 := Nat.xor_lt_two_pow h1 h2
  unfold bitSerialStep
  split
  · exact h3
  · exact h1

/-- The step is linear in the low 15 bits of the register: a value below 2^15
xor-ed into the register comes out doubled, xor-ed into the result. -/
theorem bitSerialStep_xor (A s bit : Nat) (hs : s < 32768) :
    bitSerialStep (A ^^^ s) bit = bitSerialStep A bit ^^^ (2 * s) := by
  have hs15 : s < 2 ^ 15 := by omega
  have h1 : (A ^^^ s) / 32768 % 2 = A / 32768 % 2 := by
    have e : (32768 : Nat) = 2 ^ 15 := by norm_num
    rw [e, ← Nat.toNat_testBit, ← Nat.toNat_testBit, Nat.testBit_xor,
      Nat.testBit_lt_two_pow hs15, Bool.xor_false]
  have h2 : ((A ^^^ s) * 2) % 65536 = ((A * 2) % 65536) ^^^ (2 * s) := by
    have e : (65536 : Nat) = 2 ^ 16 := by norm_num
    have e2 : ∀ y : Nat, y * 2 = 2 ^ 1 * y := by intro y; omega
    have e3 : 2 * s = 2 ^ 1 * s := by omega
    apply Nat.eq_of_testBit_eq
    intro j
    rw [e, Nat.testBit_xor, Nat.testBit_mod_two_pow, Nat.testBit_mod_two_pow, e2, e2, e3,
      Nat.testBit_mul_pow_two, Nat.testBit_mul_pow_two, Nat.testBit_mul_pow_two,
      Nat.testBit_xor]
    by_cases hj : j < 16
    · simp only [hj, decide_True, Bool.true_and]
      cases decide (j ≥ 1) <;> simp
    · have hle : 2 ^ 15 ≤ 2 ^ (j - 1) := Nat.pow_le_pow_right (by norm_num) (by omega)
      have : s.testBit (j - 1) = false := Nat.testBit_lt_two_pow (by omega)
      simp [hj, this]
  unfold bitSerialStep
  rw [h1, h2]
  split
  · rw [Nat.xor_assoc, Nat.xor_comm (2 * s), ← Nat.xor_assoc]
  · rfl

theorem bitSerialCRC_nil (reg : Nat) : bitSerialCRC reg [] = reg := rfl

theorem bitSerialCRC_cons (reg b : Nat) (bits : List Nat) :
    bitSerialCRC reg (b :: bits) = bitSerialCRC (bitSerialStep reg b) bits := rfl

theorem bitSerialCRC_append (reg : Nat) (l₁ l₂ : List Nat) :
    bitSerialCRC reg (l₁ ++ l₂) = bitSerialCRC (bitSerialCRC reg l₁) l₂ := by
  simp only [bitSerialCRC, List.foldl_append]

theorem bitSerialCRC_lt (bits : List Nat) :
    ∀ reg, reg < 65536 → bitSerialCRC reg bits < 65536 := by
  induction bits with
  | nil => intro reg h; exact h
  | cons b bits ih => intro reg _; exact ih _ (bitSerialStep_lt reg b)

/-- Over `n` steps a low part of the register that is not shifted out comes
out multiplied by `2^n`, xor-ed into the result. -/
theorem bitSerialCRC_xor (bits : List Nat) :
    ∀ A s, 2 ^ bits.length * s < 65536 →
      bitSerialCRC (A ^^^ s) bits = bitSerialCRC A bits ^^^ (2 ^ bits.length * s) := by
  induction bits with
  | nil =>
    intro A s _
    simp only [bitSerialCRC_nil, List.length_nil, Nat.pow_zero, Nat.one_mul]
  | cons b bits ih =>
    intro A s h
    rw [List.length_cons, Nat.pow_succ, Nat.mul_assoc] at h
    have hpos : 0 < 2 ^ bits.length := Nat.two_pow_pos _
    have hs : 2 * s < 65536 :=
      Nat.lt_of_le_of_lt (Nat.le_mul_of_pos_left _ hpos) h
    rw [bitSerialCRC_cons, bitSerialCRC_cons, bitSerialStep_xor A s b (by omega),
      ih _ _ h, List.length_cons, Nat.pow_succ, Nat.mul_assoc]

theorem bitsMSB_length (w x : Nat) : (bitsMSB w x).length = w := by
  induction w with
  | zero => rfl
  | succ w ih => rw [bitsMSB, List.length_cons, ih]

/-- Four steps from a register whose low twelve bits are clear: the top
nibble xor the message nibble, times the polynomial. -/
theorem bitSerialCRC_top :
    ∀ t, t < 16 → ∀ n, n < 16 →
      bitSerialCRC (4096 * t) (bitsMSB 4 n) = 4129 * (t ^^^ n) := by
  decide

/-- Four steps of the bit-serial register on a nibble, in closed form. -/
theorem bitSerialCRC_nibble (t s n : Nat) (ht : t < 16) (hs : s < 4096) (hn : n < 16) :
    bitSerialCRC (4096 * t + s) (bitsMSB 4 n) = (4129 * (t ^^^ n)) ^^^ (16 * s) := by
  have e : 4096 * t + s = (4096 * t) ^^^ s := by
    have := xor_block 12 t 0 0 s (by norm_num) (by norm_num; omega)
    simp only [Nat.xor_zero, Nat.zero_xor, Nat.mul_zero, Nat.add_zero, Nat.zero_add] at this
    norm_num at this
    exact this.symm
  rw [e, bitSerialCRC_xor _ _ _ (by rw [bitsMSB_length]; omega), bitsMSB_length,
    bitSerialCRC_top t ht n hn]
  norm_num

theorem regValue_regBytes (v : Nat) : regValue (regBytes v) = v := by
  simp only [regValue, regBytes]
  omega

/-- The table-driven nibble update is four steps of the bit-serial register. -/
theorem updateNibble_bitSerial (n hi lo : Nat) (hn : n < 16) (hhi : hi < 256)
    (hlo : lo < 256) :
    vCRC16_updateNibble n (hi, lo) =
      regBytes (bitSerialCRC (regValue (hi, lo)) (bitsMSB 4 n)) := by
  have ht : hi / 16 ^^^ n < 16 := xor_lt_16 (by omega) hn
  have a1 : lo / 16 ^^^ (hi / 16 ^^^ n) / 8 < 16 := xor_lt_16 (by omega) (by omega)
  have a2 : hi % 16 ^^^ (hi / 16 ^^^ n) < 16 := xor_lt_16 (by omega) ht
  have a3 : lo % 16 ^^^ 2 * (hi / 16 ^^^ n) % 16 < 16 := xor_lt_16 (by omega) (by omega)
  have e1 : regValue (hi, lo) = 4096 * (hi / 16) + (256 * (hi % 16) + lo) := by
    simp only [regValue]
    omega
  have e2 : 4129 * (hi / 16 ^^^ n) =
      16 * (16 * (16 * (hi / 16 ^^^ n) + (hi / 16 ^^^ n) / 8) + 2 * (hi / 16 ^^^ n) % 16) +
        (hi / 16 ^^^ n) := by omega
  have e3 : 16 * (256 * (hi % 16) + lo) =
      16 * (16 * (16 * (hi % 16) + lo / 16) + lo % 16) + 0 := by omega
  rw [updateNibble_nf n hi lo hn hhi hlo, e1,
    bitSerialCRC_nibble _ _ n (by omega) (by omega) hn, e2, e3,
    xor_nib _ _ _ _ ht (by norm_num), xor_nib _ _ _ _ (by omega) (by omega),
    xor_nib _ _ _ _ (by omega) (by omega), Nat.xor_zero,
    Nat.xor_comm (hi / 16 ^^^ n) (hi % 16), Nat.xor_comm ((hi / 16 ^^^ n) / 8) (lo / 16),
    Nat.xor_comm (2 * (hi / 16 ^^^ n) % 16) (lo % 16)]
  simp only [regBytes]
  congr 1 <;> omega

theorem bitsMSB_byte (x : Nat) :
    bitsMSB 8 x = bitsMSB 4 (x / 16) ++ bitsMSB 4 (x % 16) := by
  simp only [bitsMSB, List.cons_append, List.nil_append, List.cons.injEq, and_true]
  norm_num
  omega

set_option maxRecDepth 8192 in
/-- The bit-serial register reproduces the test vector of `crc.c`: from
0xFFFF over the bits of the ASCII bytes "123456789" it ends at 0x29B1. -/
theorem bitSerialCRC_test_vector :
    bitSerialCRC 0xFFFF
      (bitsMSB 8 0x31 ++ bitsMSB 8 0x32 ++ bitsMSB 8 0x33 ++ bitsMSB 8 0x34 ++
        bitsMSB 8 0x35 ++ bitsMSB 8 0x36 ++ bitsMSB 8 0x37 ++ bitsMSB 8 0x38 ++
        bitsMSB 8 0x39) = 0x29B1 := by
  decide

/-- C22. The table-driven update equals the bitwise CRC: for every register
`(hi, lo)` of two bytes and every nibble `n` in 0..15, `vCRC16_updateNibble`
yields the register that four steps of the bit-serial CRC-16/CCITT shift
register (polynomial 0x1021, most significant bit first) yield on the four
bits of `n`; entry `i` of the tables `(ucCRC16_lookupHI, ucCRC16_lookupLO)` is
the value four such steps reduce `i << 12` to; and for every byte `x`,
`vCRC16_updateByte` yields the register that eight bit-serial steps yield on
the bits of `x`, high bit first. -/
theorem table_update_eq_bit_serial (hi lo n x : Nat) (hhi : hi < 256) (hlo : lo < 256)
    (hn : n < 16) (hx : x < 256) :
    vCRC16_updateNibble n (hi, lo) =
        regBytes (bitSerialCRC (regValue (hi, lo)) (bitsMSB 4 n)) ∧
      (∀ i, i < 16 →
        (ucCRC16_lookupHI.getD i 0, ucCRC16_lookupLO.getD i 0) =
          regBytes (bitSerialCRC (i <<< 12) [0, 0, 0, 0])) ∧
      vCRC16_updateByte x (hi, lo) =
        regBytes (bitSerialCRC (regValue (hi, lo)) (bitsMSB 8 x)) := by
  refine ⟨updateNibble_bitSerial n hi lo hn hhi hlo, by decide, ?_⟩
  have e1 : (x >>> 4) % 256 = x / 16 := by
    rw [Nat.shiftRight_eq_div_pow]; norm_num; omega
  have e2 : x &&& 0x0F = x % 16 := Nat.and_pow_two_sub_one_eq_mod x 4
  have hv : bitSerialCRC (regValue (hi, lo)) (bitsMSB 4 (x / 16)) < 65536 :=
    bitSerialCRC_lt _ _ (by simp only [regValue]; omega)
  rw [vCRC16_updateByte, e1, e2, updateNibble_bitSerial (x / 16) hi lo (by omega) hhi hlo,
    regBytes, updateNibble_bitSerial (x % 16) _ _ (by omega) (by omega) (Nat.mod_lt _ (by norm_num)),
    ← regBytes, regValue_regBytes, bitsMSB_byte x, bitSerialCRC_append]

/-- C22, at the initial register 0xFFFF with the nibble 3 and the byte 0x31. -/
theorem table_update_eq_bit_serial_witness :
    vCRC16_updateNibble 3 (0xFF, 0xFF) =
        regBytes (bitSerialCRC (regValue (0xFF, 0xFF)) (bitsMSB 4 3)) ∧
      (∀ i, i < 16 →
        (ucCRC16_lookupHI.getD i 0, ucCRC16_lookupLO.getD i 0) =
          regBytes (bitSerialCRC (i <<< 12) [0, 0, 0, 0])) ∧
      vCRC16_updateByte 0x31 (0xFF, 0xFF) =
        regBytes (bitSerialCRC (regValue (0xFF, 0xFF)) (bitsMSB 8 0x31)) :=
  table_update_eq_bit_serial 0xFF 0xFF 3 0x31 (by decide) (by decide) (by decide) (by decide)

/-! ## The start-address field after the arm statements: claim C23 -/

/-- A field that one pass of the sample loop leaves alone is the same at the
exit of the loop as at its entry. -/
theorem sampleLoop_preserves {α : Type} (d : DeviceHeader) (k avgCount : Nat)
    (f : Machine → α) (hf : ∀ r m, f (runSteps (sampleSteps d k r) m) = f m) :
    ∀ (convs : List Nat) (m m' : Machine) (convs' : List Nat),
      sampleLoop d k avgCount convs m = Outcome.ok (m', convs') → f m' = f m := by
  intro convs
  induction convs with
  | nil =>
    intro m m' convs' h
    rw [sampleLoop] at h
    split at h
    · exact absurd h (by simp)
    · obtain ⟨rfl, -⟩ := Prod.mk.inj (Outcome.ok.inj h)
      rfl
  | cons r rest ih =>
    intro m m' convs' h
    rw [sampleLoop] at h
    split at h
    · rw [← sampleIter_eq] at h
      rw [ih _ _ _ h, hf]
    · obtain ⟨rfl, -⟩ := Prod.mk.inj (Outcome.ok.inj h)
      rfl

theorem sampleIter_ctl1 (d : DeviceHeader) (k r : Nat) (m : Machine) :
    (runSteps (sampleSteps d k r) m).regs.ADC12CTL1 = m.regs.ADC12CTL1 := by
  rw [sampleIter_eq]
  unfold ADCConversion convert trigger
  split <;> split <;> rfl

theorem sampleIter_p5out (d : DeviceHeader) (k r : Nat) (m : Machine) :
    (runSteps (sampleSteps d k r) m).regs.P5OUT = m.regs.P5OUT := by
  rw [sampleIter_eq]
  unfold ADCConversion convert trigger
  split <;> split <;> rfl

theorem arm_ctl1 (d : DeviceHeader) (k : Nat) (m : Machine) :
    (runSteps (armSteps d k) m).regs.ADC12CTL1 = (selectInput d k m.regs).ADC12CTL1 := by
  rcases k with _ | _ | _ | _ | k <;> rfl

theorem teardown_ctl1 (d : DeviceHeader) (k avgCount : Nat) (m : Machine) :
    (runSteps (teardownSteps d k avgCount) m).regs.ADC12CTL1 = m.regs.ADC12CTL1 := by
  rcases k with _ | _ | _ | _ | k <;> rfl

theorem startAddress_testBit (y j : Nat) :
    (startAddress y).testBit j = (decide (j < 4) && y.testBit (12 + j)) := by
  have e1 : (16 : Nat) = 2 ^ 4 := by norm_num
  have e2 : y / 4096 = y >>> 12 := by rw [Nat.shiftRight_eq_div_pow]
  rw [startAddress, e1, e2, Nat.testBit_mod_two_pow, Nat.testBit_shiftRight]

/-- Or-ing a mask into `ADC12CTL1` ors its start-address field into the field
already there. -/
theorem startAddress_bis16 (x c : Nat) :
    startAddress (bis16 x c) = startAddress x ||| startAddress c := by
  apply Nat.eq_of_testBit_eq
  intro j
  rw [Nat.testBit_or, startAddress_testBit, startAddress_testBit, startAddress_testBit]
  by_cases hj : j < 4
  · rw [testBit_bis16 _ _ _ (by omega)]
    simp [hj]
  · simp [hj]

/-- Clearing bits 12..15 of `ADC12CTL1` leaves the start-address field 0. -/
theorem startAddress_bic16 (x : Nat) : startAddress (bic16 x 0xF000) = 0 := by
  apply Nat.eq_of_testBit_eq
  intro j
  rw [startAddress_testBit, Nat.zero_testBit]
  by_cases hj : j < 4
  · rw [testBit_bic16 _ _ _ (by omega)]
    have : (0xF000 : Nat).testBit (12 + j) = true := by
      interval_cases j <;> decide
    simp [this]
  · simp [hj]

/-- The part of C23 that holds.  With the masks of the device header, the arm
statements of channel 1 leave the start-address field 0 whatever it was, and
those of channels 2..4 leave the field that was there or-ed with `k - 1`,
which is `k - 1` when the field was 0. -/
theorem arm_startAddress (k : Nat) (hk1 : 1 ≤ k) (hk4 : k ≤ 4) (m : Machine) :
    startAddress (runSteps (armSteps msp430x23x k) m).regs.ADC12CTL1 =
      if k = 1 then 0 else startAddress m.regs.ADC12CTL1 ||| (k - 1) := by
  rw [arm_ctl1]
  obtain rfl | rfl | rfl | rfl : k = 1 ∨ k = 2 ∨ k = 3 ∨ k = 4 := by omega
  · exact startAddress_bic16 _
  · exact startAddress_bis16 _ _
  · exact startAddress_bis16 _ _
  · exact startAddress_bis16 _ _

/-- C23, at the failing input.  The arm statements of channels 2, 3 and 4 or
1, 2 and 3 into the start-address field of `ADC12CTL1` and clear nothing.  A
read of channel 4 from the power-on state leaves the field at 3; when the
read routine of channel 2 is entered in that state, the field is 3 after its
arm statements, not 1, and still 3 when the routine returns; the handler
reads `ADC12MEM1` for channel 2. -/
theorem arm_keeps_stale_start_address (m : Machine) :
    startAddress (runSteps (armSteps msp430x23x 2) m).regs.ADC12CTL1 =
        startAddress m.regs.ADC12CTL1 ||| 1 ∧
      startAddress (runSteps (armSteps msp430x23x 3) m).regs.ADC12CTL1 =
        startAddress m.regs.ADC12CTL1 ||| 2 ∧
      startAddress (runSteps (armSteps msp430x23x 4) m).regs.ADC12CTL1 =
        startAddress m.regs.ADC12CTL1 ||| 3 ∧
      startAddress afterRead4.regs.ADC12CTL1 = 3 ∧
      startAddress (runSteps (armSteps msp430x23x 2) afterRead4).regs.ADC12CTL1 = 3 ∧
      (stateOf (unLIGHT_ReadChannel_2 msp430x23x 16 (List.replicate 16 0x123) afterRead4)
        powerOn).g_unActiveChannelRequest = 2 ∧
      startAddress (stateOf (unLIGHT_ReadChannel_2 msp430x23x 16 (List.replicate 16 0x123)
        afterRead4) powerOn).regs.ADC12CTL1 = 3 := by
  refine ⟨arm_startAddress 2 (by decide) (by decide) m,
    arm_startAddress 3 (by decide) (by decide) m,
    arm_startAddress 4 (by decide) (by decide) m, ?_, ?_, ?_, ?_⟩ <;> decide

/-! ## The state a read routine returns in: claims C24 and C27 -/

theorem teardown_counter (d : DeviceHeader) (k avgCount : Nat) (m : Machine) :
    (runSteps (teardownSteps d k avgCount) m).g_uiCounter = m.g_uiCounter := by
  rcases k with _ | _ | _ | _ | k <;> rfl

theorem teardown_ie (d : DeviceHeader) (k avgCount : Nat) (m : Machine) :
    (runSteps (teardownSteps d k avgCount) m).regs.ADC12IE =
      bic16 m.regs.ADC12IE (ieBit d k) := by
  rcases k with _ | _ | _ | _ | k <;> rfl

theorem teardown_ctl0 (d : DeviceHeader) (k avgCount : Nat) (m : Machine) :
    (runSteps (teardownSteps d k avgCount) m).regs.ADC12CTL0 =
      bic16 (bic16 m.regs.ADC12CTL0 d.ENC) d.ADC12ON := by
  rcases k with _ | _ | _ | _ | k <;> rfl

theorem teardown_p5out (d : DeviceHeader) (k avgCount : Nat) (m : Machine) :
    (runSteps (teardownSteps d k avgCount) m).regs.P5OUT =
      bis8 m.regs.P5OUT (ampPin d k) := by
  rcases k with _ | _ | _ | _ | k <;> rfl

theorem arm_p5out (d : DeviceHeader) (k : Nat) (m : Machine) :
    (runSteps (armSteps d k) m).regs.P5OUT = bic8 m.regs.P5OUT (ampPin d k) := by
  rcases k with _ | _ | _ | _ | k <;> rfl

/-- C24, as stated, fails: the read of channel 2 with a count of 16 and
sixteen results `0x123` returns `0x123` and leaves the accumulator of channel
2 at `0x123` and the completed-sample counter at 16, neither of them zero. -/
theorem read_leaves_average_and_count :
    unLIGHT_ReadChannel msp430x23x 2 16 (List.replicate 16 0x123)
        (vLight_Init msp430x23x Hal.idle cleanStart) = Outcome.ok (0x123, afterRead2, []) ∧
      accumulator 2 afterRead2 = 0x123 ∧
      afterRead2.g_uiCounter = 16 ∧
      ¬ (accumulator 2 afterRead2 = 0 ∧ afterRead2.g_uiCounter = 0) := by
  refine ⟨rfl, ?_, ?_, ?_⟩ <;> decide

/-- C24, amended. Acquisition request lifecycle: for every channel `k` in
1..4, every count `N` with `1 ≤ N ≤ 255` and `N` results delivered, the read
routine returns with the accumulator of the channel holding the returned
average and the completed-sample counter holding `N`; the arm statements of
the next read put both back to zero before its first sample, the counter in
the read of any channel `j`, the accumulator in the next read of channel `k`. -/
theorem read_request_lifecycle (d : DeviceHeader) (k N j : Nat) (rs rest : List Nat)
    (m : Machine) (hk1 : 1 ≤ k) (hk4 : k ≤ 4) (hN1 : 1 ≤ N) (hN : N ≤ 255)
    (hrs : rs.length = N) :
    ∃ m', unLIGHT_ReadChannel d k N (rs ++ rest) m =
        Outcome.ok (rs.sum % 65536 / N, m', rest) ∧
      accumulator k m' = rs.sum % 65536 / N ∧
      m'.g_uiCounter = N ∧
      accumulator k (runSteps (armSteps d k) m') = 0 ∧
      (runSteps (armSteps d j) m').g_uiCounter = 0 := by
  have hrun := readBySteps_run d k N rs rest m hk1 hk4 hN1 hN hrs
  refine ⟨_, (readChannel_eq d k _ _ _ hk1 hk4).trans hrun, ?_, ?_, arm_acc d k _,
    arm_counter d j _⟩
  · rw [teardown_acc, afterSamples_acc d k hk1 hk4 rs _ (arm_request d k m)
      (by rw [arm_acc]; norm_num), arm_acc, Nat.zero_add]
  · rw [teardown_counter, afterSamples_counter d k rs _ (by rw [arm_counter]; omega),
      arm_counter]
    omega

/-- C24 amended, at channel 3 with a count of 4 and results 10, 20, 30, 41,
the next read being one of channel 1. -/
theorem read_request_lifecycle_witness :
    ∃ m', unLIGHT_ReadChannel msp430x23x 3 4 ([10, 20, 30, 41] ++ [99]) powerOn =
        Outcome.ok ([10, 20, 30, 41].sum % 65536 / 4, m', [99]) ∧
      accumulator 3 m' = [10, 20, 30, 41].sum % 65536 / 4 ∧
      m'.g_uiCounter = 4 ∧
      accumulator 3 (runSteps (armSteps msp430x23x 3) m') = 0 ∧
      (runSteps (armSteps msp430x23x 1) m').g_uiCounter = 0 :=
  read_request_lifecycle msp430x23x 3 4 1 [10, 20, 30, 41] [99] powerOn (by decide)
    (by decide) (by decide) (by decide) rfl

theorem bic16_lt (x b : Nat) : bic16 x b < 65536 := Nat.mod_lt _ (by norm_num)

/-- After `x &= ~b` on a 16-bit register no bit of `b` is set in `x`. -/
theorem bic16_and_self (x b : Nat) : bic16 x b &&& b = 0 := by
  apply Nat.eq_of_testBit_eq
  intro j
  rw [Nat.testBit_and, Nat.zero_testBit]
  by_cases hj : j < 16
  · rw [testBit_bic16 _ _ _ hj]
    cases x.testBit j <;> cases b.testBit j <;> rfl
  · have h16 : bic16 x b < 2 ^ j :=
      Nat.lt_of_lt_of_le (bic16_lt x b) (Nat.pow_le_pow_right (by norm_num) (by omega) :
        2 ^ 16 ≤ 2 ^ j)
    rw [Nat.testBit_lt_two_pow h16, Bool.false_and]

/-- A bit group that is clear stays clear under `x &= ~b`. -/
theorem bic16_and_of (x b c : Nat) (h : x &&& c = 0) : bic16 x b &&& c = 0 := by
  apply Nat.eq_of_testBit_eq
  intro j
  have hx : (x.testBit j && c.testBit j) = false := by
    rw [← Nat.testBit_and, h, Nat.zero_testBit]
  rw [Nat.testBit_and, Nat.zero_testBit]
  by_cases hj : j < 16
  · rw [testBit_bic16 _ _ _ hj]
    cases hxj : x.testBit j <;> cases hcj : c.testBit j <;> simp_all
  · have h16 : bic16 x b < 2 ^ j :=
      Nat.lt_of_lt_of_le (bic16_lt x b) (Nat.pow_le_pow_right (by norm_num) (by omega) :
        2 ^ 16 ≤ 2 ^ j)
    rw [Nat.testBit_lt_two_pow h16, Bool.false_and]

theorem testBit_bis8 (x b j : Nat) (hj : j < 8) :
    (bis8 x b).testBit j = (x.testBit j || b.testBit j) := by
  have e : (256 : Nat) = 2 ^ 8 := by norm_num
  rw [bis8, e, Nat.testBit_mod_two_pow, Nat.testBit_or]
  simp [hj]

theorem testBit_bic8 (x b j : Nat) (hj : j < 8) :
    (bic8 x b).testBit j = (x.testBit j && !b.testBit j) := by
  have e : (256 : Nat) = 2 ^ 8 := by norm_num
  have e' : (0xFFFF : Nat) = 2 ^ 16 - 1 := by norm_num
  rw [bic8, e, Nat.testBit_mod_two_pow, Nat.testBit_and, Nat.testBit_xor, e',
    Nat.testBit_two_pow_sub_one]
  have : j < 16 := by omega
  simp [hj, this]

theorem ampPin_std (d : DeviceHeader) (hd : StdBits d) (k : Nat) :
    ampPin d k = 2 ^ ampPinIndex k := by
  obtain ⟨-, h1, h2, -⟩ := hd
  rcases k with _ | _ | _ | k
  · exact h2
  · exact h1
  · exact h1
  · exact h2

theorem ampPinIndex_lt (k : Nat) : ampPinIndex k < 8 := by
  unfold ampPinIndex
  split <;> decide

/-- C27. Teardown postcondition: with `BIT0 .. BIT3` as the device header
defines them, for every channel `k` in 1..4, every count and every entry
state, when the read routine returns, bit `k-1` of `ADC12IE` is clear, no bit
of `ENC` and no bit of `ADC12ON` is set in `ADC12CTL0`, the amplifier pin of
the channel (`AMP1_EN`, bit 1, for channels 1 and 2; `AMP2_EN`, bit 2, for
channels 3 and 4) is high, and every other bit of the 8-bit amplifier port
is as it was before the call. -/
theorem teardown_post (d : DeviceHeader) (hd : StdBits d) (k N : Nat)
    (convs convs' : List Nat) (m m' : Machine) (v : Nat) (hk1 : 1 ≤ k) (hk4 : k ≤ 4)
    (h : unLIGHT_ReadChannel d k N convs m = Outcome.ok (v, m', convs')) :
    m'.regs.ADC12IE.testBit (k - 1) = false ∧
      m'.regs.ADC12CTL0 &&& d.ENC = 0 ∧
      m'.regs.ADC12CTL0 &&& d.ADC12ON = 0 ∧
      m'.regs.P5OUT.testBit (ampPinIndex k) = true ∧
      ∀ j, j < 8 → j ≠ ampPinIndex k → m'.regs.P5OUT.testBit j = m.regs.P5OUT.testBit j := by
  rw [readChannel_eq d k _ _ _ hk1 hk4] at h
  obtain ⟨m1, hloop, -, -, rfl, -⟩ := readBySteps_ok d k _ _ _ _ _ _ h
  have hp : m1.regs.P5OUT = bic8 m.regs.P5OUT (ampPin d k) :=
    (sampleLoop_preserves d k N (fun s => s.regs.P5OUT) (sampleIter_p5out d k) _ _ _ _
      hloop).trans (arm_p5out d k m)
  rw [teardown_ie, teardown_ctl0, teardown_p5out, hp, ieBit_std d hd k hk1 hk4,
    ampPin_std d hd k]
  refine ⟨?_, bic16_and_of _ _ _ (bic16_and_self _ _), bic16_and_self _ _, ?_, ?_⟩
  · rw [testBit_bic16 _ _ _ (by omega), Nat.testBit_two_pow_self]
    simp
  · rw [testBit_bis8 _ _ _ (ampPinIndex_lt k), Nat.testBit_two_pow_self]
    simp
  · intro j hj hne
    rw [testBit_bis8 _ _ _ hj, testBit_bic8 _ _ _ hj, Nat.testBit_two_pow]
    have : ¬ ampPinIndex k = j := fun e => hne e.symm
    simp [this]

/-- C27, at the read of channel 4 from the power-on state with a count of 16
and sixteen results `0x123`. -/
theorem teardown_post_witness :
    afterRead4.regs.ADC12IE.testBit (4 - 1) = false ∧
      afterRead4.regs.ADC12CTL0 &&& msp430x23x.ENC = 0 ∧
      afterRead4.regs.ADC12CTL0 &&& msp430x23x.ADC12ON = 0 ∧
      afterRead4.regs.P5OUT.testBit (ampPinIndex 4) = true ∧
      ∀ j, j < 8 → j ≠ ampPinIndex 4 →
        afterRead4.regs.P5OUT.testBit j = powerOn.regs.P5OUT.testBit j :=
  teardown_post msp430x23x (by unfold StdBits; decide) 4 16 (List.replicate 16 0x123) []
    powerOn afterRead4 0x123 (by decide) (by decide) rfl

/-! ## The configured sample count: claim C25 -/

theorem sampleIter_aveCounter (d : DeviceHeader) (k r : Nat) (m : Machine) :
    (runSteps (sampleSteps d k r) m).g_uiAveCounter = m.g_uiAveCounter := by
  rw [sampleIter_eq]
  unfold ADCConversion convert trigger
  split <;> split <;> rfl

theorem afterSamples_aveCounter (d : DeviceHeader) (k : Nat) (rs : List Nat) :
    ∀ m : Machine, (afterSamples d k rs m).g_uiAveCounter = m.g_uiAveCounter := by
  induction rs with
  | nil => intro m; rfl
  | cons r rs ih => intro m; rw [afterSamples_cons, ih, sampleIter_aveCounter]

theorem arm_aveCounter (d : DeviceHeader) (k : Nat) (m : Machine) :
    (runSteps (armSteps d k) m).g_uiAveCounter = m.g_uiAveCounter := by
  rcases k with _ | _ | _ | _ | k <;> rfl

theorem teardown_aveCounter (d : DeviceHeader) (k avgCount : Nat) (m : Machine) :
    (runSteps (teardownSteps d k avgCount) m).g_uiAveCounter = m.g_uiAveCounter := by
  rcases k with _ | _ | _ | _ | k <;> rfl

theorem take_sum_le (rs : List Nat) (b n : Nat) (h : ∀ r ∈ rs, r ≤ b) :
    (rs.take n).sum ≤ b * n := by
  have h1 := sum_le_of_le (rs.take n) b (fun r hr => h r (List.mem_of_mem_take hr))
  have h2 : (rs.take n).length ≤ n := by rw [List.length_take]; exact Nat.min_le_left _ _
  exact Nat.le_trans h1 (Nat.mul_le_mul_left _ h2)

/-- The slot a channel dispatch leaves behind when its read routine returns
the reading `v`, and the sample count it leaves behind. -/
theorem dispatch_channel_slot (d : DeviceHeader) (hal : Hal) (k len : Nat)
    (param convs convs' : List Nat) (m m1 : Machine) (v : Nat) (hk1 : 1 ≤ k) (hk4 : k ≤ 4)
    (hS : StoreShape m.S_Report) (hv : v < 65536)
    (hread : unLIGHT_ReadChannel d k m.g_uiAveCounter convs (vLight_Init d hal m) =
      Outcome.ok (v, m1, convs')) :
    ∃ ret m', uiMainDispatch d hal k len param convs m = Outcome.ok (ret, m', convs') ∧
      slotAt m'.S_Report k =
        ⟨[v >>> 8, v &&& 0xFF], 2, bis8 (slotAt m.S_Report k).m_ucFlags F_NEWDATA⟩ ∧
      m'.g_uiAveCounter = m1.g_uiAveCounter := by
  obtain ⟨ret, hret⟩ := dispatch_channel_eq d hal k len param convs convs' m m1 v hk1 hk4 hread
  obtain ⟨s1, s2, -⟩ := split_reading v hv
  have hkl : k < m.S_Report.length := by rw [hS.1]; unfold NUMDATGEN; omega
  have e1 : m1.S_Report = m.S_Report :=
    (readChannel_store d k _ _ _ _ _ _ hread).trans (vLight_Init_store d hal m)
  refine ⟨ret, _, hret, ?_, rfl⟩
  rw [vLight_Shutdown_store]
  simp only [e1]
  rw [storeReading_eq _ k v hkl (hS.2 _ (slotAt_mem _ k hkl)), s1, s2,
    slotAt_set_self _ _ _ hkl]

/-- C25. No accumulator overflow for the configured sample count: `main`
sets the sample count to 16 before it enters the core loop.  For every `N ≤ 16`
and `N` results of at most 4095 each, after each pass of the sample loop of
channel `k` the accumulator holds the plain sum of the results so far, at most
65520, so no addition wraps.  Hence, in a state whose sample count is 16,
`uiMainDispatch(k, ...)` with sixteen results of at most 4095 each returns
with slot `k` holding the big-endian bytes of `sum / 16`, a value of at most
4095, and leaves the sample count at 16. -/
theorem no_overflow_at_configured_count (d : DeviceHeader) (hal : Hal)
    (vCORE_Initilize : Machine → Machine) (m0 a m : Machine) (k len N : Nat)
    (param rs qs rest : List Nat) (hk1 : 1 ≤ k) (hk4 : k ≤ 4) (hN16 : N ≤ 16)
    (hrs : rs.length = N) (hr : ∀ r ∈ rs, r ≤ 4095)
    (hS : StoreShape m.S_Report) (hcount : m.g_uiAveCounter = 16)
    (hqs : qs.length = 16) (hq : ∀ r ∈ qs, r ≤ 4095) :
    (main vCORE_Initilize m0).g_uiAveCounter = 16 ∧
      (∀ n, n ≤ N →
        accumulator k (afterSamples d k (rs.take n) (runSteps (armSteps d k) a)) =
          (rs.take n).sum ∧ (rs.take n).sum ≤ 65520) ∧
      qs.sum / 16 ≤ 4095 ∧
      ∃ ret m', uiMainDispatch d hal k len param (qs ++ rest) m = Outcome.ok (ret, m', rest) ∧
        slotAt m'.S_Report k =
          ⟨[(qs.sum / 16) >>> 8, (qs.sum / 16) &&& 0xFF], 2,
            bis8 (slotAt m.S_Report k).m_ucFlags F_NEWDATA⟩ ∧
        256 * ((qs.sum / 16) >>> 8) + ((qs.sum / 16) &&& 0xFF) = qs.sum / 16 ∧
        m'.g_uiAveCounter = 16 := by
  have hqsum : qs.sum ≤ 65520 := by
    have := sum_le_of_le qs 4095 hq
    rw [hqs] at this
    omega
  refine ⟨rfl, ?_, by omega, ?_⟩
  · intro n hn
    have hsum : (rs.take n).sum ≤ 4095 * n := take_sum_le rs 4095 n hr
    have h16 : 4095 * n ≤ 4095 * 16 := Nat.mul_le_mul_left _ (by omega)
    refine ⟨?_, by omega⟩
    rw [afterSamples_acc d k hk1 hk4 _ _ (arm_request d k a) (by rw [arm_acc]; norm_num),
      arm_acc, Nat.zero_add]
    exact Nat.mod_eq_of_lt (by omega)
  · have hrun := readBySteps_run d k 16 qs rest (vLight_Init d hal m) hk1 hk4 (by norm_num)
      (by norm_num) hqs
    rw [Nat.mod_eq_of_lt (by omega : qs.sum < 65536)] at hrun
    have hread : unLIGHT_ReadChannel d k m.g_uiAveCounter (qs ++ rest) (vLight_Init d hal m) =
        Outcome.ok (qs.sum / 16, runSteps (teardownSteps d k 16) (afterSamples d k qs
          (runSteps (armSteps d k) (vLight_Init d hal m))), rest) := by
      rw [hcount]
      exact (readChannel_eq d k _ _ _ hk1 hk4).trans hrun
    obtain ⟨ret, m', h1, h2, h3⟩ := dispatch_channel_slot d hal k len param _ _ m _ _ hk1 hk4
      hS (by omega) hread
    refine ⟨ret, m', h1, h2, (split_reading _ (by omega)).2.2, ?_⟩
    rw [h3, teardown_aveCounter, afterSamples_aveCounter, arm_aveCounter]
    exact hcount

/-- C25, at channel 2 in the state `main` leaves when the core
initialisation is the identity, with sixteen results 4095, the largest sum. -/
theorem no_overflow_at_configured_count_witness :
    (main id powerOn).g_uiAveCounter = 16 ∧
      (∀ n, n ≤ 16 →
        accumulator 2 (afterSamples msp430x23x 2 ((List.replicate 16 4095).take n)
            (runSteps (armSteps msp430x23x 2) powerOn)) =
          ((List.replicate 16 4095).take n).sum ∧
        ((List.replicate 16 4095).take n).sum ≤ 65520) ∧
      (List.replicate 16 4095).sum / 16 ≤ 4095 ∧
      ∃ ret m', uiMainDispatch msp430x23x Hal.idle 2 0 [] (List.replicate 16 4095 ++ [])
          (main id powerOn) = Outcome.ok (ret, m', []) ∧
        slotAt m'.S_Report 2 =
          ⟨[((List.replicate 16 4095).sum / 16) >>> 8,
            ((List.replicate 16 4095).sum / 16) &&& 0xFF], 2,
            bis8 (slotAt (main id powerOn).S_Report 2).m_ucFlags F_NEWDATA⟩ ∧
        256 * (((List.replicate 16 4095).sum / 16) >>> 8) +
          (((List.replicate 16 4095).sum / 16) &&& 0xFF) = (List.replicate 16 4095).sum / 16 ∧
        m'.g_uiAveCounter = 16 :=
  no_overflow_at_configured_count msp430x23x Hal.idle id powerOn powerOn (main id powerOn)
    2 0 16 [] (List.replicate 16 4095) (List.replicate 16 4095) [] (by decide) (by decide)
    (by decide) rfl (by decide) (by unfold StoreShape; decide) rfl rfl (by decide)

/-! ## The interrupt handler: claim C26 -/

/-- C26. Interrupt handler step: one execution of `ADCConversion` adds the
conversion memory `ADC12MEM(k-1)` to the accumulator of channel `k`, modulo
2^16, when the active request is `k` in 1..4, and leaves each of the four
accumulators whose channel is not the active request as it was (all four when
the request is outside 1..4); in every case the completed-sample counter goes
up by exactly 1, modulo 2^8, and the active request, the sample count, the
registers and the report store are untouched. -/
theorem handler_step (m : Machine) :
    (ADCConversion m).g_unADChannelA1 =
        (if m.g_unActiveChannelRequest = 1 then (m.g_unADChannelA1 + m.regs.ADC12MEM0) % 65536
          else m.g_unADChannelA1) ∧
      (ADCConversion m).g_unADChannelA2 =
        (if m.g_unActiveChannelRequest = 2 then (m.g_unADChannelA2 + m.regs.ADC12MEM1) % 65536
          else m.g_unADChannelA2) ∧
      (ADCConversion m).g_unADChannelA3 =
        (if m.g_unActiveChannelRequest = 3 then (m.g_unADChannelA3 + m.regs.ADC12MEM2) % 65536
          else m.g_unADChannelA3) ∧
      (ADCConversion m).g_unADChannelA4 =
        (if m.g_unActiveChannelRequest = 4 then (m.g_unADChannelA4 + m.regs.ADC12MEM3) % 65536
          else m.g_unADChannelA4) ∧
      (ADCConversion m).g_uiCounter = (m.g_uiCounter + 1) % 256 ∧
      (ADCConversion m).g_unActiveChannelRequest = m.g_unActiveChannelRequest ∧
      (ADCConversion m).g_uiAveCounter = m.g_uiAveCounter ∧
      (ADCConversion m).regs = m.regs ∧
      (ADCConversion m).S_Report = m.S_Report := by
  unfold ADCConversion
  split
  · rename_i h; simp [h]
  · rename_i h; simp [h]
  · rename_i h; simp [h]
  · rename_i h; simp [h]
  · rename_i h1 h2 h3 h4
    simp only [if_neg h1, if_neg h2, if_neg h3, if_neg h4, and_self]

/-! ## The status code of a dispatch: claim C28 -/

/-- The status of a returning dispatch, by command: 0 for the test handler
and for channel 1, 1 for channels 2..4 and for every unknown command. -/
theorem dispatch_status (d : DeviceHeader) (hal : Hal) (c len ret : Nat)
    (param convs convs' : List Nat) (m m' : Machine)
    (hstep : uiMainDispatch d hal c len param convs m = Outcome.ok (ret, m', convs')) :
    ret = if c = 0 ∨ c = 1 then 0 else 1 := by
  have hsl : ∀ (o : Outcome (Nat × Machine × List Nat)) (v : Nat),
      (∀ r s cs, o = Outcome.ok (r, s, cs) → r = v) → v < 256 →
      narrowRet o = Outcome.ok (ret, m', convs') → ret = v := by
    intro o v ho hv h
    cases o with
    | ok x =>
      obtain ⟨r, s, cs⟩ := x
      simp only [narrowRet] at h
      obtain ⟨h1, -⟩ := Prod.mk.inj (Outcome.ok.inj h)
      rw [← h1, ho r s cs rfl]
      exact Nat.mod_eq_of_lt hv
    | hang => simp [narrowRet] at h
    | divZero => simp [narrowRet] at h
  rcases c with _ | _ | _ | _ | _ | c
  · simp only [uiMainDispatch] at hstep
    exact hsl _ 0 (fun r s cs h => (Prod.mk.inj (Outcome.ok.inj h)).1.symm) (by norm_num) hstep
  · simp only [uiMainDispatch] at hstep
    refine hsl _ 0 ?_ (by norm_num) hstep
    intro r s cs h
    unfold uiMain_SL1 at h
    simp only at h
    split at h
    · exact absurd h (by simp)
    · exact absurd h (by simp)
    · exact (Prod.mk.inj (Outcome.ok.inj h)).1.symm
  · simp only [uiMainDispatch] at hstep
    refine hsl _ 1 ?_ (by norm_num) hstep
    intro r s cs h
    unfold uiMain_SL2 at h
    simp only at h
    split at h
    · exact absurd h (by simp)
    · exact absurd h (by simp)
    · exact (Prod.mk.inj (Outcome.ok.inj h)).1.symm
  · simp only [uiMainDispatch] at hstep
    refine hsl _ 1 ?_ (by norm_num) hstep
    intro r s cs h
    unfold uiMain_SL3 at h
    simp only at h
    split at h
    · exact absurd h (by simp)
    · exact absurd h (by simp)
    · exact (Prod.mk.inj (Outcome.ok.inj h)).1.symm
  · simp only [uiMainDispatch] at hstep
    refine hsl _ 1 ?_ (by norm_num) hstep
    intro r s cs h
    unfold uiMain_SL4 at h
    simp only at h
    split at h
    · exact absurd h (by simp)
    · exact absurd h (by simp)
    · exact (Prod.mk.inj (Outcome.ok.inj h)).1.symm
  · simp only [uiMainDispatch] at hstep
    obtain ⟨h1, -⟩ := Prod.mk.inj (Outcome.ok.inj hstep)
    rw [← h1]
    simp

/-- C28, at the failing input.  From the cleaned power-on state with sixteen
results `0x123` delivered, `uiMainDispatch(1, ...)` writes the reading `0x123`
into slot 1 with `F_NEWDATA` set and returns 0, while the same call for
channels 2, 3 and 4 writes the reading into its slot and returns 1. -/
theorem dispatch_channel_1_returns_0 :
    (∃ m', uiMainDispatch msp430x23x Hal.idle 1 0 [] (List.replicate 16 0x123) cleanStart =
        Outcome.ok (0, m', []) ∧ slotAt m'.S_Report 1 = ⟨[0x01, 0x23], 2, 1⟩) ∧
      (∃ m', uiMainDispatch msp430x23x Hal.idle 2 0 [] (List.replicate 16 0x123) cleanStart =
        Outcome.ok (1, m', []) ∧ slotAt m'.S_Report 2 = ⟨[0x01, 0x23], 2, 1⟩) ∧
      (∃ m', uiMainDispatch msp430x23x Hal.idle 3 0 [] (List.replicate 16 0x123) cleanStart =
        Outcome.ok (1, m', []) ∧ slotAt m'.S_Report 3 = ⟨[0x01, 0x23], 2, 1⟩) ∧
      (∃ m', uiMainDispatch msp430x23x Hal.idle 4 0 [] (List.replicate 16 0x123) cleanStart =
        Outcome.ok (1, m', []) ∧ slotAt m'.S_Report 4 = ⟨[0x01, 0x23], 2, 1⟩) :=
  ⟨⟨_, rfl, by decide⟩, ⟨_, rfl, by decide⟩, ⟨_, rfl, by decide⟩, ⟨_, rfl, by decide⟩⟩

/-! ## What SEND mode feeds and writes: claims C29 and C30 -/

/-- Two adjacent stores into a buffer, as a concatenation. -/
theorem set_set_eq_append (a b : Nat) :
    ∀ (n : Nat) (B : List Nat), n + 2 ≤ B.length →
      (B.set n a).set (n + 1) b = B.take n ++ [a, b] ++ B.drop (n + 2) := by
  intro n
  induction n with
  | zero =>
    intro B h
    match B, h with
    | _ :: _ :: _, _ => simp
  | succ n ih =>
    intro B h
    match B, h with
    | x :: xs, h =>
      simp only [List.length_cons] at h
      simp only [List.set_cons_succ, List.take_succ_cons, List.cons_append,
        List.drop_succ_cons, List.cons.injEq, true_and]
      exact ih xs (by omega)

/-- The buffer SEND mode leaves, as the payload, the two register bytes and
the bytes beyond the message. -/
theorem compute_send_append (k : CommConst) (B : List Nat) (L : Nat)
    (h3 : 3 ≤ L) (hmax : L ≤ k.MAXMSGLEN + 1) (h8 : L < 256) (hlen : L ≤ B.length) :
    ucCRC16_compute_msg_CRC k k.CRC_FOR_MSG_TO_SEND B L =
      some (1, B.take (L - 2) ++ [(crcFeed (0xFF, 0xFF) (B.take (L - 2))).1,
        (crcFeed (0xFF, 0xFF) (B.take (L - 2))).2] ++ B.drop L) := by
  have e1 : L - 1 = L - 2 + 1 := by omega
  have e2 : L = L - 2 + 2 := by omega
  rw [compute_send_eq k B L h3 hmax h8 hlen, e1, set_set_eq_append _ _ _ B (by omega), ← e2]

/-- C29, as stated, fails: for the nine ASCII bytes "123456789" with two
reserved bytes and length 11, SEND mode writes `0x29, 0xB1`, the register after
the nine payload bytes, while the register after the payload followed by two
further zero bytes is `0x0B, 0x84`, a pair the RECEIVE check rejects when it
stands in the place of the CRC. -/
theorem send_feeds_no_zero_bytes :
    ucCRC16_compute_msg_CRC ⟨64, 1, 0⟩ 1
        [0x31, 0x32, 0x33, 0x34, 0x35, 0x36, 0x37, 0x38, 0x39, 0, 0] 11 =
      some (1, [0x31, 0x32, 0x33, 0x34, 0x35, 0x36, 0x37, 0x38, 0x39, 0x29, 0xB1]) ∧
      crcFeed (0xFF, 0xFF) [0x31, 0x32, 0x33, 0x34, 0x35, 0x36, 0x37, 0x38, 0x39] =
        (0x29, 0xB1) ∧
      crcFeed (0xFF, 0xFF)
        ([0x31, 0x32, 0x33, 0x34, 0x35, 0x36, 0x37, 0x38, 0x39] ++ [0x00, 0x00]) =
        (0x0B, 0x84) ∧
      ((0x0B, 0x84) : Nat × Nat) ≠ (0x29, 0xB1) ∧
      ucCRC16_compute_msg_CRC ⟨64, 1, 0⟩ 0
          [0x31, 0x32, 0x33, 0x34, 0x35, 0x36, 0x37, 0x38, 0x39, 0x0B, 0x84] 11 =
        some (0, [0x31, 0x32, 0x33, 0x34, 0x35, 0x36, 0x37, 0x38, 0x39, 0x0B, 0x84]) := by
  refine ⟨by decide, by decide, by decide, by decide, by decide⟩

/-- C29, amended. For every buffer and valid length `L`, the bytes SEND mode
writes at offsets `L-2` and `L-1` are the high and low byte of the register
obtained by starting from 0xFFFF and feeding through `vCRC16_updateByte` the
payload bytes at offsets `0 .. L-3` and no further byte; feeding the two
written bytes after the payload, as the later check does, clears the register. -/
theorem crc_send_feeds_payload_only (k : CommConst) (B : List Nat) (L : Nat)
    (h3 : 3 ≤ L) (hmax : L ≤ k.MAXMSGLEN + 1) (h8 : L < 256) (hlen : L ≤ B.length) :
    ∃ S, ucCRC16_compute_msg_CRC k k.CRC_FOR_MSG_TO_SEND B L = some (1, S) ∧
      (S.getD (L - 2) 0, S.getD (L - 1) 0) = crcFeed (0xFF, 0xFF) (B.take (L - 2)) ∧
      crcFeed (0xFF, 0xFF) (B.take (L - 2) ++ [S.getD (L - 2) 0, S.getD (L - 1) 0]) =
        (0, 0) := by
  have hr : RegOK (crcFeed (0xFF, 0xFF) (B.take (L - 2))) :=
    crcFeed_ok _ (by constructor <;> norm_num) _
  have e1 : L - 1 = L - 2 + 1 := by omega
  obtain ⟨g1, g2, -⟩ := getElem_opt_set_set B (L - 2) (crcFeed (0xFF, 0xFF) (B.take (L - 2))).1
    (crcFeed (0xFF, 0xFF) (B.take (L - 2))).2 (by omega)
  rw [← e1] at g1 g2
  refine ⟨_, compute_send_eq k B L h3 hmax h8 hlen, ?_, ?_⟩
  · rw [getD_of_getElem_opt g1, getD_of_getElem_opt g2]
  · rw [getD_of_getElem_opt g1, getD_of_getElem_opt g2, crcFeed_append]
    exact crcFeed_own _ hr

/-- C29 amended, at a four-byte buffer with two payload bytes. -/
theorem crc_send_feeds_payload_only_witness :
    ∃ S, ucCRC16_compute_msg_CRC ⟨64, 1, 0⟩ 1 [0x31, 0x32, 7, 9] 4 = some (1, S) ∧
      (S.getD (4 - 2) 0, S.getD (4 - 1) 0) =
        crcFeed (0xFF, 0xFF) ([0x31, 0x32, 7, 9].take (4 - 2)) ∧
      crcFeed (0xFF, 0xFF)
        ([0x31, 0x32, 7, 9].take (4 - 2) ++ [S.getD (4 - 2) 0, S.getD (4 - 1) 0]) = (0, 0) :=
  crc_send_feeds_payload_only ⟨64, 1, 0⟩ [0x31, 0x32, 7, 9] 4 (by decide) (by decide)
    (by decide) (by decide)

/-- C30. SEND ignores the reserved bytes and is idempotent: for every valid
length `L` and every two buffers that agree on the bytes at offsets `0 .. L-3`
(and on whatever lies beyond the message, from offset `L` on), whatever the
bytes at offsets `L-2` and `L-1` are, SEND mode returns 1 with the same final
buffer for both; and SEND mode applied to that final buffer returns it
unchanged. -/
theorem crc_send_ignores_reserved (k : CommConst) (B1 B2 : List Nat) (L : Nat)
    (h3 : 3 ≤ L) (hmax : L ≤ k.MAXMSGLEN + 1) (h8 : L < 256)
    (hlen1 : L ≤ B1.length) (hlen2 : L ≤ B2.length)
    (hpay : B1.take (L - 2) = B2.take (L - 2)) (hrest : B1.drop L = B2.drop L) :
    ∃ S, ucCRC16_compute_msg_CRC k k.CRC_FOR_MSG_TO_SEND B1 L = some (1, S) ∧
      ucCRC16_compute_msg_CRC k k.CRC_FOR_MSG_TO_SEND B2 L = some (1, S) ∧
      ucCRC16_compute_msg_CRC k k.CRC_FOR_MSG_TO_SEND S L = some (1, S) := by
  refine ⟨_, compute_send_append k B1 L h3 hmax h8 hlen1, ?_, ?_⟩
  · rw [compute_send_append k B2 L h3 hmax h8 hlen2, hpay, hrest]
  · have hl : (B1.take (L - 2)).length = L - 2 := by
      rw [List.length_take]; omega
    have hlenS : L ≤ (B1.take (L - 2) ++ [(crcFeed (0xFF, 0xFF) (B1.take (L - 2))).1,
        (crcFeed (0xFF, 0xFF) (B1.take (L - 2))).2] ++ B1.drop L).length := by
      simp only [List.length_append, hl, List.length_cons, List.length_nil, List.length_drop]
      omega
    have ht : (B1.take (L - 2) ++ [(crcFeed (0xFF, 0xFF) (B1.take (L - 2))).1,
        (crcFeed (0xFF, 0xFF) (B1.take (L - 2))).2] ++ B1.drop L).take (L - 2) =
        B1.take (L - 2) := by
      rw [List.append_assoc, List.take_append_of_le_length (by omega), List.take_of_length_le
        (by omega)]
    have hd : (B1.take (L - 2) ++ [(crcFeed (0xFF, 0xFF) (B1.take (L - 2))).1,
        (crcFeed (0xFF, 0xFF) (B1.take (L - 2))).2] ++ B1.drop L).drop L = B1.drop L := by
      have hl2 : (B1.take (L - 2) ++ [(crcFeed (0xFF, 0xFF) (B1.take (L - 2))).1,
          (crcFeed (0xFF, 0xFF) (B1.take (L - 2))).2]).length = L := by
        simp only [List.length_append, hl, List.length_cons, List.length_nil]
        omega
      exact List.drop_left' hl2
    rw [compute_send_append k _ L h3 hmax h8 hlenS, ht, hd]

/-- C30, at two four-byte buffers with the same two payload bytes and
different reserved bytes. -/
theorem crc_send_ignores_reserved_witness :
    ∃ S, ucCRC16_compute_msg_CRC ⟨64, 1, 0⟩ 1 [0x31, 0x32, 7, 9] 4 = some (1, S) ∧
      ucCRC16_compute_msg_CRC ⟨64, 1, 0⟩ 1 [0x31, 0x32, 0, 0xFF] 4 = some (1, S) ∧
      ucCRC16_compute_msg_CRC ⟨64, 1, 0⟩ 1 S 4 = some (1, S) :=
  crc_send_ignores_reserved ⟨64, 1, 0⟩ [0x31, 0x32, 7, 9] [0x31, 0x32, 0, 0xFF] 4 (by decide)
    (by decide) (by decide) (by decide) (by decide) rfl rfl

/-! ## The CRC bytes are protected: claim C31 -/

/-- A store into one of the two bytes that follow a prefix `P`, cut after
those two bytes. -/
theorem tail_set_take (a b v : Nat) (rest : List Nat) :
    ∀ P : List Nat,
      ((P ++ [a, b] ++ rest).set P.length v).take (P.length + 2) = P ++ [v, b] ∧
      ((P ++ [a, b] ++ rest).set (P.length + 1) v).take (P.length + 2) = P ++ [a, v] ∧
      (P ++ [a, b] ++ rest).getD P.length 0 = a ∧
      (P ++ [a, b] ++ rest).getD (P.length + 1) 0 = b := by
  intro P
  induction P with
  | nil => simp
  | cons x P ih =>
    obtain ⟨h1, h2, h3, h4⟩ := ih
    simp only [List.append_assoc, List.cons_append, List.nil_append] at h1 h2 h3 h4
    simp only [List.cons_append, List.append_assoc, List.nil_append, List.length_cons,
      List.set_cons_succ, List.take_succ_cons, List.getD_cons_succ, h1, h2, h3, h4, and_self]

theorem flip_ne (x bit : Nat) : x ^^^ 2 ^ bit ≠ x := by
  intro h
  have h' : x ^^^ 2 ^ bit = x ^^^ 0 := by rw [Nat.xor_zero]; exact h
  have := Nat.xor_right_inj.mp h'
  have := Nat.two_pow_pos bit
  omega

theorem flip_lt (x bit : Nat) (hx : x < 256) (hbit : bit < 8) : x ^^^ 2 ^ bit < 256 := by
  have h1 : x < 2 ^ 8 := by omega
  have h2 : 2 ^ bit < 2 ^ 8 := Nat.pow_lt_pow_right (by norm_num) hbit
  have := Nat.xor_lt_two_pow h1 h2
  omega

/-- After the payload `P` and its two register bytes, one of which has had a
bit inverted, the register is not zero. -/
theorem trailer_flip_nonzero (P rest : List Nat) (j bit : Nat) (hbit : bit < 8)
    (hj : j = P.length ∨ j = P.length + 1) :
    crcFeed (0xFF, 0xFF) ((flipBit (P ++ [(crcFeed (0xFF, 0xFF) P).1,
      (crcFeed (0xFF, 0xFF) P).2] ++ rest) j bit).take (P.length + 2)) ≠ (0, 0) := by
  have hinit : RegOK ((0xFF, 0xFF) : Nat × Nat) := by constructor <;> norm_num
  have hr : RegOK (crcFeed (0xFF, 0xFF) P) := crcFeed_ok _ hinit _
  intro h
  rcases hj with rfl | rfl
  · obtain ⟨t1, -, t3, -⟩ := tail_set_take (crcFeed (0xFF, 0xFF) P).1 (crcFeed (0xFF, 0xFF) P).2
      ((crcFeed (0xFF, 0xFF) P).1 ^^^ 2 ^ bit) rest P
    rw [flipBit, t3, t1, crcFeed_append] at h
    exact flip_ne _ bit
      (crcFeed_two_eq_zero _ hr _ _ (flip_lt _ bit hr.1 hbit) hr.2 h).1
  · obtain ⟨-, t2, -, t4⟩ := tail_set_take (crcFeed (0xFF, 0xFF) P).1 (crcFeed (0xFF, 0xFF) P).2
      ((crcFeed (0xFF, 0xFF) P).2 ^^^ 2 ^ bit) rest P
    rw [flipBit, t4, t2, crcFeed_append] at h
    exact flip_ne _ bit
      (crcFeed_two_eq_zero _ hr _ _ hr.1 (flip_lt _ bit hr.2 hbit) h).2

/-- C31. The CRC bytes are themselves protected: in a buffer completed by
SEND mode on a valid length `L`, inverting any single bit of either trailing
CRC byte (offset `L-2` or `L-1`) makes the following RECEIVE-mode check
return 0. -/
theorem crc_trailer_bit_flip_rejected (k : CommConst) (B S : List Nat) (L j bit : Nat)
    (hmodes : k.CRC_FOR_MSG_TO_REC ≠ k.CRC_FOR_MSG_TO_SEND)
    (h3 : 3 ≤ L) (hmax : L ≤ k.MAXMSGLEN + 1) (h8 : L < 256) (hlen : L ≤ B.length)
    (hS : ucCRC16_compute_msg_CRC k k.CRC_FOR_MSG_TO_SEND B L = some (1, S))
    (hj : j = L - 2 ∨ j = L - 1) (hbit : bit < 8) :
    ucCRC16_compute_msg_CRC k k.CRC_FOR_MSG_TO_REC (flipBit S j bit) L =
      some (0, flipBit S j bit) := by
  rw [compute_send_append k B L h3 hmax h8 hlen] at hS
  have hSeq := (Prod.mk.inj (Option.some.inj hS)).2
  have hl : (B.take (L - 2)).length = L - 2 := by rw [List.length_take]; omega
  have hSlen : L ≤ S.length := by
    rw [← hSeq]
    simp only [List.length_append, hl, List.length_cons, List.length_nil, List.length_drop]
    omega
  have hcore := trailer_flip_nonzero (B.take (L - 2)) (B.drop L) j bit hbit
    (by rw [hl]; omega)
  have e2 : L - 2 + 2 = L := by omega
  rw [hSeq, hl, e2] at hcore
  rw [compute_rec_eq k _ _ L hmodes h3 hmax h8
    (by simp only [flipBit, List.length_set]; exact hSlen)]
  have hnz : ¬ ((crcFeed (0xFF, 0xFF) ((flipBit S j bit).take L)).1 = 0 ∧
      (crcFeed (0xFF, 0xFF) ((flipBit S j bit).take L)).2 = 0) :=
    fun h => hcore (Prod.ext h.1 h.2)
  rw [if_neg hnz]

/-- C31, at a concrete input: bit 7 of the last CRC byte is inverted. -/
theorem crc_trailer_bit_flip_rejected_witness :
    ucCRC16_compute_msg_CRC ⟨64, 1, 0⟩ 0 (flipBit [0x31, 0x32, 0x3D, 0xBA] 3 7) 4 =
      some (0, flipBit [0x31, 0x32, 0x3D, 0xBA] 3 7) :=
  crc_trailer_bit_flip_rejected ⟨64, 1, 0⟩ [0x31, 0x32, 0, 0] [0x31, 0x32, 0x3D, 0xBA] 4 3 7
    (by decide) (by decide) (by decide) (by decide) (by decide) (by decide) (by decide)
    (by decide)

/-! ## Reads do not depend on leftover state: claim C32 -/

/-- Two runs of the sample loop of channel `k` that start with the same
counter, the request `k` and the same accumulator of channel `k` either both
wait for ever or both exit, with the same accumulator and the same results
left over. -/
theorem sampleLoop_congr (d : DeviceHeader) (k avgCount : Nat) (hk1 : 1 ≤ k) (hk4 : k ≤ 4) :
    ∀ (convs : List Nat) (m m' : Machine), m.g_uiCounter = m'.g_uiCounter →
      m.g_unActiveChannelRequest = k → m'.g_unActiveChannelRequest = k →
      accumulator k m = accumulator k m' →
      (sampleLoop d k avgCount convs m = Outcome.hang ∧
          sampleLoop d k avgCount convs m' = Outcome.hang) ∨
        ∃ m1 m1' rest, sampleLoop d k avgCount convs m = Outcome.ok (m1, rest) ∧
          sampleLoop d k avgCount convs m' = Outcome.ok (m1', rest) ∧
          accumulator k m1 = accumulator k m1' := by
  intro convs
  induction convs with
  | nil =>
    intro m m' hc _ _ ha
    by_cases h : m.g_uiCounter < avgCount
    · left
      exact ⟨by rw [sampleLoop, if_pos h], by rw [sampleLoop, if_pos (hc ▸ h)]⟩
    · right
      exact ⟨m, m', [], by rw [sampleLoop, if_neg h], by rw [sampleLoop, if_neg (hc ▸ h)], ha⟩
  | cons r rest ih =>
    intro m m' hc hq hq' ha
    by_cases h : m.g_uiCounter < avgCount
    · rw [sampleLoop, if_pos h, sampleLoop, if_pos (hc ▸ h), ← sampleIter_eq, ← sampleIter_eq]
      apply ih
      · rw [sampleIter_counter, sampleIter_counter, hc]
      · rw [sampleIter_request]; exact hq
      · rw [sampleIter_request]; exact hq'
      · rw [sampleIter_acc d k r m hk1 hk4 hq, sampleIter_acc d k r m' hk1 hk4 hq', ha]
    · right
      exact ⟨m, m', r :: rest, by rw [sampleLoop, if_neg h],
        by rw [sampleLoop, if_neg (hc ▸ h)], ha⟩

/-- The reading of the read routine of channel `k` is the same from any two
entry states. -/
theorem readBySteps_congr (d : DeviceHeader) (k avgCount : Nat) (hk1 : 1 ≤ k) (hk4 : k ≤ 4)
    (convs : List Nat) (m m' : Machine) :
    readingOf (readBySteps d k avgCount convs m) =
      readingOf (readBySteps d k avgCount convs m') := by
  rcases sampleLoop_congr d k avgCount hk1 hk4 convs (runSteps (armSteps d k) m)
      (runSteps (armSteps d k) m') (by rw [arm_counter, arm_counter]) (arm_request d k m)
      (arm_request d k m') (by rw [arm_acc, arm_acc]) with ⟨h1, h2⟩ | ⟨m1, m1', rest, h1, h2, ha⟩
  · simp only [readBySteps, h1, h2]
  · simp only [readBySteps, h1, h2]
    by_cases hN : avgCount = 0
    · simp only [hN, if_true]
    · simp only [hN, if_false, readingOf, teardown_acc, ha]

/-- C32. Reads are independent of leftover state: for every channel `k` in
1..4, every count and every sequence of conversion results, the read routine
gives the same reading (or in both runs none) whatever the four accumulators,
the completed-sample counter and the active-channel request held on entry;
for a count `N` in 1..255 with `N` results delivered, both runs return
`((r_1 + ... + r_N) mod 2^16) / N`. -/
theorem read_independent_of_leftover (d : DeviceHeader) (k N : Nat) (convs : List Nat)
    (m : Machine) (a1 a2 a3 a4 c q : Nat) (hk1 : 1 ≤ k) (hk4 : k ≤ 4) :
    readingOf (unLIGHT_ReadChannel d k N convs
        { m with g_unADChannelA1 := a1, g_unADChannelA2 := a2, g_unADChannelA3 := a3,
                 g_unADChannelA4 := a4, g_uiCounter := c, g_unActiveChannelRequest := q }) =
      readingOf (unLIGHT_ReadChannel d k N convs m) ∧
    ∀ rs rest, convs = rs ++ rest → rs.length = N → 1 ≤ N → N ≤ 255 →
      readingOf (unLIGHT_ReadChannel d k N convs m) = some (rs.sum % 65536 / N) ∧
      readingOf (unLIGHT_ReadChannel d k N convs
        { m with g_unADChannelA1 := a1, g_unADChannelA2 := a2, g_unADChannelA3 := a3,
                 g_unADChannelA4 := a4, g_uiCounter := c, g_unActiveChannelRequest := q }) =
        some (rs.sum % 65536 / N) := by
  rw [readChannel_eq d k _ _ _ hk1 hk4, readChannel_eq d k _ _ _ hk1 hk4]
  refine ⟨readBySteps_congr d k N hk1 hk4 convs _ _, ?_⟩
  intro rs rest hconvs hrs hN1 hN
  subst hconvs
  rw [readBySteps_run d k N rs rest _ hk1 hk4 hN1 hN hrs,
    readBySteps_run d k N rs rest _ hk1 hk4 hN1 hN hrs]
  exact ⟨rfl, rfl⟩

/-- C32, at channel 3 with a count of 4 and results 10, 20, 30, 41: from the
power-on state and from the same state with stale acquisition state, the
request left at another channel, the reading is 25. -/
theorem read_independent_of_leftover_witness :
    (readingOf (unLIGHT_ReadChannel msp430x23x 3 4 [10, 20, 30, 41, 99] powerOn) = some 25 ∧
      readingOf (unLIGHT_ReadChannel msp430x23x 3 4 [10, 20, 30, 41, 99]
        { powerOn with g_unADChannelA1 := 7, g_unADChannelA2 := 65535,
                       g_unADChannelA3 := 4000, g_unADChannelA4 := 1, g_uiCounter := 200,
                       g_unActiveChannelRequest := 2 }) = some 25) ∧
    (readingOf (unLIGHT_ReadChannel msp430x23x 3 4 [10, 20, 30, 41, 99]
        { powerOn with g_unADChannelA1 := 7, g_unADChannelA2 := 65535,
                       g_unADChannelA3 := 4000, g_unADChannelA4 := 1, g_uiCounter := 200,
                       g_unActiveChannelRequest := 2 }) =
      readingOf (unLIGHT_ReadChannel msp430x23x 3 4 [10, 20, 30, 41, 99] powerOn) ∧
    ∀ rs rest, [10, 20, 30, 41, 99] = rs ++ rest → rs.length = 4 → 1 ≤ 4 → 4 ≤ 255 →
      readingOf (unLIGHT_ReadChannel msp430x23x 3 4 [10, 20, 30, 41, 99] powerOn) =
        some (rs.sum % 65536 / 4) ∧
      readingOf (unLIGHT_ReadChannel msp430x23x 3 4 [10, 20, 30, 41, 99]
        { powerOn with g_unADChannelA1 := 7, g_unADChannelA2 := 65535,
                       g_unADChannelA3 := 4000, g_unADChannelA4 := 1, g_uiCounter := 200,
                       g_unActiveChannelRequest := 2 }) =
        some (rs.sum % 65536 / 4)) :=
  ⟨by decide,
    read_independent_of_leftover msp430x23x 3 4 [10, 20, 30, 41, 99] powerOn 7 65535 4000 1
      200 2 (by decide) (by decide)⟩

/-! ## The size of a report: claim C33 -/

/-- Slot 5 is clear in every reachable state. -/
theorem reachable_slot5 (d : DeviceHeader) (hal : Hal) (m : Machine) (h : Reachable d hal m) :
    slotAt m.S_Report 5 = ⟨[0, 0], 0, 0⟩ := by
  induction h with
  | clean m hshape =>
    rw [(clean_inv m hshape).2]
    rfl
  | dispatch m m' c len ret param convs convs' hr hstep ih =>
    rcases dispatch_store d hal c len ret param convs convs' m m'
      (storeInv_shape (reachable_inv d hal m hr)) hstep with ⟨-, he⟩ | ⟨hc, b0, b1, he⟩
    · rw [he]; exact ih
    · rw [he, slotAt_set_ne _ _ _ _ (by omega)]; exact ih
  | fetch m hr ih =>
    have hnf : ¬ flagged (slotAt m.S_Report 5) := by rw [ih]; decide
    rw [(fetch_post m.S_Report (reachable_inv d hal m hr)).2.2.2 5 hnf]
    exact ih

/-- The record of a slot that satisfies the invariant. -/
theorem recordIf_inv (i : Nat) (s : ReportSlot) (h : SlotInv s) :
    recordIf i s =
      if flagged s then [i, 2, s.m_ucaData.getD 0 0, s.m_ucaData.getD 1 0] else [] := by
  obtain ⟨data, len, fl⟩ := s
  obtain ⟨hd, hcase⟩ := h
  simp only at hd
  by_cases hf : flagged ⟨data, len, fl⟩
  · rcases hcase with ⟨-, hl⟩ | ⟨hnf, -⟩
    · simp only at hl
      subst hl
      match data, hd with
      | [a, b], _ =>
        rw [recordIf, if_pos hf, if_pos hf]
        rfl
    · exact absurd hf hnf
  · rw [recordIf, if_neg hf, if_neg hf]

theorem flatten_map_ite {α : Type} (p : Nat → Prop) [DecidablePred p] (f : Nat → List α) :
    ∀ l : List Nat, (l.map (fun i => if p i then f i else [])).flatten =
      ((l.filter (fun i => decide (p i))).map f).flatten := by
  intro l
  induction l with
  | nil => rfl
  | cons i l ih =>
    by_cases hp : p i
    · simp only [List.map_cons, List.flatten_cons, if_pos hp, List.filter_cons, hp, decide_True,
        if_true, ih]
    · simp only [List.map_cons, List.flatten_cons, if_neg hp, List.filter_cons, hp,
        decide_False, List.nil_append, ih]
      rfl

/-- The return value of a fetch is the number of bytes it stores. -/
theorem fetch_count_eq_length (S : List ReportSlot) (hS : StoreShape S)
    (hlen : ∀ s ∈ S, s.m_ucLength ≤ MAXDATALEN) :
    (ucMain_FetchData S).1 = (ucMain_FetchData S).2.1.length := by
  obtain ⟨h1, h2, -, -⟩ := fetchData_spec S hS hlen
  rw [h1, h2, reportBody, List.length_flatten, List.map_map]
  congr 1
  apply List.map_congr_left
  intro i hi
  have hi' : i < S.length := by rw [hS.1]; exact List.mem_range.mp hi
  exact (recordIf_length i _ (slotFits_of_shape S hS hlen i hi').1).symm

/-- The bytes a fetch stores from a store that satisfies the invariant and
has slot 5 clear: one four-byte record per flagged slot among 0..4. -/
theorem fetch_body_inv (S : List ReportSlot) (h : StoreInv S)
    (h5 : ¬ flagged (slotAt S 5)) :
    (ucMain_FetchData S).2.1 =
      ((flaggedSlots S 5).map (fun i =>
        [i, 2, (slotAt S i).m_ucaData.getD 0 0, (slotAt S i).m_ucaData.getD 1 0])).flatten := by
  obtain ⟨-, h2, -, -⟩ := fetchData_spec S (storeInv_shape h) (storeInv_len_le h)
  have hin : ∀ j, j < NUMDATGEN → SlotInv (slotAt S j) := fun j hj =>
    h.2 _ (slotAt_mem S j (by rw [h.1]; exact hj))
  have e : (List.range NUMDATGEN).map (fun i => recordIf i (slotAt S i)) =
      (List.range 5).map (fun i => if flagged (slotAt S i) then
        [i, 2, (slotAt S i).m_ucaData.getD 0 0, (slotAt S i).m_ucaData.getD 1 0] else []) ++
        [[]] := by
    have hr : List.range NUMDATGEN = List.range 5 ++ [5] := by decide
    rw [hr, List.map_append]
    congr 1
    · apply List.map_congr_left
      intro i hi
      exact recordIf_inv i _ (hin i (by have := List.mem_range.mp hi; unfold NUMDATGEN; omega))
    · simp only [List.map_cons, List.map_nil, recordIf, if_neg h5]
  rw [h2, reportBody, e, List.flatten_append, flaggedSlots,
    ← flatten_map_ite (fun i => flagged (slotAt S i))]
  simp

theorem flaggedSlots_length_le (S : List ReportSlot) (n : Nat) :
    (flaggedSlots S n).length ≤ n := by
  have := List.length_filter_le (fun i => decide (flagged (slotAt S i))) (List.range n)
  rw [List.length_range] at this
  exact this

theorem length_flatten_const {α : Type} (f : Nat → List α) (n : Nat)
    (hf : ∀ i, (f i).length = n) :
    ∀ l : List Nat, ((l.map f).flatten).length = n * l.length := by
  intro l
  induction l with
  | nil => rfl
  | cons i l ih =>
    simp only [List.map_cons, List.flatten_cons, List.length_append, List.length_cons, ih, hf]
    rw [Nat.mul_succ, Nat.add_comm]

/-- A returning dispatch leaves slot 5 as it is. -/
theorem dispatch_slot5 (d : DeviceHeader) (hal : Hal) (c len ret : Nat)
    (param convs convs' : List Nat) (m m' : Machine) (hS : StoreShape m.S_Report)
    (hstep : uiMainDispatch d hal c len param convs m = Outcome.ok (ret, m', convs')) :
    slotAt m'.S_Report 5 = slotAt m.S_Report 5 := by
  rcases dispatch_store d hal c len ret param convs convs' m m' hS hstep with
    ⟨-, he⟩ | ⟨hc, b0, b1, he⟩
  · rw [he]
  · rw [he, slotAt_set_ne _ _ _ _ (by omega)]

/-- C33. Bounded report size: no `uiMainDispatch` call writes slot 5, and in
every state reachable from `vMain_CleanDataStruct` through returning
`uiMainDispatch` calls and `ucMain_FetchData` calls slot 5 is clear; there
`ucMain_FetchData` stores exactly one record `[id, 2, data[0], data[1]]` for
each flagged slot among 0..4, by increasing ID, so every record has length
byte 2 and at most 20 bytes are stored; its return value is the number of
bytes stored, which the 8-bit counter holds without wrapping. -/
theorem bounded_report_size (d : DeviceHeader) (hal : Hal) (m : Machine)
    (h : Reachable d hal m) :
    slotAt m.S_Report 5 = ⟨[0, 0], 0, 0⟩ ∧
      (∀ c len ret param convs convs' m',
        uiMainDispatch d hal c len param convs m = Outcome.ok (ret, m', convs') →
        slotAt m'.S_Report 5 = slotAt m.S_Report 5) ∧
      (ucMain_FetchData m.S_Report).2.1 =
        ((flaggedSlots m.S_Report 5).map (fun i =>
          [i, 2, (slotAt m.S_Report i).m_ucaData.getD 0 0,
            (slotAt m.S_Report i).m_ucaData.getD 1 0])).flatten ∧
      (ucMain_FetchData m.S_Report).2.1.length = 4 * (flaggedSlots m.S_Report 5).length ∧
      (ucMain_FetchData m.S_Report).2.1.length ≤ 20 ∧
      (ucMain_FetchData m.S_Report).1 = (ucMain_FetchData m.S_Report).2.1.length ∧
      (ucMain_FetchData m.S_Report).1 < 256 := by
  have hinv := reachable_inv d hal m h
  have h5 := reachable_slot5 d hal m h
  have hnf : ¬ flagged (slotAt m.S_Report 5) := by rw [h5]; decide
  have hbody := fetch_body_inv m.S_Report hinv hnf
  have hlen : (ucMain_FetchData m.S_Report).2.1.length =
      4 * (flaggedSlots m.S_Report 5).length := by
    rw [hbody]
    exact length_flatten_const (fun i => [i, 2, (slotAt m.S_Report i).m_ucaData.getD 0 0,
      (slotAt m.S_Report i).m_ucaData.getD 1 0]) 4 (fun _ => rfl) _
  have hle := flaggedSlots_length_le m.S_Report 5
  have hcount := fetch_count_eq_length m.S_Report (storeInv_shape hinv) (storeInv_len_le hinv)
  refine ⟨h5, ?_, hbody, hlen, by omega, hcount, by omega⟩
  intro c len ret param convs convs' m' hstep
  exact dispatch_slot5 d hal c len ret param convs convs' m m' (storeInv_shape hinv) hstep

/-- C33, at the state reached from power-on by the clean-up, a dispatch of
command 0 and a dispatch of command 2: the fetch stores the two records
`[0, 2, 0xDE, 0xAD]` and `[2, 2, 0x01, 0x23]` and returns 8. -/
theorem bounded_report_size_witness :
    ucMain_FetchData afterTwoDispatches.S_Report =
        (8, [0, 2, 0xDE, 0xAD, 2, 2, 0x01, 0x23], List.replicate 6 ⟨[0, 0], 0, 0⟩) ∧
    (slotAt afterTwoDispatches.S_Report 5 = ⟨[0, 0], 0, 0⟩ ∧
      (∀ c len ret param convs convs' m',
        uiMainDispatch msp430x23x Hal.idle c len param convs afterTwoDispatches =
          Outcome.ok (ret, m', convs') →
        slotAt m'.S_Report 5 = slotAt afterTwoDispatches.S_Report 5) ∧
      (ucMain_FetchData afterTwoDispatches.S_Report).2.1 =
        ((flaggedSlots afterTwoDispatches.S_Report 5).map (fun i =>
          [i, 2, (slotAt afterTwoDispatches.S_Report i).m_ucaData.getD 0 0,
            (slotAt afterTwoDispatches.S_Report i).m_ucaData.getD 1 0])).flatten ∧
      (ucMain_FetchData afterTwoDispatches.S_Report).2.1.length =
        4 * (flaggedSlots afterTwoDispatches.S_Report 5).length ∧
      (ucMain_FetchData afterTwoDispatches.S_Report).2.1.length ≤ 20 ∧
      (ucMain_FetchData afterTwoDispatches.S_Report).1 =
        (ucMain_FetchData afterTwoDispatches.S_Report).2.1.length ∧
      (ucMain_FetchData afterTwoDispatches.S_Report).1 < 256) :=
  ⟨by decide, bounded_report_size msp430x23x Hal.idle afterTwoDispatches
    afterTwoDispatches_reachable⟩

/-! ## The latest reading wins: claim C34 -/

/-- Reading the slot IDs back from the records of slots whose lengths fit
their data gives the flagged slots among them, in order. -/
theorem recordIds_recordsOf (S : List ReportSlot) :
    ∀ (ids : List Nat) (budget : Nat), (∀ i ∈ ids, SlotFits (slotAt S i)) →
      (recordsOf S ids).length ≤ budget →
      recordIds budget (recordsOf S ids) =
        ids.filter (fun i => decide (flagged (slotAt S i))) := by
  intro ids
  induction ids with
  | nil =>
    intro budget _ _
    cases budget <;> rfl
  | cons i ids ih =>
    intro budget hfit hb
    have hfit' : ∀ j ∈ ids, SlotFits (slotAt S j) :=
      fun j hj => hfit j (List.mem_cons_of_mem _ hj)
    have hcons : recordsOf S (i :: ids) = recordIf i (slotAt S i) ++ recordsOf S ids := rfl
    by_cases hf : flagged (slotAt S i)
    · have hl := (hfit i (List.mem_cons_self _ _)).1
      have htake : ((slotAt S i).m_ucaData.take (slotAt S i).m_ucLength).length =
          (slotAt S i).m_ucLength := by
        rw [List.length_take]; exact Nat.min_eq_left hl
      have hrec : recordsOf S (i :: ids) = i :: (slotAt S i).m_ucLength ::
          ((slotAt S i).m_ucaData.take (slotAt S i).m_ucLength ++ recordsOf S ids) := by
        rw [hcons, recordIf, if_pos hf, record]
        rfl
      rw [hrec] at hb ⊢
      simp only [List.length_cons, List.length_append, htake] at hb
      match budget, hb with
      | b + 1, hb =>
        rw [recordIds, List.drop_left' htake, ih b hfit' (by omega), List.filter_cons]
        simp only [hf, decide_True, if_true]
    · have hrec : recordsOf S (i :: ids) = recordsOf S ids := by
        rw [hcons, recordIf, if_neg hf, List.nil_append]
      rw [hrec] at hb ⊢
      rw [ih budget hfit' hb, List.filter_cons]
      simp only [hf, decide_False]
      rfl

/-- The slot IDs read back from the bytes a fetch stores are the flagged
slots, by strictly increasing ID. -/
theorem fetch_recordIds (S : List ReportSlot) (hS : StoreShape S)
    (hlen : ∀ s ∈ S, s.m_ucLength ≤ MAXDATALEN) :
    recordIds (ucMain_FetchData S).2.1.length (ucMain_FetchData S).2.1 =
        flaggedSlots S NUMDATGEN ∧
      (flaggedSlots S NUMDATGEN).Pairwise (fun a b => a < b) ∧
      (flaggedSlots S NUMDATGEN).Nodup := by
  obtain ⟨-, h2, -, -⟩ := fetchData_spec S hS hlen
  have hb : (ucMain_FetchData S).2.1 = recordsOf S (List.range NUMDATGEN) := h2
  refine ⟨?_, List.Pairwise.filter _ (List.pairwise_lt_range _),
    List.Nodup.filter _ (List.nodup_range _)⟩
  rw [hb]
  exact recordIds_recordsOf S _ _
    (fun i hi => slotFits_of_shape S hS hlen i (by rw [hS.1]; exact List.mem_range.mp hi))
    (Nat.le_refl _)

/-- A dispatch keeps the shape of the store and the bound on the lengths. -/
theorem dispatch_keeps_fit (d : DeviceHeader) (hal : Hal) (c len ret : Nat)
    (param convs convs' : List Nat) (m m' : Machine) (hS : StoreShape m.S_Report)
    (hlen : ∀ s ∈ m.S_Report, s.m_ucLength ≤ MAXDATALEN)
    (hstep : uiMainDispatch d hal c len param convs m = Outcome.ok (ret, m', convs')) :
    StoreShape m'.S_Report ∧ ∀ s ∈ m'.S_Report, s.m_ucLength ≤ MAXDATALEN := by
  rcases dispatch_store d hal c len ret param convs convs' m m' hS hstep with
    ⟨-, he⟩ | ⟨-, b0, b1, he⟩
  · rw [he]; exact ⟨hS, hlen⟩
  · rw [he]
    refine ⟨⟨by rw [List.length_set]; exact hS.1, ?_⟩, ?_⟩
    · intro s hs
      rcases List.mem_or_eq_of_mem_set hs with h | h
      · exact hS.2 s h
      · rw [h]; rfl
    · intro s hs
      rcases List.mem_or_eq_of_mem_set hs with h | h
      · exact hlen s h
      · rw [h]; exact Nat.le_refl 2

/-- A returning dispatch of a channel command has run the read routine of
that channel to its return and stored its reading. -/
theorem dispatch_channel_inv (d : DeviceHeader) (hal : Hal) (k len ret : Nat)
    (param convs convs' : List Nat) (m m' : Machine) (hk1 : 1 ≤ k) (hk4 : k ≤ 4)
    (hstep : uiMainDispatch d hal k len param convs m = Outcome.ok (ret, m', convs')) :
    ∃ v m1, unLIGHT_ReadChannel d k m.g_uiAveCounter convs (vLight_Init d hal m) =
        Outcome.ok (v, m1, convs') ∧
      m' = vLight_Shutdown d hal { m1 with S_Report := storeReading m1.S_Report k v } := by
  have hnarrow : ∀ o : Outcome (Nat × Machine × List Nat),
      narrowRet o = Outcome.ok (ret, m', convs') → ∃ r, o = Outcome.ok (r, m', convs') := by
    intro o h
    cases o with
    | ok x =>
      obtain ⟨r, s, cs⟩ := x
      simp only [narrowRet] at h
      obtain ⟨-, h2⟩ := Prod.mk.inj (Outcome.ok.inj h)
      obtain ⟨rfl, rfl⟩ := Prod.mk.inj h2
      exact ⟨r, rfl⟩
    | hang => simp [narrowRet] at h
    | divZero => simp [narrowRet] at h
  obtain rfl | rfl | rfl | rfl : k = 1 ∨ k = 2 ∨ k = 3 ∨ k = 4 := by omega
  · simp only [uiMainDispatch] at hstep
    obtain ⟨r, h⟩ := hnarrow _ hstep
    unfold uiMain_SL1 at h
    simp only at h
    split at h
    · exact absurd h (by simp)
    · exact absurd h (by simp)
    · rename_i u m1 c1 hread
      obtain ⟨-, h2⟩ := Prod.mk.inj (Outcome.ok.inj h)
      obtain ⟨h3, rfl⟩ := Prod.mk.inj h2
      exact ⟨u, m1, hread, h3.symm⟩
  · simp only [uiMainDispatch] at hstep
    obtain ⟨r, h⟩ := hnarrow _ hstep
    unfold uiMain_SL2 at h
    simp only at h
    split at h
    · exact absurd h (by simp)
    · exact absurd h (by simp)
    · rename_i u m1 c1 hread
      obtain ⟨-, h2⟩ := Prod.mk.inj (Outcome.ok.inj h)
      obtain ⟨h3, rfl⟩ := Prod.mk.inj h2
      exact ⟨u, m1, hread, h3.symm⟩
  · simp only [uiMainDispatch] at hstep
    obtain ⟨r, h⟩ := hnarrow _ hstep
    unfold uiMain_SL3 at h
    simp only at h
    split at h
    · exact absurd h (by simp)
    · exact absurd h (by simp)
    · rename_i u m1 c1 hread
      obtain ⟨-, h2⟩ := Prod.mk.inj (Outcome.ok.inj h)
      obtain ⟨h3, rfl⟩ := Prod.mk.inj h2
      exact ⟨u, m1, hread, h3.symm⟩
  · simp only [uiMainDispatch] at hstep
    obtain ⟨r, h⟩ := hnarrow _ hstep
    unfold uiMain_SL4 at h
    simp only at h
    split at h
    · exact absurd h (by simp)
    · exact absurd h (by simp)
    · rename_i u m1 c1 hread
      obtain ⟨-, h2⟩ := Prod.mk.inj (Outcome.ok.inj h)
      obtain ⟨h3, rfl⟩ := Prod.mk.inj h2
      exact ⟨u, m1, hread, h3.symm⟩

/-- A dispatch of command 0. -/
theorem dispatch_test_eq (d : DeviceHeader) (hal : Hal) (len : Nat) (param convs : List Nat)
    (m : Machine) (hS : StoreShape m.S_Report) :
    uiMainDispatch d hal 0 len param convs m =
      Outcome.ok (0, { m with S_Report := (m.S_Report.set 0
        ⟨[0xDE, 0xAD], 2, bis8 (slotAt m.S_Report 0).m_ucFlags F_NEWDATA⟩) }, convs) := by
  have hl : 0 < m.S_Report.length := by rw [hS.1]; decide
  simp only [uiMainDispatch, uiMain_Test_eq m hl (hS.2 _ (slotAt_mem _ 0 hl)), narrowRet]

theorem recordsOf_append (S : List ReportSlot) (a b : List Nat) :
    recordsOf S (a ++ b) = recordsOf S a ++ recordsOf S b := by
  simp only [recordsOf, List.map_append, List.flatten_append]

/-- C34. Latest reading wins: when `uiMainDispatch(k, ...)` returns twice in
a row for the same `k` in 0..4, the following `ucMain_FetchData` stores the
records of the flagged slots below `k`, then the one record `[k, 2, b0, b1]`
of slot `k`, then the records of the flagged slots above `k`, where `b0, b1`
are the bytes the second call wrote: `0xDE, 0xAD` for `k = 0`, and the high
and low byte of the reading the second call's read routine returned for `k`
in 1..4.  The slot IDs read back from the stored bytes are the flagged slots
by strictly increasing ID, and `k` occurs among them exactly once. -/
theorem latest_reading_wins (d : DeviceHeader) (hal : Hal) (k len1 len2 ret1 ret2 : Nat)
    (param1 param2 convs1 convs1' convs2 convs2' : List Nat) (m m1 m2 : Machine)
    (hk : k ≤ 4) (hS : StoreShape m.S_Report)
    (hlen : ∀ s ∈ m.S_Report, s.m_ucLength ≤ MAXDATALEN)
    (h1 : uiMainDispatch d hal k len1 param1 convs1 m = Outcome.ok (ret1, m1, convs1'))
    (h2 : uiMainDispatch d hal k len2 param2 convs2 m1 = Outcome.ok (ret2, m2, convs2')) :
    ∃ b0 b1,
      (k = 0 → b0 = 0xDE ∧ b1 = 0xAD) ∧
      (1 ≤ k → ∃ v ms, unLIGHT_ReadChannel d k m1.g_uiAveCounter convs2
          (vLight_Init d hal m1) = Outcome.ok (v, ms, convs2') ∧
        b0 = v >>> 8 ∧ b1 = v &&& 0xFF) ∧
      (ucMain_FetchData m2.S_Report).2.1 =
        recordsOf m2.S_Report (List.range k) ++ [k, 2, b0, b1] ++
          recordsOf m2.S_Report (List.range' (k + 1) (NUMDATGEN - (k + 1))) ∧
      recordIds (ucMain_FetchData m2.S_Report).2.1.length (ucMain_FetchData m2.S_Report).2.1 =
        flaggedSlots m2.S_Report NUMDATGEN ∧
      (flaggedSlots m2.S_Report NUMDATGEN).Pairwise (fun a b => a < b) ∧
      (flaggedSlots m2.S_Report NUMDATGEN).count k = 1 := by
  obtain ⟨hS1, hlen1⟩ := dispatch_keeps_fit d hal k len1 ret1 param1 convs1 convs1' m m1 hS hlen h1
  obtain ⟨hS2, hlen2⟩ := dispatch_keeps_fit d hal k len2 ret2 param2 convs2 convs2' m1 m2 hS1
    hlen1 h2
  have hkl : k < m1.S_Report.length := by rw [hS1.1]; unfold NUMDATGEN; omega
  rcases dispatch_store d hal k len2 ret2 param2 convs2 convs2' m1 m2 hS1 h2 with
    ⟨hc, -⟩ | ⟨-, b0, b1, he⟩
  · omega
  have hslot : slotAt m2.S_Report k =
      ⟨[b0, b1], 2, bis8 (slotAt m1.S_Report k).m_ucFlags F_NEWDATA⟩ := by
    rw [he, slotAt_set_self _ _ _ hkl]
  have hflag : flagged (slotAt m2.S_Report k) := by rw [hslot]; exact bis8_flagged _
  obtain ⟨hids, hpair, hnodup⟩ := fetch_recordIds m2.S_Report hS2 hlen2
  refine ⟨b0, b1, ?_, ?_, ?_, hids, hpair, ?_⟩
  · intro hk0
    subst hk0
    rw [dispatch_test_eq d hal len2 param2 convs2 m1 hS1] at h2
    obtain ⟨-, h3⟩ := Prod.mk.inj (Outcome.ok.inj h2)
    obtain ⟨h4, -⟩ := Prod.mk.inj h3
    rw [← h4] at hslot
    simp only [slotAt_set_self _ _ _ hkl] at hslot
    have hd := congrArg ReportSlot.m_ucaData hslot
    simp only [List.cons.injEq, and_true] at hd
    exact ⟨hd.1.symm, hd.2.symm⟩
  · intro hk1
    obtain ⟨v, ms, hread, -⟩ := dispatch_channel_inv d hal k len2 ret2 param2 convs2 convs2'
      m1 m2 hk1 hk h2
    have hv : v < 65536 := by
      have hread' := hread
      rw [readChannel_eq d k _ _ _ hk1 hk] at hread'
      obtain ⟨-, -, -, -, -, hlt⟩ := readBySteps_ok d k _ _ _ _ _ _ hread'
      exact hlt
    obtain ⟨ret, m', h2', hs', -⟩ := dispatch_channel_slot d hal k len2 param2 convs2 convs2'
      m1 ms v hk1 hk hS1 hv hread
    rw [h2] at h2'
    obtain ⟨-, h3⟩ := Prod.mk.inj (Outcome.ok.inj h2')
    obtain ⟨h4, -⟩ := Prod.mk.inj h3
    rw [← h4, hslot] at hs'
    have hd := congrArg ReportSlot.m_ucaData hs'
    simp only [List.cons.injEq, and_true] at hd
    exact ⟨v, ms, hread, hd.1, hd.2⟩
  · obtain ⟨-, hbody, -, -⟩ := fetchData_spec m2.S_Report hS2 hlen2
    have hb : (ucMain_FetchData m2.S_Report).2.1 = recordsOf m2.S_Report (List.range NUMDATGEN) :=
      hbody
    have hsplit : List.range NUMDATGEN =
        List.range k ++ ([k] ++ List.range' (k + 1) (NUMDATGEN - (k + 1))) := by
      interval_cases k <;> decide
    have hrec : recordsOf m2.S_Report [k] = [k, 2, b0, b1] := by
      simp only [recordsOf, List.map_cons, List.map_nil, List.flatten_cons, List.flatten_nil,
        List.append_nil, recordIf, if_pos hflag]
      rw [hslot]
      rfl
    rw [hb, hsplit, recordsOf_append, recordsOf_append, hrec, List.append_assoc]
  · apply List.count_eq_one_of_mem hnodup
    rw [flaggedSlots, List.mem_filter]
    exact ⟨List.mem_range.mpr (by unfold NUMDATGEN; omega), by simpa using hflag⟩

/-- C34, at two dispatches of command 2 in a row, the first with sixteen
results `0x123` and the second with sixteen results `0x456`, after a dispatch
of command 0: the fetch stores the record of slot 0 and one record of slot 2
that carries `0x0456`. -/
theorem latest_reading_wins_witness :
    ucMain_FetchData afterThreeDispatches.S_Report =
        (8, [0, 2, 0xDE, 0xAD, 2, 2, 0x04, 0x56], List.replicate 6 ⟨[0, 0], 0, 0⟩) ∧
    ∃ b0 b1,
      (2 = 0 → b0 = 0xDE ∧ b1 = 0xAD) ∧
      (1 ≤ 2 → ∃ v ms, unLIGHT_ReadChannel msp430x23x 2 afterTwoDispatches.g_uiAveCounter
          (List.replicate 16 0x456) (vLight_Init msp430x23x Hal.idle afterTwoDispatches) =
            Outcome.ok (v, ms, []) ∧
        b0 = v >>> 8 ∧ b1 = v &&& 0xFF) ∧
      (ucMain_FetchData afterThreeDispatches.S_Report).2.1 =
        recordsOf afterThreeDispatches.S_Report (List.range 2) ++ [2, 2, b0, b1] ++
          recordsOf afterThreeDispatches.S_Report (List.range' (2 + 1) (NUMDATGEN - (2 + 1))) ∧
      recordIds (ucMain_FetchData afterThreeDispatches.S_Report).2.1.length
          (ucMain_FetchData afterThreeDispatches.S_Report).2.1 =
        flaggedSlots afterThreeDispatches.S_Report NUMDATGEN ∧
      (flaggedSlots afterThreeDispatches.S_Report NUMDATGEN).Pairwise (fun a b => a < b) ∧
      (flaggedSlots afterThreeDispatches.S_Report NUMDATGEN).count 2 = 1 :=
  ⟨by decide,
    latest_reading_wins msp430x23x Hal.idle 2 0 0 1 1 [] [] (List.replicate 16 0x123) []
      (List.replicate 16 0x456) [] (uiMain_Test (vMain_CleanDataStruct powerOn)).2
      afterTwoDispatches afterThreeDispatches (by decide) (by unfold StoreShape; decide)
      (by decide) rfl rfl⟩

end SPSL
